import Mathlib

/-! # DevTools network interceptor

A shallow embedding of `devtools/devtools_network_interceptor.cc`.

* A transaction pointer is a natural number; `mem` maps each pointer to the
  transaction object it refers to.
* `base::TimeTicks` and `base::TimeDelta` values are integers (microseconds);
  `base::TimeTicks::Now()` is the argument `now` of every operation that reads
  the clock.
* `int64_t` values are mathematical integers: `/` and `%` of the source are
  `Int.tdiv` and `Int.tmod` (truncation towards zero).  A division by a zero
  tick length and a `std::rotate` whose middle iterator lies before `begin()`
  have no defined result in the source, and the embedding returns `none` there.
* `DCHECK`s are not part of the embedded functions (release semantics).
* Calls made on transactions (`Fail()`, `FireThrottledCallback()`) are recorded,
  in order, in `calls`; the callbacks do not re-enter the interceptor.
-/

namespace DevTools

/-- The constant `kPacketSize` of the source. -/
def kPacketSize : Int := 1500

/-- The conditions value object, with the two attributes the interceptor reads. -/
structure DevToolsNetworkConditions where
  offline : Bool
  download_throughput : Int
deriving DecidableEq

/-- Modelled from the spec: `DevToolsNetworkConditions::IsThrottling` is declared
outside the source file; the conditions specify throttling when the download
throughput is non-zero (0 meaning unset). -/
def DevToolsNetworkConditions.IsThrottling (c : DevToolsNetworkConditions) : Bool :=
  c.download_throughput != 0

/-- Modelled from the spec: the default-constructed `DevToolsNetworkConditions()`,
which is declared outside the source file: online, throughput unset. -/
def DevToolsNetworkConditions.new : DevToolsNetworkConditions :=
  { offline := false, download_throughput := 0 }

/-- The interceptor-visible part of a transaction object: `request_initiator()`,
`request()` (true when non-null), `failed()` and `throttled_byte_count()`. -/
structure DevToolsNetworkTransaction where
  request_initiator : String
  request : Bool
  failed : Bool
  throttled_byte_count : Int
deriving DecidableEq

/-- Modelled from the spec: `DecreaseThrottledByteCount(n)`, declared outside the
source file, lowers the signed throttled byte count by `n`. -/
def DevToolsNetworkTransaction.DecreaseThrottledByteCount
    (t : DevToolsNetworkTransaction) (n : Int) : DevToolsNetworkTransaction :=
  { t with throttled_byte_count := t.throttled_byte_count - n }

/-- Modelled from the spec: `Fail()`, declared outside the source file, terminates
the transaction with an error, after which `failed()` holds.  This is its effect on
the transaction object; the calls it makes on the interceptor are the parameter
`onFail` of `failLoopWith`. -/
def DevToolsNetworkTransaction.Fail (t : DevToolsNetworkTransaction) :
    DevToolsNetworkTransaction :=
  { t with failed := true }

/-- A call the interceptor makes on a transaction. -/
inductive Call where
  | Fail (t : Nat)
  | FireThrottledCallback (t : Nat)
deriving DecidableEq

/-- The interceptor's members, the transaction objects its pointers refer to
(`mem`) and the record of the calls made on transactions (`calls`).
`timer_` is `some delay` after `timer_.Start(_, delay, _)` and `none` after
`timer_.Stop()`. -/
structure DevToolsNetworkInterceptor where
  conditions_ : DevToolsNetworkConditions
  transactions_ : List Nat
  throttled_transactions_ : List Nat
  offset_ : Int
  tick_length_ : Int
  last_tick_ : Int
  timer_ : Option Int
  mem : Nat → DevToolsNetworkTransaction
  calls : List Call

/-- Insertion `std::set::insert` on the ascending list of the set's elements. -/
def setInsert (t : Nat) : List Nat → List Nat
  | [] => [t]
  | x :: xs =>
    if t < x then t :: x :: xs
    else if t = x then x :: xs
    else x :: setInsert t xs

/-- Removal `std::set::erase(key)`. -/
def setErase (t : Nat) (l : List Nat) : List Nat :=
  l.filter (fun x => x != t)

/-- The value an `int64_t` takes when the exact result of an operation is `x`: the
representative of `x` modulo 2^64 between -2^63 and 2^63 - 1. -/
def wrapInt64 (x : Int) : Int :=
  (x + 9223372036854775808) % 18446744073709551616 - 9223372036854775808

/-- The value a `size_t` (64 bits wide) takes when the exact result of an
operation, or the signed value converted to it, is `x`: the representative of `x`
modulo 2^64 between 0 and 2^64 - 1. -/
def wrapUint64 (x : Int) : Int :=
  x % 18446744073709551616

/-- The integer `x` is a value of `int64_t`. -/
abbrev inInt64 (x : Int) : Prop :=
  -9223372036854775808 ≤ x ∧ x ≤ 9223372036854775807

/-- Assignment through a transaction pointer. -/
def store (mem : Nat → DevToolsNetworkTransaction) (t : Nat)
    (v : DevToolsNetworkTransaction) : Nat → DevToolsNetworkTransaction :=
  fun x => if x = t then v else mem x

namespace DevToolsNetworkInterceptor

/-- The constructor: default conditions, empty collections, default
`base::TimeTicks` and `base::TimeDelta` (zero), a stopped timer.  `last_tick_`
has no initializer in the constructor, so its value is a parameter. -/
def init (mem : Nat → DevToolsNetworkTransaction) (last_tick : Int) :
    DevToolsNetworkInterceptor :=
  { conditions_ := DevToolsNetworkConditions.new
    transactions_ := []
    throttled_transactions_ := []
    offset_ := 0
    tick_length_ := 0
    last_tick_ := last_tick
    timer_ := none
    mem := mem
    calls := [] }

/-- The method `AddTransaction`. -/
def AddTransaction (s : DevToolsNetworkInterceptor) (transaction : Nat) :
    DevToolsNetworkInterceptor :=
  { s with transactions_ := setInsert transaction s.transactions_ }

/-- The method `ShouldFail`. -/
def ShouldFail (s : DevToolsNetworkInterceptor) (transaction : Nat) : Bool :=
  if !s.conditions_.offline then false
  else if !((s.mem transaction).request_initiator == "") then false
  else true

/-- The method `ShouldThrottle`. -/
def ShouldThrottle (s : DevToolsNetworkInterceptor) (transaction : Nat) : Bool :=
  if !s.conditions_.IsThrottling then false
  else if !((s.mem transaction).request_initiator == "") then false
  else true

/-- The `for` loop of `UpdateThrottles`, from index `i` on: the transaction at
each position is decreased by `(ticks / length) * kPacketSize`, plus one more
packet when its position is below `shift`. -/
def decreaseLoop (ticks length shift : Int) :
    List Nat → Nat → (Nat → DevToolsNetworkTransaction) → (Nat → DevToolsNetworkTransaction)
  | [], _, mem => mem
  | t :: rest, i, mem =>
    decreaseLoop ticks length shift rest (i + 1)
      (store mem t ((mem t).DecreaseThrottledByteCount
        (ticks.tdiv length * kPacketSize + (if (i : Int) < shift then kPacketSize else 0))))

/-- The method `UpdateThrottles`, with the clock reading `now`. -/
def UpdateThrottles (s : DevToolsNetworkInterceptor) (now : Int) :
    Option DevToolsNetworkInterceptor :=
  if s.tick_length_ = 0 then none
  else
    let last_tick := (now - s.offset_).tdiv s.tick_length_
    let ticks := last_tick - s.last_tick_
    let length : Int := s.throttled_transactions_.length
    if length = 0 then some { s with last_tick_ := last_tick }
    else
      let shift := ticks.tmod length
      if shift < 0 then none
      else some
        { s with
          last_tick_ := last_tick
          mem := decreaseLoop ticks length shift s.throttled_transactions_ 0 s.mem
          throttled_transactions_ := s.throttled_transactions_.rotate shift.toNat }

/-- The `for` loop of `ArmTimer`, from index `i` on, with the running
`min_ticks_left`.  `packets_left` is computed in `int64_t`; in `ticks_left` the
operands `i` and `length` are `size_t`, so the difference `packets_left - 1` is
converted to unsigned, the product and the sums are taken modulo 2^64, and the
result is converted back to `int64_t`. -/
def minTicksLoop (mem : Nat → DevToolsNetworkTransaction) (length : Int) :
    List Nat → Nat → Int → Int
  | [], _, min_ticks_left => min_ticks_left
  | t :: rest, i, min_ticks_left =>
    let packets_left :=
      (wrapInt64 (wrapInt64 ((mem t).throttled_byte_count + kPacketSize) - 1)).tdiv kPacketSize
    let ticks_left :=
      wrapInt64 (wrapUint64 (wrapUint64 ((i : Int) + 1) +
        wrapUint64 (length * wrapUint64 (wrapInt64 (packets_left - 1)))))
    minTicksLoop mem length rest (i + 1)
      (if i = 0 ∨ ticks_left < min_ticks_left then ticks_left else min_ticks_left)

/-- The method `ArmTimer`, with the clock reading `now`.  `base::TimeTicks` and
`base::TimeDelta` hold a count of microseconds in an `int64_t`, and their sum,
difference and product with an `int64_t` are those of the counts. -/
def ArmTimer (s : DevToolsNetworkInterceptor) (now : Int) : DevToolsNetworkInterceptor :=
  if s.throttled_transactions_.length = 0 then s
  else
    let min_ticks_left :=
      minTicksLoop s.mem s.throttled_transactions_.length s.throttled_transactions_ 0 0x10000
    let desired_time :=
      wrapInt64 (s.offset_ + wrapInt64 (s.tick_length_ * wrapInt64 (s.last_tick_ + min_ticks_left)))
    { s with timer_ := some (wrapInt64 (desired_time - now)) }

/-- The method `RemoveTransaction`, with the clock reading `now`. -/
def RemoveTransaction (s : DevToolsNetworkInterceptor) (transaction : Nat) (now : Int) :
    Option DevToolsNetworkInterceptor :=
  let s1 := { s with transactions_ := setErase transaction s.transactions_ }
  if !s1.conditions_.IsThrottling then some s1
  else
    (s1.UpdateThrottles now).map fun s2 =>
      ArmTimer
        { s2 with
          throttled_transactions_ := s2.throttled_transactions_.filter (fun x => x != transaction) }
        now

/-- The loop of the offline branch of `UpdateConditions` over the copy
`old_transactions` of the active set, for a `Fail()` that makes no call on the
interceptor; `failLoopWith` below is the loop for a `Fail()` that does. -/
def failLoop : List Nat → DevToolsNetworkInterceptor → DevToolsNetworkInterceptor
  | [], s => s
  | t :: rest, s =>
    if !(s.transactions_.contains t) then failLoop rest s
    else if !(s.mem t).request || (s.mem t).failed then failLoop rest s
    else if s.ShouldFail t then
      failLoop rest
        { s with mem := store s.mem t (s.mem t).Fail, calls := s.calls ++ [Call.Fail t] }
    else failLoop rest s

/-- The tick length `us_tick_length` that the throttling branch of
`UpdateConditions` computes from the download throughput. -/
def usTickLength (download_throughput : Int) : Option Int :=
  if download_throughput = 0 then none
  else
    let us_tick_length := (1000000 * kPacketSize).tdiv download_throughput
    some (if us_tick_length = 0 then 1 else us_tick_length)

/-- The method `UpdateConditions`, with the clock reading `now`. -/
def UpdateConditions (s : DevToolsNetworkInterceptor) (conditions : DevToolsNetworkConditions)
    (now : Int) : Option DevToolsNetworkInterceptor :=
  (if s.conditions_.IsThrottling then s.UpdateThrottles now else some s).bind fun s0 =>
    let s1 := { s0 with conditions_ := conditions }
    if conditions.offline then
      let s2 := { s1 with timer_ := none, throttled_transactions_ := [] }
      some (failLoop s2.transactions_ s2)
    else if conditions.IsThrottling then
      (usTickLength conditions.download_throughput).map fun us_tick_length =>
        ArmTimer { s1 with offset_ := now, last_tick_ := 0, tick_length_ := us_tick_length } now
    else
      some
        { s1 with
          timer_ := none
          calls := s1.calls ++ s1.throttled_transactions_.map Call.FireThrottledCallback
          throttled_transactions_ := [] }

/-- The state after the transaction `t` has recorded its failure in a call of
`Fail()`: its `failed()` flag is set and the call is logged. -/
def recordFail (s : DevToolsNetworkInterceptor) (t : Nat) : DevToolsNetworkInterceptor :=
  { s with mem := store s.mem t (s.mem t).Fail, calls := s.calls ++ [Call.Fail t] }

/-- The loop of the offline branch of `UpdateConditions` over the copy
`old_transactions` of the active set, when `Fail()` calls back into the
interceptor.  `DevToolsNetworkTransaction::Fail` is not part of this file: the
parameter `onFail t` is what a call of `Fail()` on `t`, after the transaction has
recorded its failure, does to the interceptor through the calls it makes on it. -/
def failLoopWith (onFail : Nat → DevToolsNetworkInterceptor → DevToolsNetworkInterceptor) :
    List Nat → DevToolsNetworkInterceptor → DevToolsNetworkInterceptor
  | [], s => s
  | t :: rest, s =>
    if !(s.transactions_.contains t) then failLoopWith onFail rest s
    else if !(s.mem t).request || (s.mem t).failed then failLoopWith onFail rest s
    else if s.ShouldFail t then
      failLoopWith onFail rest (onFail t (recordFail s t))
    else failLoopWith onFail rest s

/-- The method `UpdateConditions`, with the clock reading `now`, when `Fail()`
calls back into the interceptor as `onFail` says.  `UpdateConditions` above is the
case of a `Fail()` that makes no call on the interceptor. -/
def UpdateConditionsWith
    (onFail : Nat → DevToolsNetworkInterceptor → DevToolsNetworkInterceptor)
    (s : DevToolsNetworkInterceptor) (conditions : DevToolsNetworkConditions)
    (now : Int) : Option DevToolsNetworkInterceptor :=
  (if s.conditions_.IsThrottling then s.UpdateThrottles now else some s).bind fun s0 =>
    let s1 := { s0 with conditions_ := conditions }
    if conditions.offline then
      let s2 := { s1 with timer_ := none, throttled_transactions_ := [] }
      some (failLoopWith onFail s2.transactions_ s2)
    else if conditions.IsThrottling then
      (usTickLength conditions.download_throughput).map fun us_tick_length =>
        ArmTimer { s1 with offset_ := now, last_tick_ := 0, tick_length_ := us_tick_length } now
    else
      some
        { s1 with
          timer_ := none
          calls := s1.calls ++ s1.throttled_transactions_.map Call.FireThrottledCallback
          throttled_transactions_ := [] }

/-- The method `OnTimer`, with the clock reading `now`. -/
def OnTimer (s : DevToolsNetworkInterceptor) (now : Int) : Option DevToolsNetworkInterceptor :=
  (s.UpdateThrottles now).map fun s1 =>
    let finished_transactions :=
      s1.throttled_transactions_.filter (fun t => decide ((s1.mem t).throttled_byte_count < 0))
    let active_transactions :=
      s1.throttled_transactions_.filter (fun t => !decide ((s1.mem t).throttled_byte_count < 0))
    ArmTimer
      { s1 with
        throttled_transactions_ := active_transactions
        calls := s1.calls ++ finished_transactions.map Call.FireThrottledCallback }
      now

/-- The method `ThrottleTransaction`, with the clock reading `now`. -/
def ThrottleTransaction (s : DevToolsNetworkInterceptor) (transaction : Nat) (now : Int) :
    Option DevToolsNetworkInterceptor :=
  (s.UpdateThrottles now).map fun s1 =>
    ArmTimer { s1 with throttled_transactions_ := s1.throttled_transactions_ ++ [transaction] } now

end DevToolsNetworkInterceptor

/-! ## Sequences of registration calls -/

/-- A call of `AddTransaction(t)`, or of `RemoveTransaction(t)` at clock reading
`now`. -/
inductive Registration where
  | add (t : Nat)
  | remove (t : Nat) (now : Int)
deriving DecidableEq

/-- The interceptor after a sequence of registration calls. -/
def runRegistrations :
    DevToolsNetworkInterceptor → List Registration → Option DevToolsNetworkInterceptor
  | s, [] => some s
  | s, Registration.add t :: rest => runRegistrations (s.AddTransaction t) rest
  | s, Registration.remove t now :: rest =>
    (s.RemoveTransaction t now).bind fun s1 => runRegistrations s1 rest

/-- The reference model of the active set, in the spec's words: insert on add,
delete on remove. -/
def referenceActiveSet : Finset Nat → List Registration → Finset Nat
  | A, [] => A
  | A, Registration.add t :: rest => referenceActiveSet (insert t A) rest
  | A, Registration.remove t _ :: rest => referenceActiveSet (A.erase t) rest

/-- The kind of the last call made on `t` in a sequence: `some true` for
`AddTransaction`, `some false` for `RemoveTransaction`, `none` when the sequence
has no call on `t`. -/
def lastRegistration (t : Nat) : List Registration → Option Bool
  | [] => none
  | Registration.add x :: rest =>
    match lastRegistration t rest with
    | some b => some b
    | none => if x = t then some true else none
  | Registration.remove x _ :: rest =>
    match lastRegistration t rest with
    | some b => some b
    | none => if x = t then some false else none

/-! ## Sequences of calls -/

/-- A call of one of the five methods that change the interceptor, with the clock
reading of the call for the methods that read the clock. -/
inductive Action where
  | add (t : Nat)
  | remove (t : Nat) (now : Int)
  | update (conditions : DevToolsNetworkConditions) (now : Int)
  | throttle (t : Nat) (now : Int)
  | timer (now : Int)

/-- The interceptor after one call. -/
def perform (s : DevToolsNetworkInterceptor) : Action → Option DevToolsNetworkInterceptor
  | Action.add t => some (s.AddTransaction t)
  | Action.remove t now => s.RemoveTransaction t now
  | Action.update conditions now => s.UpdateConditions conditions now
  | Action.throttle t now => s.ThrottleTransaction t now
  | Action.timer now => s.OnTimer now

/-- The condition on the caller: `ThrottleTransaction(t)` is called only for a
registered `t` for which `ShouldThrottle(t)` is true. -/
def admissible (s : DevToolsNetworkInterceptor) : Action → Bool
  | Action.throttle t _ => decide (t ∈ s.transactions_) && s.ShouldThrottle t
  | _ => true

/-- The interceptor after a sequence of calls, each of them admissible in the
state it is made in. -/
def runActions :
    DevToolsNetworkInterceptor → List Action → Option DevToolsNetworkInterceptor
  | s, [] => some s
  | s, a :: rest =>
    if admissible s a then (perform s a).bind fun s1 => runActions s1 rest else none

/-! ## Calls made from `Fail()` -/

/-- A `Fail()` on `t` that calls back into the interceptor leaves the other
transactions alone: the conditions, the registration of every other transaction,
its initiator, request and `failed()` flag are as before, and no `Fail()` call is
made from inside it. -/
def LeavesOthers
    (onFail : Nat → DevToolsNetworkInterceptor → DevToolsNetworkInterceptor) : Prop :=
  ∀ (t : Nat) (s : DevToolsNetworkInterceptor),
    (onFail t s).conditions_ = s.conditions_ ∧
    (∀ x, x ≠ t → (x ∈ (onFail t s).transactions_ ↔ x ∈ s.transactions_)) ∧
    (∀ x, x ≠ t →
      ((onFail t s).mem x).request_initiator = (s.mem x).request_initiator ∧
      ((onFail t s).mem x).request = (s.mem x).request ∧
      ((onFail t s).mem x).failed = (s.mem x).failed) ∧
    (∀ x, (onFail t s).calls.count (Call.Fail x) = s.calls.count (Call.Fail x))

/-- A `Fail()` that unregisters the failed transaction itself: the call of
`RemoveTransaction(t)` at time 0 from inside `Fail()` on `t`. -/
def failRemovesSelf (t : Nat) (s : DevToolsNetworkInterceptor) : DevToolsNetworkInterceptor :=
  (s.RemoveTransaction t 0).getD s

/-- A `Fail()` that unregisters another transaction: the call of
`RemoveTransaction(t + 1)` at time 0 from inside `Fail()` on `t`. -/
def failRemovesNext (t : Nat) (s : DevToolsNetworkInterceptor) : DevToolsNetworkInterceptor :=
  (s.RemoveTransaction (t + 1) 0).getD s

/-! ## Expressions of the reconciliation and of the timer -/

/-- The local `ticks` of `UpdateThrottles`: the ticks elapsed at clock reading
`now` since the last reconciliation. -/
def DevToolsNetworkInterceptor.elapsedTicks (s : DevToolsNetworkInterceptor) (now : Int) : Int :=
  (now - s.offset_).tdiv s.tick_length_ - s.last_tick_

/-- The first statement of `UpdateConditions`: the reconciliation made before the
conditions are swapped, when the previous conditions throttle. -/
def DevToolsNetworkInterceptor.reconcileBeforeSwap (s : DevToolsNetworkInterceptor)
    (now : Int) : Option DevToolsNetworkInterceptor :=
  if s.conditions_.IsThrottling then s.UpdateThrottles now else some s

/-- The local `packets_left` of `ArmTimer` for transaction `t`, computed in
`int64_t`. -/
def packetsLeft (mem : Nat → DevToolsNetworkTransaction) (t : Nat) : Int :=
  (wrapInt64 (wrapInt64 ((mem t).throttled_byte_count + kPacketSize) - 1)).tdiv kPacketSize

/-- The local `ticks_left` of `ArmTimer` at loop index `i`, for transaction `t` in
a queue of `length` entries, computed as the loop computes it. -/
def ticksLeftAt (mem : Nat → DevToolsNetworkTransaction) (length : Int) (i t : Nat) : Int :=
  wrapInt64 (wrapUint64 (wrapUint64 ((i : Int) + 1) +
    wrapUint64 (length * wrapUint64 (wrapInt64 (packetsLeft mem t - 1)))))

/-- The local `ticks_left` of `ArmTimer` for queue position `i`. -/
def ticksLeft (mem : Nat → DevToolsNetworkTransaction) (queue : List Nat) (i : Nat) : Int :=
  ticksLeftAt mem (queue.length : Int) i (queue.getD i 0)

/-- The local `min_ticks_left` of `ArmTimer` after its loop. -/
def DevToolsNetworkInterceptor.minTicksLeft (s : DevToolsNetworkInterceptor) : Int :=
  DevToolsNetworkInterceptor.minTicksLoop s.mem (s.throttled_transactions_.length : Int)
    s.throttled_transactions_ 0 0x10000

/-- A sequence of reconciliations: `UpdateThrottles` at each clock reading of the
list, in turn. -/
def reconcileAll :
    DevToolsNetworkInterceptor → List Int → Option DevToolsNetworkInterceptor
  | s, [] => some s
  | s, now :: rest => (s.UpdateThrottles now).bind fun s1 => reconcileAll s1 rest

/-- The ticks elapsed over a sequence of reconciliations: the sum of the local
`ticks` of the calls. -/
def elapsedAll : DevToolsNetworkInterceptor → List Int → Int
  | _, [] => 0
  | s, now :: rest =>
    s.elapsedTicks now +
      (match s.UpdateThrottles now with
       | some s1 => elapsedAll s1 rest
       | none => 0)

/-- Every reconciliation of the sequence returns and observes a non-negative
number of elapsed ticks. -/
def elapsedNonneg : DevToolsNetworkInterceptor → List Int → Bool
  | _, [] => true
  | s, now :: rest =>
    decide (0 ≤ s.elapsedTicks now) &&
      (match s.UpdateThrottles now with
       | some s1 => elapsedNonneg s1 rest
       | none => false)

/-- The state `s` is the state `s0` after `K` ticks of round-robin service: same
clock origin and tick length, `K` more ticks consumed, the queue of `s0` rotated
left `K` times, and at each position `i` of the queue of `s0` one packet
deducted for every tick `τ < K` with `τ mod N = i`. -/
def ServedRounds (s0 s : DevToolsNetworkInterceptor) (K : Nat) : Prop :=
  s.offset_ = s0.offset_ ∧ s.tick_length_ = s0.tick_length_ ∧
  s.last_tick_ = s0.last_tick_ + (K : Int) ∧
  s.throttled_transactions_ = s0.throttled_transactions_.rotate K ∧
  ∀ (i : Nat) (hi : i < s0.throttled_transactions_.length),
    (s.mem (s0.throttled_transactions_.get ⟨i, hi⟩)).throttled_byte_count =
      (s0.mem (s0.throttled_transactions_.get ⟨i, hi⟩)).throttled_byte_count -
        1500 * (Nat.count (fun τ => τ % s0.throttled_transactions_.length = i) K : Int)

/-- The bytes that the loop of `UpdateThrottles` takes from transaction `t`: over
the queue slots, from position `i` on, that hold `t`, the sum of the amounts of
their positions. -/
def slotSum (amount : Nat → Int) : List Nat → Nat → Nat → Int
  | [], _, _ => 0
  | x :: rest, i, t => (if x = t then amount i else 0) + slotSum amount rest (i + 1) t

/-- The naive single-tick step, in the words of the claim: deduct one packet from
the front transaction, then move it to the back. -/
def naiveTick :
    List Nat × (Nat → DevToolsNetworkTransaction) →
      List Nat × (Nat → DevToolsNetworkTransaction)
  | ([], mem) => ([], mem)
  | (t :: rest, mem) =>
    (rest ++ [t], store mem t ((mem t).DecreaseThrottledByteCount kPacketSize))

/-! ## Example states -/

/-- Transaction objects: 1 was initiated by a page, 2 has no outstanding request,
every other one is an implicit request in flight. -/
def exMem : Nat → DevToolsNetworkTransaction
  | 1 => { request_initiator := "page", request := true, failed := false,
           throttled_byte_count := 0 }
  | 2 => { request_initiator := "", request := false, failed := false,
           throttled_byte_count := 0 }
  | _ => { request_initiator := "", request := true, failed := false,
           throttled_byte_count := 0 }

/-- A fresh interceptor with transactions 0, 1 and 2 registered. -/
def exRegistered : DevToolsNetworkInterceptor :=
  (((DevToolsNetworkInterceptor.init exMem 0).AddTransaction 0).AddTransaction 1).AddTransaction 2

/-- Transaction objects that all are implicit requests in flight with throttled
byte count `d`. -/
def debtMem (d : Int) : Nat → DevToolsNetworkTransaction :=
  fun _ => { request_initiator := "", request := true, failed := false,
             throttled_byte_count := d }

/-- A fresh interceptor with transactions 0 and 1 registered, both implicit
requests in flight. -/
def exTwoRegistered : DevToolsNetworkInterceptor :=
  ((DevToolsNetworkInterceptor.init (debtMem 3000) 0).AddTransaction 0).AddTransaction 1

/-- One transaction: from a fresh interceptor (whose indeterminate `last_tick_`
is overwritten before it is read), register A = 0, set throttling at 1500 bytes/s
at time 0, throttle A at time 0 with throttled byte count 3000. -/
def scenarioOne : Option DevToolsNetworkInterceptor :=
  (((DevToolsNetworkInterceptor.init (debtMem 3000) 0).AddTransaction 0).UpdateConditions
    { offline := false, download_throughput := 1500 } 0).bind fun s =>
      s.ThrottleTransaction 0 0

/-- Two transactions: register A = 0 and B = 1, set throttling at 1500 bytes/s at
time 0, throttle A and then B at time 0 with throttled byte count 1500 each. -/
def scenarioTwo : Option DevToolsNetworkInterceptor :=
  ((((DevToolsNetworkInterceptor.init (debtMem 1500) 0).AddTransaction 0).AddTransaction
    1).UpdateConditions { offline := false, download_throughput := 1500 } 0).bind fun s =>
      (s.ThrottleTransaction 0 0).bind fun s1 => s1.ThrottleTransaction 1 0

/-- The state reached by `scenarioTwo`: queue `[0, 1]`. -/
def queuedPair : DevToolsNetworkInterceptor :=
  scenarioTwo.getD (DevToolsNetworkInterceptor.init (debtMem 1500) 0)

/-- One transaction queued twice: register transaction 0 (throttled byte count
3000), set throttling at 1500 bytes/s at time 0, pass transaction 0 to
`ThrottleTransaction` twice at time 0. -/
def scenarioTwice : Option DevToolsNetworkInterceptor :=
  (((DevToolsNetworkInterceptor.init (debtMem 3000) 0).AddTransaction 0).UpdateConditions
    { offline := false, download_throughput := 1500 } 0).bind fun s =>
      (s.ThrottleTransaction 0 0).bind fun s1 => s1.ThrottleTransaction 0 0

/-- The state reached by `scenarioTwice`: queue `[0, 0]`. -/
def queuedTwice : DevToolsNetworkInterceptor :=
  scenarioTwice.getD (DevToolsNetworkInterceptor.init (debtMem 3000) 0)

/-- The state reached by `scenarioOne`: queue `[0]`. -/
def queuedOnce : DevToolsNetworkInterceptor :=
  scenarioOne.getD (DevToolsNetworkInterceptor.init (debtMem 3000) 0)

/-- Transaction 0 queued twice and transaction 1 once: register 0 and 1 (throttled
byte count 9000 each), set throttling at 1500 bytes/s at time 0, pass 0, 0 and 1
to `ThrottleTransaction` at time 0. -/
def scenarioThrice : Option DevToolsNetworkInterceptor :=
  ((((DevToolsNetworkInterceptor.init (debtMem 9000) 0).AddTransaction 0).AddTransaction
    1).UpdateConditions { offline := false, download_throughput := 1500 } 0).bind fun s =>
      (s.ThrottleTransaction 0 0).bind fun s1 =>
        (s1.ThrottleTransaction 0 0).bind fun s2 => s2.ThrottleTransaction 1 0

/-- The state reached by `scenarioThrice`: queue `[0, 0, 1]`. -/
def queuedThrice : DevToolsNetworkInterceptor :=
  scenarioThrice.getD (DevToolsNetworkInterceptor.init (debtMem 9000) 0)

/-- Transaction objects that all are implicit requests in flight, with 200,000
packets left for transaction 0 and 100,000 packets left for every other one. -/
def unevenMem : Nat → DevToolsNetworkTransaction
  | 0 => { request_initiator := "", request := true, failed := false,
           throttled_byte_count := 300000000 }
  | _ => { request_initiator := "", request := true, failed := false,
           throttled_byte_count := 150000000 }

/-- The queue `[0, 1]` of `queuedPair` with the byte counts of `unevenMem`: both
`ticks_left` are above the initial `min_ticks_left` of `ArmTimer`, and the smaller
one is at position 1. -/
def queuedUneven : DevToolsNetworkInterceptor :=
  { queuedPair with mem := unevenMem }

/-- A slow link: register transaction 0 (throttled byte count 10^13), set
throttling at 1 byte/s at time 0, throttle transaction 0 at time 0. -/
def scenarioSlow : Option DevToolsNetworkInterceptor :=
  (((DevToolsNetworkInterceptor.init (debtMem 10000000000000) 0).AddTransaction
    0).UpdateConditions { offline := false, download_throughput := 1 } 0).bind fun s =>
      s.ThrottleTransaction 0 0

/-- The state reached by `scenarioSlow`: queue `[0]`, tick length 1,500,000,000. -/
def queuedSlow : DevToolsNetworkInterceptor :=
  scenarioSlow.getD (DevToolsNetworkInterceptor.init (debtMem 10000000000000) 0)

/-- The queue `[0]` with the largest value of `int64_t` as throttled byte count. -/
def queuedMax : DevToolsNetworkInterceptor :=
  { queuedOnce with mem := debtMem 9223372036854775807 }

/-- A queue of the 1501 transactions 0, ..., 1500, each with a throttled byte count
of 9,223,372,036,854,774,308, the largest to which 1499 can be added in
`int64_t`. -/
def queuedWide : DevToolsNetworkInterceptor :=
  { queuedOnce with
    throttled_transactions_ := List.range 1501
    mem := debtMem 9223372036854774308 }

/-- The state left by `OnTimer` at time 2,000,000, the time the timer was armed
for, in `scenarioOne`. -/
def firedOnce : DevToolsNetworkInterceptor :=
  (scenarioOne.bind fun s => s.OnTimer 2000000).getD
    (DevToolsNetworkInterceptor.init (debtMem 3000) 0)

/-- A sequence of calls: register 0 and 1, set throttling at 1500 bytes/s at time
0, throttle 0 and then 1 at time 0, let the timer fire at time 2,000,000, remove 0
at time 3,000,000. -/
def exActions : List Action :=
  [Action.add 0, Action.add 1,
   Action.update { offline := false, download_throughput := 1500 } 0,
   Action.throttle 0 0, Action.throttle 1 0, Action.timer 2000000,
   Action.remove 0 3000000]

/-- The state that `exActions` reaches from a fresh interceptor. -/
def exRun : DevToolsNetworkInterceptor :=
  (runActions (DevToolsNetworkInterceptor.init (debtMem 1500) 0) exActions).getD
    (DevToolsNetworkInterceptor.init (debtMem 1500) 0)

/-- The state of a fresh interceptor after `UpdateConditions` at time 0 with
conditions that are offline and carry a download throughput of 1500 bytes/s. -/
def exOfflineThrottling : DevToolsNetworkInterceptor :=
  ((DevToolsNetworkInterceptor.init (debtMem 3000) 0).UpdateConditions
    { offline := true, download_throughput := 1500 } 0).getD
    (DevToolsNetworkInterceptor.init (debtMem 3000) 0)

end DevTools

/-! # Theorems -/

namespace DevTools

open DevToolsNetworkInterceptor

/-! ## Frame lemmas -/

theorem store_same (mem : Nat → DevToolsNetworkTransaction) (t : Nat)
    (v : DevToolsNetworkTransaction) : store mem t v t = v := by
  simp [store]

theorem store_other (mem : Nat → DevToolsNetworkTransaction) (t x : Nat)
    (v : DevToolsNetworkTransaction) (h : x ≠ t) : store mem t v x = mem x := by
  simp [store, h]

/-- The decrease loop touches nothing but throttled byte counts. -/
theorem decreaseLoop_frame (ticks length shift : Int) (l : List Nat) :
    ∀ (i : Nat) (mem : Nat → DevToolsNetworkTransaction) (x : Nat),
      (decreaseLoop ticks length shift l i mem x).request_initiator = (mem x).request_initiator ∧
      (decreaseLoop ticks length shift l i mem x).request = (mem x).request ∧
      (decreaseLoop ticks length shift l i mem x).failed = (mem x).failed := by
  induction l with
  | nil => intro i mem x; simp [decreaseLoop]
  | cons t rest ih =>
    intro i mem x
    simp only [decreaseLoop]
    have h := ih (i + 1) (store mem t ((mem t).DecreaseThrottledByteCount
        (ticks.tdiv length * kPacketSize + (if (i : Int) < shift then kPacketSize else 0)))) x
    by_cases hx : x = t
    · subst hx
      simpa [store, DevToolsNetworkTransaction.DecreaseThrottledByteCount] using h
    · simpa [store, hx] using h

/-- What `UpdateThrottles` leaves alone. -/
theorem UpdateThrottles_frame {s s' : DevToolsNetworkInterceptor} {now : Int}
    (h : s.UpdateThrottles now = some s') :
    s'.conditions_ = s.conditions_ ∧ s'.transactions_ = s.transactions_ ∧
    s'.offset_ = s.offset_ ∧ s'.tick_length_ = s.tick_length_ ∧
    s'.timer_ = s.timer_ ∧ s'.calls = s.calls ∧
    (∀ x, (s'.mem x).request_initiator = (s.mem x).request_initiator ∧
      (s'.mem x).request = (s.mem x).request ∧ (s'.mem x).failed = (s.mem x).failed) := by
  unfold UpdateThrottles at h
  split at h
  · exact absurd h (by simp)
  · simp only at h
    split at h
    · cases h; simp
    · split at h
      · exact absurd h (by simp)
      · cases h
        refine ⟨rfl, rfl, rfl, rfl, rfl, rfl, ?_⟩
        intro x
        exact decreaseLoop_frame _ _ _ _ _ _ _


/-- C1: `ShouldThrottle(t)` is true exactly when the current conditions specify
throttling and the request initiator of `t` is the empty string. -/
theorem ShouldThrottle_iff (s : DevToolsNetworkInterceptor) (t : Nat) :
    s.ShouldThrottle t = true ↔
      (s.conditions_.IsThrottling = true ∧ (s.mem t).request_initiator = "") := by
  unfold ShouldThrottle
  cases hthr : s.conditions_.IsThrottling <;> by_cases hi : (s.mem t).request_initiator = "" <;>
    simp [hi]

/-- C2: `ShouldFail(t)` is true exactly when the current conditions are offline
and the request initiator of `t` is the empty string. -/
theorem ShouldFail_iff (s : DevToolsNetworkInterceptor) (t : Nat) :
    s.ShouldFail t = true ↔
      (s.conditions_.offline = true ∧ (s.mem t).request_initiator = "") := by
  unfold ShouldFail
  cases hoff : s.conditions_.offline <;> by_cases hi : (s.mem t).request_initiator = "" <;>
    simp [hi]

/-- The two tests of `ShouldFail`, as used for the offline branch. -/
theorem ShouldFail_true_iff (s : DevToolsNetworkInterceptor) (t : Nat) :
    s.ShouldFail t = true ↔
      (s.conditions_.offline = true ∧ (s.mem t).request_initiator = "") := by
  unfold ShouldFail
  cases hoff : s.conditions_.offline <;> by_cases hi : (s.mem t).request_initiator = "" <;>
    simp [hi]

/-! ## The offline branch -/

/-- What the fail loop leaves alone. -/
theorem failLoop_frame (l : List Nat) :
    ∀ s : DevToolsNetworkInterceptor,
      (failLoop l s).conditions_ = s.conditions_ ∧
      (failLoop l s).transactions_ = s.transactions_ ∧
      (failLoop l s).throttled_transactions_ = s.throttled_transactions_ ∧
      (failLoop l s).timer_ = s.timer_ ∧
      (∀ x, ((failLoop l s).mem x).request_initiator = (s.mem x).request_initiator ∧
        ((failLoop l s).mem x).request = (s.mem x).request) := by
  induction l with
  | nil => intro s; simp [failLoop]
  | cons t rest ih =>
    intro s
    simp only [failLoop]
    split
    · exact ih s
    · split
      · exact ih s
      · split
        · have h := ih { s with mem := store s.mem t (s.mem t).Fail,
                                calls := s.calls ++ [Call.Fail t] }
          refine ⟨h.1, h.2.1, h.2.2.1, h.2.2.2.1, ?_⟩
          intro x
          have hx := h.2.2.2.2 x
          by_cases hxt : x = t
          · subst hxt
            simpa [store, DevToolsNetworkTransaction.Fail] using hx
          · simpa [store, hxt] using hx
        · exact ih s

/-- What `ArmTimer` leaves alone: everything but the timer. -/
theorem ArmTimer_frame (s : DevToolsNetworkInterceptor) (now : Int) :
    (s.ArmTimer now).conditions_ = s.conditions_ ∧
    (s.ArmTimer now).transactions_ = s.transactions_ ∧
    (s.ArmTimer now).throttled_transactions_ = s.throttled_transactions_ ∧
    (s.ArmTimer now).offset_ = s.offset_ ∧
    (s.ArmTimer now).tick_length_ = s.tick_length_ ∧
    (s.ArmTimer now).last_tick_ = s.last_tick_ ∧
    (s.ArmTimer now).mem = s.mem ∧
    (s.ArmTimer now).calls = s.calls := by
  unfold ArmTimer
  split <;> simp

/-- The reconciliation returns when the tick length is non-zero and either the
queue is empty or no negative number of ticks has elapsed. -/
theorem UpdateThrottles_isSome (s : DevToolsNetworkInterceptor) (now : Int)
    (htick : s.tick_length_ ≠ 0)
    (hticks : s.throttled_transactions_ = [] ∨
      0 ≤ (now - s.offset_).tdiv s.tick_length_ - s.last_tick_) :
    ∃ s', s.UpdateThrottles now = some s' := by
  unfold UpdateThrottles
  rw [if_neg htick]
  simp only
  split
  · exact ⟨_, rfl⟩
  · rename_i hlen
    rcases hticks with hq | hq
    · exact absurd (by simp [hq]) hlen
    · have hs : ¬ ((now - s.offset_).tdiv s.tick_length_ - s.last_tick_).tmod
          (s.throttled_transactions_.length : Int) < 0 := by
        have := Int.tmod_nonneg (s.throttled_transactions_.length : Int) hq
        omega
      rw [if_neg hs]
      exact ⟨_, rfl⟩

/-- `UpdateConditions` returns whenever its reconciliation before the swap does. -/
theorem UpdateConditions_isSome (s : DevToolsNetworkInterceptor)
    (c : DevToolsNetworkConditions) (now : Int)
    (hpre : s.conditions_.IsThrottling = true → ∃ s0, s.UpdateThrottles now = some s0) :
    ∃ s', s.UpdateConditions c now = some s' := by
  have hpre' : ∃ s0, (if s.conditions_.IsThrottling then s.UpdateThrottles now else some s) =
      some s0 := by
    by_cases hthr : s.conditions_.IsThrottling = true
    · obtain ⟨s0, hs0⟩ := hpre hthr
      exact ⟨s0, by rw [if_pos hthr]; exact hs0⟩
    · exact ⟨s, by rw [if_neg hthr]⟩
  obtain ⟨s0, hs0⟩ := hpre'
  unfold UpdateConditions
  rw [hs0]
  simp only [Option.some_bind]
  by_cases hoff : c.offline = true
  · rw [if_pos hoff]; exact ⟨_, rfl⟩
  · rw [if_neg hoff]
    by_cases hthr : c.IsThrottling = true
    · rw [if_pos hthr]
      have hd : c.download_throughput ≠ 0 := by
        simpa [DevToolsNetworkConditions.IsThrottling] using hthr
      simp only [usTickLength, if_neg hd, Option.map_some']
      exact ⟨_, rfl⟩
    · rw [if_neg hthr]; exact ⟨_, rfl⟩

/-! ## The scenarios -/

/-- C4: in the one-transaction scenario the timer is armed 2,000,000
microseconds ahead; when `OnTimer` runs at that time the byte count of A is 0,
but A is still in the throttled queue, no throttled callback has been made, and
the timer is re-armed with delay 0; A is released by an `OnTimer` one tick later,
when its byte count is -1500. -/
theorem OnTimer_single_at_zero_not_released :
    scenarioOne.map (fun s => (s.throttled_transactions_, s.tick_length_, s.timer_)) =
      some ([0], 1000000, some 2000000) ∧
    (scenarioOne.bind fun s => s.OnTimer 2000000).map
        (fun s => ((s.mem 0).throttled_byte_count, s.throttled_transactions_, s.calls,
          s.timer_)) =
      some (0, [0], [], some 0) ∧
    (scenarioOne.bind fun s => s.OnTimer 3000000).map
        (fun s => ((s.mem 0).throttled_byte_count, s.throttled_transactions_, s.calls)) =
      some (-1500, [], [Call.FireThrottledCallback 0]) := by
  decide!

/-- C5: in the two-transaction scenario, when `OnTimer` runs after one tick the
byte count of A is 0 and that of B is 1500, the queue has rotated to `[B, A]`,
but A is still queued, no throttled callback has been made, and the timer is
re-armed with delay 0. -/
theorem OnTimer_pair_at_zero_not_released :
    scenarioTwo.map (fun s => (s.throttled_transactions_, s.timer_)) =
      some ([0, 1], some 1000000) ∧
    (scenarioTwo.bind fun s => s.OnTimer 1000000).map
        (fun s => ((s.mem 0).throttled_byte_count, (s.mem 1).throttled_byte_count,
          s.throttled_transactions_, s.calls, s.timer_)) =
      some (0, 1500, [1, 0], [], some 0) := by
  decide!


/-! ## The distribution loop -/

/-- The decrease loop leaves a transaction that is not in the queue untouched. -/
theorem decreaseLoop_not_mem (ticks length shift : Int) (l : List Nat) :
    ∀ (i : Nat) (mem : Nat → DevToolsNetworkTransaction) (t : Nat), t ∉ l →
      decreaseLoop ticks length shift l i mem t = mem t := by
  induction l with
  | nil => intro i mem t _; rfl
  | cons x rest ih =>
    intro i mem t ht
    have hne : t ≠ x := fun h => ht (by simp [h])
    have hrest : t ∉ rest := fun h => ht (by simp [h])
    simp only [decreaseLoop]
    rw [ih _ _ t hrest, store_other _ _ _ _ hne]

/-- On a duplicate-free queue the transaction at position `k` of the part still
to be processed is decreased by the amount of queue position `i + k`. -/
theorem decreaseLoop_get (ticks length shift : Int) (l : List Nat) :
    ∀ (i : Nat) (mem : Nat → DevToolsNetworkTransaction), l.Nodup →
      ∀ (k : Nat) (hk : k < l.length),
        (decreaseLoop ticks length shift l i mem (l.get ⟨k, hk⟩)).throttled_byte_count =
          (mem (l.get ⟨k, hk⟩)).throttled_byte_count -
            (ticks.tdiv length * kPacketSize +
              (if ((i + k : Nat) : Int) < shift then kPacketSize else 0)) := by
  induction l with
  | nil => intro i mem _ k hk; exact absurd hk (by simp)
  | cons x rest ih =>
    intro i mem hnd k hk
    have hx : x ∉ rest := (List.nodup_cons.mp hnd).1
    have hrest : rest.Nodup := (List.nodup_cons.mp hnd).2
    simp only [decreaseLoop]
    cases k with
    | zero =>
      show (decreaseLoop ticks length shift rest (i + 1) _ x).throttled_byte_count = _
      rw [decreaseLoop_not_mem _ _ _ _ _ _ _ hx, store_same]
      rfl
    | succ k =>
      have hk' : k < rest.length := by simpa using hk
      have hne : rest.get ⟨k, hk'⟩ ≠ x := by
        intro h
        exact hx (h ▸ List.get_mem rest k hk')
      have h := ih (i + 1)
        (store mem x ((mem x).DecreaseThrottledByteCount
          (ticks.tdiv length * kPacketSize + (if (i : Int) < shift then kPacketSize else 0))))
        hrest k hk'
      rw [store_other _ _ _ _ hne] at h
      have hidx : i + 1 + k = i + (k + 1) := by omega
      rw [hidx] at h
      simpa using h

/-- C6, at a queue holding one transaction twice: the calls of `scenarioTwice`
reach the queue `[0, 0]`, and with exactly 2 elapsed ticks the reconciliation
lowers the byte count of transaction 0 from 3000 to 0, by two packets and not by
one. -/
theorem UpdateThrottles_full_round_queued_twice :
    scenarioTwice = some queuedTwice ∧
    queuedTwice.throttled_transactions_ = [0, 0] ∧
    (2000000 - queuedTwice.offset_).tdiv queuedTwice.tick_length_ - queuedTwice.last_tick_ = 2 ∧
    (queuedTwice.mem 0).throttled_byte_count = 3000 ∧
    (queuedTwice.UpdateThrottles 2000000).map
        (fun s => ((s.mem 0).throttled_byte_count, s.throttled_transactions_)) =
      some (0, [0, 0]) ∧
    (queuedTwice.UpdateThrottles 2000000).map (fun s => (s.mem 0).throttled_byte_count) ≠
      some (3000 - kPacketSize) :=
  ⟨rfl, by decide!, by decide!, by decide!, by decide!, by decide!⟩

/-- C6, amended: for every throttled queue of length N >= 1 whose transactions
are pairwise distinct, a reconciliation that observes exactly N elapsed ticks
returns, lowers the throttled byte count of every queued transaction by exactly
one packet (1500 bytes) and leaves the queue order unchanged. -/
theorem UpdateThrottles_full_round (s : DevToolsNetworkInterceptor) (now : Int)
    (htick : s.tick_length_ ≠ 0)
    (hlen : 1 ≤ s.throttled_transactions_.length)
    (hnd : s.throttled_transactions_.Nodup)
    (hticks : (now - s.offset_).tdiv s.tick_length_ - s.last_tick_ =
      (s.throttled_transactions_.length : Int)) :
    ∃ s', s.UpdateThrottles now = some s' ∧
      s'.throttled_transactions_ = s.throttled_transactions_ ∧
      ∀ t ∈ s.throttled_transactions_,
        (s'.mem t).throttled_byte_count = (s.mem t).throttled_byte_count - 1500 := by
  have hN : (s.throttled_transactions_.length : Int) ≠ 0 := by omega
  unfold UpdateThrottles
  rw [if_neg htick]
  simp only [hticks, if_neg hN, Int.tmod_self, lt_irrefl, if_false, Int.toNat_zero,
    List.rotate_zero]
  refine ⟨_, rfl, rfl, ?_⟩
  intro t ht
  obtain ⟨⟨k, hk⟩, rfl⟩ := List.mem_iff_get.mp ht
  simp only
  rw [decreaseLoop_get _ _ _ _ _ _ hnd k hk, Int.tdiv_self hN]
  have : ¬ (((0 + k : Nat) : Int) < 0) := by omega
  rw [if_neg this]
  simp [kPacketSize]

/-- Witness for C6: queue `[0, 1]` and exactly 2 elapsed ticks. -/
theorem UpdateThrottles_full_round_witness :
    ∃ s', queuedPair.UpdateThrottles 2000000 = some s' ∧
      s'.throttled_transactions_ = queuedPair.throttled_transactions_ ∧
      ∀ t ∈ queuedPair.throttled_transactions_,
        (s'.mem t).throttled_byte_count = (queuedPair.mem t).throttled_byte_count - 1500 :=
  UpdateThrottles_full_round queuedPair 2000000 (by decide!) (by decide!) (by decide!)
    (by decide!)


/-! ## Tick length -/

/-- For a positive throughput the computed tick length is the floor of
`1500 * 1000000 / d`, raised to 1 when that is 0. -/
theorem usTickLength_of_pos (d : Int) (hd : 0 < d) :
    usTickLength d = some (max 1 (1500 * 1000000 / d)) := by
  unfold usTickLength
  rw [if_neg (by omega)]
  simp only [kPacketSize]
  have hq : (1000000 * 1500 : Int).tdiv d = 1500 * 1000000 / d := by
    rw [Int.tdiv_eq_ediv (by norm_num) (le_of_lt hd)]
    norm_num
  rw [hq]
  have hnn : 0 ≤ (1500 * 1000000 : Int) / d := Int.ediv_nonneg (by norm_num) (le_of_lt hd)
  by_cases h0 : (1500 * 1000000 : Int) / d = 0
  · rw [if_pos h0, h0]; rfl
  · rw [if_neg h0, max_eq_right (by omega)]

/-- The tick length stored by a returning `UpdateConditions` with online
conditions of positive throughput. -/
theorem UpdateConditions_tick_length_eq (s s' : DevToolsNetworkInterceptor)
    (c : DevToolsNetworkConditions) (now : Int)
    (hon : c.offline = false) (hd : 0 < c.download_throughput)
    (h : s.UpdateConditions c now = some s') :
    s'.tick_length_ = max 1 (1500 * 1000000 / c.download_throughput) := by
  have hthr : c.IsThrottling = true := by
    simp [DevToolsNetworkConditions.IsThrottling]; omega
  unfold UpdateConditions at h
  obtain ⟨s0, _, h⟩ := Option.bind_eq_some.mp h
  simp only [hon, hthr, if_true, Bool.false_eq_true, if_false, usTickLength_of_pos _ hd,
    Option.map_some'] at h
  have h' := (Option.some.inj h).symm
  rw [h', (ArmTimer_frame _ now).2.2.2.2.1]

/-- C7: for a positive download throughput `d`, `UpdateConditions` with online
throttling conditions returns and sets the tick length to
`max 1 (floor (1500 * 1000000 / d))` microseconds: 1,000,000 for `d = 1500`, and
1 for every `d > 1,500,000,000`; it is never zero.  The reconciliation before the
swap, when there is one, is defined. -/
theorem UpdateConditions_tick_length (s : DevToolsNetworkInterceptor)
    (c : DevToolsNetworkConditions) (now : Int)
    (hon : c.offline = false) (hd : 0 < c.download_throughput)
    (hpre : s.conditions_.IsThrottling = true → ∃ s0, s.UpdateThrottles now = some s0) :
    ∃ s', s.UpdateConditions c now = some s' ∧
      s'.tick_length_ = max 1 (1500 * 1000000 / c.download_throughput) ∧
      (c.download_throughput = 1500 → s'.tick_length_ = 1000000) ∧
      (1500000000 < c.download_throughput → s'.tick_length_ = 1) ∧
      0 < s'.tick_length_ := by
  obtain ⟨s', h⟩ := UpdateConditions_isSome s c now hpre
  have hmain := UpdateConditions_tick_length_eq s s' c now hon hd h
  refine ⟨s', h, hmain, ?_, ?_, ?_⟩
  · intro h1500
    rw [hmain, h1500]
    decide
  · intro hbig
    rw [hmain, Int.ediv_eq_zero_of_lt (by norm_num) (by omega)]
    rfl
  · rw [hmain]
    exact lt_of_lt_of_le one_pos (le_max_left _ _)

/-- Witness for C7: a fresh interceptor set to throttling at 1500 bytes/s. -/
theorem UpdateConditions_tick_length_witness :
    ∃ s', (init (debtMem 3000) 0).UpdateConditions
        { offline := false, download_throughput := 1500 } 0 = some s' ∧
      s'.tick_length_ = max 1 (1500 * 1000000 / 1500) ∧
      ((1500 : Int) = 1500 → s'.tick_length_ = 1000000) ∧
      ((1500000000 : Int) < 1500 → s'.tick_length_ = 1) ∧
      0 < s'.tick_length_ :=
  UpdateConditions_tick_length (init (debtMem 3000) 0)
    { offline := false, download_throughput := 1500 } 0 rfl (by decide)
    (fun h => absurd h (by decide))

/-- C8: from a fresh interceptor, `UpdateConditions` with conditions that are
offline and carry a throughput of 1500 bytes/s returns a state whose conditions
specify throttling while the tick length is still 0; `RemoveTransaction` from
that state divides by the zero tick length. -/
theorem UpdateConditions_offline_keeps_zero_tick_length :
    (init (debtMem 3000) 0).UpdateConditions { offline := true, download_throughput := 1500 } 0 =
      some exOfflineThrottling ∧
    exOfflineThrottling.conditions_.IsThrottling = true ∧
    exOfflineThrottling.tick_length_ = 0 ∧
    (exOfflineThrottling.RemoveTransaction 0 1).isNone = true :=
  ⟨rfl, by decide!, by decide!, by decide!⟩


/-! ## The active set -/

theorem mem_setInsert (t x : Nat) (l : List Nat) : x ∈ setInsert t l ↔ x = t ∨ x ∈ l := by
  induction l with
  | nil => simp [setInsert]
  | cons y ys ih =>
    simp only [setInsert]
    split
    · simp
    · split
      · rename_i hty
        subst hty
        simp
      · simp only [List.mem_cons, ih]
        tauto

theorem mem_setErase (t x : Nat) (l : List Nat) : x ∈ setErase t l ↔ x ≠ t ∧ x ∈ l := by
  simp [setErase, and_comm]

/-- The registry and the conditions after `RemoveTransaction`. -/
theorem RemoveTransaction_transactions {s s' : DevToolsNetworkInterceptor} {t : Nat} {now : Int}
    (h : s.RemoveTransaction t now = some s') :
    s'.transactions_ = setErase t s.transactions_ ∧ s'.conditions_ = s.conditions_ := by
  unfold RemoveTransaction at h
  simp only at h
  split at h
  · cases h; exact ⟨rfl, rfl⟩
  · obtain ⟨s2, hs2, h⟩ := Option.map_eq_some'.mp h
    have hf := UpdateThrottles_frame hs2
    subst h
    rw [(ArmTimer_frame _ now).1, (ArmTimer_frame _ now).2.1]
    exact ⟨hf.2.1, hf.1⟩

/-- Membership in the reference model, by the last call made on the transaction. -/
theorem mem_referenceActiveSet (calls : List Registration) :
    ∀ (A : Finset Nat) (t : Nat),
      t ∈ referenceActiveSet A calls ↔
        (lastRegistration t calls = some true ∨ (lastRegistration t calls = none ∧ t ∈ A)) := by
  induction calls with
  | nil => intro A t; simp [referenceActiveSet, lastRegistration]
  | cons c rest ih =>
    intro A t
    cases c with
    | add x =>
      simp only [referenceActiveSet, lastRegistration, ih]
      cases hl : lastRegistration t rest with
      | some b => simp
      | none =>
        by_cases hx : x = t
        · simp [hx]
        · have : ¬ t = x := fun h => hx h.symm
          simp [hx, this]
    | remove x now =>
      simp only [referenceActiveSet, lastRegistration, ih]
      cases hl : lastRegistration t rest with
      | some b => simp
      | none =>
        by_cases hx : x = t
        · simp [hx]
        · have : ¬ t = x := fun h => hx h.symm
          simp [hx, this]

/-- C9: after every sequence of `AddTransaction`/`RemoveTransaction` calls (in
particular every one that respects the preconditions) the active set equals the
set of the reference model that inserts on add and deletes on remove, and a
transaction with a call in the sequence is registered exactly when its last call
was `AddTransaction`; while the conditions do not throttle, the sequence runs to
completion. -/
theorem runRegistrations_refines (calls : List Registration) :
    ∀ s : DevToolsNetworkInterceptor,
      (s.conditions_.IsThrottling = false → ∃ s', runRegistrations s calls = some s') ∧
      (∀ s', runRegistrations s calls = some s' →
        s'.transactions_.toFinset = referenceActiveSet s.transactions_.toFinset calls ∧
        ∀ t, t ∈ s'.transactions_ ↔
          (lastRegistration t calls = some true ∨
            (lastRegistration t calls = none ∧ t ∈ s.transactions_))) := by
  have hset : ∀ (calls : List Registration) (s s' : DevToolsNetworkInterceptor),
      runRegistrations s calls = some s' →
        s'.transactions_.toFinset = referenceActiveSet s.transactions_.toFinset calls := by
    intro calls
    induction calls with
    | nil =>
      intro s s' h
      simp only [runRegistrations] at h
      cases h
      rfl
    | cons c rest ih =>
      intro s s' h
      cases c with
      | add x =>
        simp only [runRegistrations] at h
        rw [ih _ _ h]
        simp only [referenceActiveSet]
        congr 1
        ext y
        simp [AddTransaction, mem_setInsert]
      | remove x now =>
        simp only [runRegistrations] at h
        obtain ⟨s1, hs1, h⟩ := Option.bind_eq_some.mp h
        rw [ih _ _ h, (RemoveTransaction_transactions hs1).1]
        simp only [referenceActiveSet]
        congr 1
        ext y
        simp [mem_setErase]
  intro s
  refine ⟨?_, ?_⟩
  · induction calls generalizing s with
    | nil => intro _; exact ⟨s, rfl⟩
    | cons c rest ih =>
      intro hthr
      cases c with
      | add x =>
        simp only [runRegistrations]
        exact ih (s.AddTransaction x) hthr
      | remove x now =>
        have hrm : s.RemoveTransaction x now =
            some { s with transactions_ := setErase x s.transactions_ } := by
          simp [RemoveTransaction, hthr]
        simp only [runRegistrations, hrm, Option.some_bind]
        exact ih _ hthr
  · intro s' h
    have h1 := hset calls s s' h
    refine ⟨h1, ?_⟩
    intro t
    have h2 := mem_referenceActiveSet calls s.transactions_.toFinset t
    rw [← h1] at h2
    simpa using h2

/-! ## Idempotence of the reconciliation -/

/-- With no elapsed tick the decrease loop changes nothing. -/
theorem decreaseLoop_zero (length : Int) (l : List Nat) :
    ∀ (i : Nat) (mem : Nat → DevToolsNetworkTransaction),
      decreaseLoop 0 length 0 l i mem = mem := by
  induction l with
  | nil => intro i mem; rfl
  | cons t rest ih =>
    intro i mem
    simp only [decreaseLoop]
    rw [ih]
    funext x
    have hi : ¬ ((i : Int) < 0) := by omega
    by_cases hx : x = t
    · subst hx
      simp [store, DevToolsNetworkTransaction.DecreaseThrottledByteCount, hi]
    · simp [store, hx]

/-- A second `UpdateThrottles` at the same `now` returns the state left by the
first one. -/
theorem UpdateThrottles_twice (s s1 : DevToolsNetworkInterceptor) (now : Int)
    (htick : 0 < s.tick_length_) (h : s.UpdateThrottles now = some s1) :
    s1.UpdateThrottles now = some s1 := by
  have hne : s.tick_length_ ≠ 0 := by omega
  unfold UpdateThrottles at h
  rw [if_neg hne] at h
  simp only at h
  split at h
  · rename_i hlen
    cases h
    unfold UpdateThrottles
    simp only [if_neg hne, hlen, if_true]
  · rename_i hlen
    split at h
    · exact absurd h (by simp)
    · cases h
      unfold UpdateThrottles
      have hlen' : ¬ (((s.throttled_transactions_.rotate
          ((((now - s.offset_).tdiv s.tick_length_ - s.last_tick_).tmod
            (s.throttled_transactions_.length : Int)).toNat)).length : Int) = 0) := by
        rw [List.length_rotate]; exact hlen
      simp only [if_neg hne, sub_self, if_neg hlen', Int.zero_tmod, lt_irrefl, if_false,
        Int.toNat_zero, List.rotate_zero, decreaseLoop_zero]

/-- C10: the reconciliation is idempotent: with a positive tick length, a second
`UpdateThrottles` at the same `now` returns the very state left by the first one,
so every byte count, the queue order and `last_tick_` are as after the first
call; and the first call returns whenever the queue is empty or no negative number
of ticks has elapsed. -/
theorem UpdateThrottles_idempotent (s : DevToolsNetworkInterceptor) (now : Int)
    (htick : 0 < s.tick_length_) :
    (∀ s1, s.UpdateThrottles now = some s1 → s1.UpdateThrottles now = some s1) ∧
    ((s.throttled_transactions_ = [] ∨
        0 ≤ (now - s.offset_).tdiv s.tick_length_ - s.last_tick_) →
      ∃ s1, s.UpdateThrottles now = some s1 ∧ s1.UpdateThrottles now = some s1) := by
  refine ⟨fun s1 h => UpdateThrottles_twice s s1 now htick h, ?_⟩
  intro hq
  obtain ⟨s1, h⟩ := UpdateThrottles_isSome s now (by omega) hq
  exact ⟨s1, h, UpdateThrottles_twice s s1 now htick h⟩

/-- Witness for C10: the queue `[0, 1]` reconciled at one elapsed tick. -/
theorem UpdateThrottles_idempotent_witness :
    ∃ s1, queuedPair.UpdateThrottles 1000000 = some s1 ∧
      s1.UpdateThrottles 1000000 = some s1 :=
  (UpdateThrottles_idempotent queuedPair 1000000 (by decide!)).2 (Or.inr (by decide!))

/-! ## The reconciliation in closed form -/

/-- The state returned by `UpdateThrottles`. -/
theorem UpdateThrottles_eq {s s' : DevToolsNetworkInterceptor} {now : Int}
    (h : s.UpdateThrottles now = some s') :
    s' = { s with
      last_tick_ := (now - s.offset_).tdiv s.tick_length_
      mem := decreaseLoop (s.elapsedTicks now) (s.throttled_transactions_.length : Int)
        ((s.elapsedTicks now).tmod (s.throttled_transactions_.length : Int))
        s.throttled_transactions_ 0 s.mem
      throttled_transactions_ := s.throttled_transactions_.rotate
        ((s.elapsedTicks now).tmod (s.throttled_transactions_.length : Int)).toNat } ∧
    s.tick_length_ ≠ 0 ∧
    (s.throttled_transactions_ ≠ [] →
      0 ≤ (s.elapsedTicks now).tmod (s.throttled_transactions_.length : Int)) := by
  unfold UpdateThrottles at h
  split at h
  · exact absurd h (by simp)
  · rename_i htick
    simp only at h
    split at h
    · rename_i hlen
      have hq : s.throttled_transactions_ = [] := by
        have : s.throttled_transactions_.length = 0 := by exact_mod_cast hlen
        exact List.length_eq_zero.mp this
      cases h
      refine ⟨?_, htick, fun hne => absurd hq hne⟩
      simp [hq, decreaseLoop]
    · split at h
      · exact absurd h (by simp)
      · rename_i hshift
        cases h
        refine ⟨rfl, htick, fun _ => ?_⟩
        simp only [elapsedTicks]
        omega

/-- The reconciliation does not read the active set. -/
theorem UpdateThrottles_transactions (s : DevToolsNetworkInterceptor) (X : List Nat)
    (now : Int) :
    ({ s with transactions_ := X } : DevToolsNetworkInterceptor).UpdateThrottles now =
      (s.UpdateThrottles now).map fun s2 => { s2 with transactions_ := X } := by
  unfold UpdateThrottles
  simp only
  split
  · rfl
  · split
    · rfl
    · split <;> rfl

/-- The queue after a reconciliation has the members of the queue before it. -/
theorem UpdateThrottles_mem_queue {s s' : DevToolsNetworkInterceptor} {now : Int}
    (h : s.UpdateThrottles now = some s') (x : Nat) :
    x ∈ s'.throttled_transactions_ ↔ x ∈ s.throttled_transactions_ := by
  rw [(UpdateThrottles_eq h).1]
  exact List.mem_rotate

/-! ## Removal and throttling of a transaction -/

/-- C11: when the current conditions specify throttling, `RemoveTransaction(t)`
first reconciles up to `now` and then leaves the throttled queue equal to the
reconciled queue with every occurrence of `t` deleted, the other transactions in
their order; the byte counts and `last_tick_` are the reconciled ones and the
active set loses `t`.  If `t` was not in the queue, the queue is the reconciled
one, with the members it had before the call. -/
theorem RemoveTransaction_throttling (s s2 : DevToolsNetworkInterceptor) (t : Nat) (now : Int)
    (hthr : s.conditions_.IsThrottling = true) (hrec : s.UpdateThrottles now = some s2) :
    ∃ s', s.RemoveTransaction t now = some s' ∧
      s'.throttled_transactions_ = s2.throttled_transactions_.filter (fun x => x != t) ∧
      t ∉ s'.throttled_transactions_ ∧
      s'.throttled_transactions_.Sublist s2.throttled_transactions_ ∧
      s'.mem = s2.mem ∧ s'.last_tick_ = s2.last_tick_ ∧
      s'.transactions_ = setErase t s.transactions_ ∧
      (t ∉ s.throttled_transactions_ →
        s'.throttled_transactions_ = s2.throttled_transactions_ ∧
        ∀ x, x ∈ s'.throttled_transactions_ ↔ x ∈ s.throttled_transactions_) := by
  have hrm : s.RemoveTransaction t now = some
      (ArmTimer { s2 with
        transactions_ := setErase t s.transactions_
        throttled_transactions_ := s2.throttled_transactions_.filter (fun x => x != t) } now) := by
    unfold RemoveTransaction
    simp only [hthr, Bool.not_true, Bool.false_eq_true, if_false, UpdateThrottles_transactions,
      hrec, Option.map_some']
  refine ⟨_, hrm, ?_⟩
  have hf := ArmTimer_frame { s2 with
        transactions_ := setErase t s.transactions_
        throttled_transactions_ := s2.throttled_transactions_.filter (fun x => x != t) } now
  rw [hf.2.2.1, hf.2.2.2.2.2.2.1, hf.2.2.2.2.2.1, hf.2.1]
  refine ⟨rfl, ?_, List.filter_sublist _, rfl, rfl, rfl, ?_⟩
  · simp [List.mem_filter]
  · intro ht
    have ht2 : t ∉ s2.throttled_transactions_ := fun h => ht ((UpdateThrottles_mem_queue hrec t).mp h)
    have hfil : s2.throttled_transactions_.filter (fun x => x != t) =
        s2.throttled_transactions_ := by
      apply List.filter_eq_self.mpr
      intro x hx
      have : x ≠ t := fun hxt => ht2 (hxt ▸ hx)
      simpa using this
    rw [hfil]
    exact ⟨rfl, fun x => UpdateThrottles_mem_queue hrec x⟩

/-- Witness for C11: transaction 0 removed from the queue `[0, 1]` after one tick. -/
theorem RemoveTransaction_throttling_witness :
    ∃ s2, queuedPair.UpdateThrottles 1000000 = some s2 ∧
      ∃ s', queuedPair.RemoveTransaction 0 1000000 = some s' ∧
        s'.throttled_transactions_ = s2.throttled_transactions_.filter (fun x => x != 0) ∧
        0 ∉ s'.throttled_transactions_ ∧
        s'.throttled_transactions_.Sublist s2.throttled_transactions_ ∧
        s'.mem = s2.mem ∧ s'.last_tick_ = s2.last_tick_ ∧
        s'.transactions_ = setErase 0 queuedPair.transactions_ ∧
        (0 ∉ queuedPair.throttled_transactions_ →
          s'.throttled_transactions_ = s2.throttled_transactions_ ∧
          ∀ x, x ∈ s'.throttled_transactions_ ↔ x ∈ queuedPair.throttled_transactions_) := by
  obtain ⟨s2, h⟩ := UpdateThrottles_isSome queuedPair 1000000 (by decide!) (Or.inr (by decide!))
  exact ⟨s2, h, RemoveTransaction_throttling queuedPair s2 0 1000000 (by decide!) h⟩

/-- C12, at a transaction that is already queued: from the queue `[0]` reached by
`scenarioOne`, `ThrottleTransaction(0)` one tick later lowers the byte count of
transaction 0 from 3000 to 1500 while appending it. -/
theorem ThrottleTransaction_queued_again :
    scenarioOne = some queuedOnce ∧
    queuedOnce.throttled_transactions_ = [0] ∧
    (queuedOnce.mem 0).throttled_byte_count = 3000 ∧
    (queuedOnce.ThrottleTransaction 0 1000000).map
        (fun s => ((s.mem 0).throttled_byte_count, s.throttled_transactions_)) =
      some (1500, [0, 0]) :=
  ⟨rfl, by decide!, by decide!, by decide!⟩

/-- C12, amended: `ThrottleTransaction(t)` reconciles the existing queue up to
`now` and then appends `t` at the end: the resulting queue is the reconciled
previous queue followed by `t`, and, when `t` is not already in the throttled
queue, the transaction object of `t`, with its throttled byte count, is not
changed by the call. -/
theorem ThrottleTransaction_appends (s s1 : DevToolsNetworkInterceptor) (t : Nat) (now : Int)
    (hrec : s.UpdateThrottles now = some s1) :
    ∃ s', s.ThrottleTransaction t now = some s' ∧
      s'.throttled_transactions_ = s1.throttled_transactions_ ++ [t] ∧
      s'.mem = s1.mem ∧ s'.last_tick_ = s1.last_tick_ ∧
      (t ∉ s.throttled_transactions_ →
        (s'.mem t).throttled_byte_count = (s.mem t).throttled_byte_count) := by
  have hth : s.ThrottleTransaction t now = some
      (ArmTimer { s1 with throttled_transactions_ := s1.throttled_transactions_ ++ [t] } now) := by
    unfold ThrottleTransaction
    rw [hrec]
    rfl
  refine ⟨_, hth, ?_⟩
  have hf := ArmTimer_frame
    { s1 with throttled_transactions_ := s1.throttled_transactions_ ++ [t] } now
  rw [hf.2.2.1, hf.2.2.2.2.2.2.1, hf.2.2.2.2.2.1]
  refine ⟨rfl, rfl, rfl, ?_⟩
  intro ht
  have h1 : s1.mem t = s.mem t := by
    rw [(UpdateThrottles_eq hrec).1]
    exact decreaseLoop_not_mem _ _ _ _ _ _ _ ht
  show (s1.mem t).throttled_byte_count = _
  rw [h1]

/-- Witness for C12: transaction 2 joins the queue `[0, 1]` after one tick. -/
theorem ThrottleTransaction_appends_witness :
    ∃ s1, queuedPair.UpdateThrottles 1000000 = some s1 ∧
      ∃ s', queuedPair.ThrottleTransaction 2 1000000 = some s' ∧
        s'.throttled_transactions_ = s1.throttled_transactions_ ++ [2] ∧
        s'.mem = s1.mem ∧ s'.last_tick_ = s1.last_tick_ ∧
        (2 ∉ queuedPair.throttled_transactions_ →
          (s'.mem 2).throttled_byte_count = (queuedPair.mem 2).throttled_byte_count) := by
  obtain ⟨s1, h⟩ := UpdateThrottles_isSome queuedPair 1000000 (by decide!) (Or.inr (by decide!))
  exact ⟨s1, h, ThrottleTransaction_appends queuedPair s1 2 1000000 h⟩

/-! ## The branches of `UpdateConditions` -/

/-- `UpdateConditions` is its first reconciliation followed by the branch. -/
theorem UpdateConditions_of_reconcile {s s0 : DevToolsNetworkInterceptor}
    (c : DevToolsNetworkConditions) {now : Int} (hrec : s.reconcileBeforeSwap now = some s0) :
    s.UpdateConditions c now =
      (if c.offline then
        some (failLoop s0.transactions_
          { s0 with conditions_ := c, timer_ := none, throttled_transactions_ := [] })
      else if c.IsThrottling then
        (usTickLength c.download_throughput).map fun us_tick_length =>
          ArmTimer { s0 with conditions_ := c, offset_ := now, last_tick_ := 0,
                             tick_length_ := us_tick_length } now
      else
        some { s0 with
          conditions_ := c
          timer_ := none
          calls := s0.calls ++ s0.throttled_transactions_.map Call.FireThrottledCallback
          throttled_transactions_ := [] }) := by
  unfold reconcileBeforeSwap at hrec
  unfold UpdateConditions
  rw [hrec]
  rfl

/-- What the reconciliation before the swap leaves alone. -/
theorem reconcileBeforeSwap_frame {s s0 : DevToolsNetworkInterceptor} {now : Int}
    (hrec : s.reconcileBeforeSwap now = some s0) :
    s0.transactions_ = s.transactions_ ∧ s0.calls = s.calls ∧
    s0.throttled_transactions_.Perm s.throttled_transactions_ ∧
    (∀ x, (s0.mem x).failed = (s.mem x).failed) := by
  unfold reconcileBeforeSwap at hrec
  split at hrec
  · have hf := UpdateThrottles_frame hrec
    refine ⟨hf.2.1, hf.2.2.2.2.2.1, ?_, fun x => (hf.2.2.2.2.2.2 x).2.2⟩
    rw [(UpdateThrottles_eq hrec).1]
    exact List.rotate_perm _ _
  · cases hrec
    exact ⟨rfl, rfl, List.Perm.refl _, fun _ => rfl⟩

/-- C13, at a queue holding one transaction twice: from the queue `[0, 0]` reached
by `scenarioTwice`, `UpdateConditions` with online conditions that do not throttle
makes two throttled callbacks on transaction 0. -/
theorem UpdateConditions_online_queued_twice :
    queuedTwice.throttled_transactions_ = [0, 0] ∧
    (queuedTwice.UpdateConditions { offline := false, download_throughput := 0 } 0).map
        (fun s => (s.calls, s.throttled_transactions_, s.timer_)) =
      some ([Call.FireThrottledCallback 0, Call.FireThrottledCallback 0], [], none) ∧
    (queuedTwice.UpdateConditions { offline := false, download_throughput := 0 } 0).map
        (fun s => s.calls.count (Call.FireThrottledCallback 0)) = some 2 :=
  ⟨by decide!, by decide!, by decide!⟩

/-- C13, amended: `UpdateConditions` with conditions that are online and not
throttling stops the timer, invokes the throttled callback on the transactions of
the throttled queue, once for each entry and in the order of the queue (as left by
the reconciliation before the swap), so exactly once on every queued transaction
when the queue holds each transaction once, and on no other transaction; it
leaves the throttled queue empty. -/
theorem UpdateConditions_online_releases (s s0 : DevToolsNetworkInterceptor)
    (c : DevToolsNetworkConditions) (now : Int)
    (hon : c.offline = false) (hnt : c.IsThrottling = false)
    (hrec : s.reconcileBeforeSwap now = some s0) :
    ∃ s', s.UpdateConditions c now = some s' ∧
      s'.timer_ = none ∧ s'.throttled_transactions_ = [] ∧
      s'.calls = s.calls ++ s0.throttled_transactions_.map Call.FireThrottledCallback ∧
      (∀ t, s'.calls.count (Call.FireThrottledCallback t) =
        s.calls.count (Call.FireThrottledCallback t) + s.throttled_transactions_.count t) ∧
      (s.throttled_transactions_.Nodup → ∀ t,
        s'.calls.count (Call.FireThrottledCallback t) =
          s.calls.count (Call.FireThrottledCallback t) +
            (if t ∈ s.throttled_transactions_ then 1 else 0)) := by
  have hf := reconcileBeforeSwap_frame hrec
  have hcount : ∀ t,
      (s.calls ++ s0.throttled_transactions_.map Call.FireThrottledCallback).count
          (Call.FireThrottledCallback t) =
        s.calls.count (Call.FireThrottledCallback t) + s.throttled_transactions_.count t := by
    intro t
    have hinj : Function.Injective Call.FireThrottledCallback := by
      intro a b hab
      injection hab
    rw [List.count_append, List.count_map_of_injective _ _ hinj, hf.2.2.1.count_eq]
  have hu : s.UpdateConditions c now = some { s0 with
      conditions_ := c
      timer_ := none
      calls := s0.calls ++ s0.throttled_transactions_.map Call.FireThrottledCallback
      throttled_transactions_ := [] } := by
    rw [UpdateConditions_of_reconcile c hrec]
    simp only [hon, hnt, Bool.false_eq_true, if_false]
  refine ⟨_, hu, rfl, rfl, ?_, ?_, ?_⟩
  · show s0.calls ++ _ = _
    rw [hf.2.1]
  · intro t
    show (s0.calls ++ _).count _ = _
    rw [hf.2.1]
    exact hcount t
  · intro hnd t
    show (s0.calls ++ _).count _ = _
    rw [hf.2.1, hcount t]
    by_cases ht : t ∈ s.throttled_transactions_
    · rw [if_pos ht, List.count_eq_one_of_mem hnd ht]
    · rw [if_neg ht, List.count_eq_zero_of_not_mem ht]

/-- Witness for C13: the queue `[0, 1]` released when throttling is switched off. -/
theorem UpdateConditions_online_releases_witness :
    ∃ s0, queuedPair.reconcileBeforeSwap 1000000 = some s0 ∧
      ∃ s', queuedPair.UpdateConditions { offline := false, download_throughput := 0 }
          1000000 = some s' ∧
        s'.timer_ = none ∧ s'.throttled_transactions_ = [] ∧
        s'.calls = queuedPair.calls ++
          s0.throttled_transactions_.map Call.FireThrottledCallback ∧
        (∀ t, s'.calls.count (Call.FireThrottledCallback t) =
          queuedPair.calls.count (Call.FireThrottledCallback t) +
            queuedPair.throttled_transactions_.count t) ∧
        (queuedPair.throttled_transactions_.Nodup → ∀ t,
          s'.calls.count (Call.FireThrottledCallback t) =
            queuedPair.calls.count (Call.FireThrottledCallback t) +
              (if t ∈ queuedPair.throttled_transactions_ then 1 else 0)) := by
  obtain ⟨s0, h⟩ := UpdateThrottles_isSome queuedPair 1000000 (by decide!) (Or.inr (by decide!))
  have hrec : queuedPair.reconcileBeforeSwap 1000000 = some s0 := by
    unfold reconcileBeforeSwap
    rw [if_pos (by decide!)]
    exact h
  exact ⟨s0, hrec, UpdateConditions_online_releases queuedPair s0
    { offline := false, download_throughput := 0 } 1000000 rfl (by decide) hrec⟩

/-- C14: `UpdateConditions` at time `now` with conditions that are online and
throttling sets the clock origin to `now` and `last_tick_` to 0 and keeps the
throttled queue as the reconciliation before the swap left it (the queue itself
when the previous conditions did not throttle); no call is made on a transaction,
no `failed()` flag changes and the active set is unchanged. -/
theorem UpdateConditions_throttling_resets_clock (s s0 : DevToolsNetworkInterceptor)
    (c : DevToolsNetworkConditions) (now : Int)
    (hon : c.offline = false) (hthr : c.IsThrottling = true)
    (hrec : s.reconcileBeforeSwap now = some s0) :
    ∃ s', s.UpdateConditions c now = some s' ∧
      s'.conditions_ = c ∧ s'.offset_ = now ∧ s'.last_tick_ = 0 ∧
      s'.throttled_transactions_ = s0.throttled_transactions_ ∧
      (s.conditions_.IsThrottling = false →
        s'.throttled_transactions_ = s.throttled_transactions_) ∧
      s'.calls = s.calls ∧ s'.transactions_ = s.transactions_ ∧
      s'.mem = s0.mem ∧ (∀ x, (s'.mem x).failed = (s.mem x).failed) := by
  have hf := reconcileBeforeSwap_frame hrec
  have hd : c.download_throughput ≠ 0 := by
    simpa [DevToolsNetworkConditions.IsThrottling] using hthr
  obtain ⟨v, hv⟩ : ∃ v, usTickLength c.download_throughput = some v := by
    unfold usTickLength
    rw [if_neg hd]
    exact ⟨_, rfl⟩
  have hu : s.UpdateConditions c now = some
      (ArmTimer { s0 with conditions_ := c, offset_ := now, last_tick_ := 0,
                          tick_length_ := v } now) := by
    rw [UpdateConditions_of_reconcile c hrec]
    simp only [hon, hthr, Bool.false_eq_true, if_false, if_true, hv, Option.map_some']
  have ha := ArmTimer_frame
    { s0 with conditions_ := c, offset_ := now, last_tick_ := 0, tick_length_ := v } now
  refine ⟨_, hu, ?_⟩
  rw [ha.1, ha.2.1, ha.2.2.1, ha.2.2.2.1, ha.2.2.2.2.2.1, ha.2.2.2.2.2.2.1, ha.2.2.2.2.2.2.2]
  refine ⟨rfl, rfl, rfl, rfl, ?_, hf.2.1, hf.1, rfl, hf.2.2.2⟩
  intro hno
  unfold reconcileBeforeSwap at hrec
  rw [if_neg (by simp [hno])] at hrec
  cases hrec
  rfl

/-- Witness for C14: the queue `[0, 1]` when the rate is changed to 3000 bytes/s
after one tick. -/
theorem UpdateConditions_throttling_resets_clock_witness :
    ∃ s0, queuedPair.reconcileBeforeSwap 1000000 = some s0 ∧
      ∃ s', queuedPair.UpdateConditions { offline := false, download_throughput := 3000 }
          1000000 = some s' ∧
        s'.conditions_ = { offline := false, download_throughput := 3000 } ∧
        s'.offset_ = 1000000 ∧ s'.last_tick_ = 0 ∧
        s'.throttled_transactions_ = s0.throttled_transactions_ ∧
        (queuedPair.conditions_.IsThrottling = false →
          s'.throttled_transactions_ = queuedPair.throttled_transactions_) ∧
        s'.calls = queuedPair.calls ∧ s'.transactions_ = queuedPair.transactions_ ∧
        s'.mem = s0.mem ∧ (∀ x, (s'.mem x).failed = (queuedPair.mem x).failed) := by
  obtain ⟨s0, h⟩ := UpdateThrottles_isSome queuedPair 1000000 (by decide!) (Or.inr (by decide!))
  have hrec : queuedPair.reconcileBeforeSwap 1000000 = some s0 := by
    unfold reconcileBeforeSwap
    rw [if_pos (by decide!)]
    exact h
  exact ⟨s0, hrec, UpdateConditions_throttling_resets_clock queuedPair s0
    { offline := false, download_throughput := 3000 } 1000000 rfl (by decide) hrec⟩

/-- The fail loop touches no throttled byte count. -/
theorem failLoop_byte_count (l : List Nat) :
    ∀ (s : DevToolsNetworkInterceptor) (x : Nat),
      ((failLoop l s).mem x).throttled_byte_count = (s.mem x).throttled_byte_count := by
  induction l with
  | nil => intro s x; rfl
  | cons t rest ih =>
    intro s x
    simp only [failLoop]
    split
    · exact ih s x
    · split
      · exact ih s x
      · split
        · rw [ih]
          by_cases hxt : x = t
          · subst hxt
            simp [store, DevToolsNetworkTransaction.Fail]
          · simp [store, hxt]
        · exact ih s x

/-- After its first reconciliation `UpdateConditions` returns and changes no
throttled byte count. -/
theorem UpdateConditions_byte_count {s s0 : DevToolsNetworkInterceptor}
    (c : DevToolsNetworkConditions) {now : Int} (hrec : s.reconcileBeforeSwap now = some s0) :
    ∃ s', s.UpdateConditions c now = some s' ∧
      ∀ t, (s'.mem t).throttled_byte_count = (s0.mem t).throttled_byte_count := by
  rw [UpdateConditions_of_reconcile c hrec]
  by_cases hoff : c.offline = true
  · rw [if_pos hoff]
    exact ⟨_, rfl, fun t => failLoop_byte_count _ _ t⟩
  · rw [if_neg hoff]
    by_cases hthr : c.IsThrottling = true
    · rw [if_pos hthr]
      have hd : c.download_throughput ≠ 0 := by
        simpa [DevToolsNetworkConditions.IsThrottling] using hthr
      simp only [usTickLength, if_neg hd, Option.map_some']
      refine ⟨_, rfl, fun t => ?_⟩
      rw [(ArmTimer_frame _ now).2.2.2.2.2.2.1]
    · rw [if_neg hthr]
      exact ⟨_, rfl, fun t => rfl⟩

/-- C20: when the previous conditions were throttling, `UpdateConditions` at time
`now` returns, for every new conditions value, a state in which each throttled
byte count is the one left by a single `UpdateThrottles` at `now` on the old
state (old offset, old `last_tick_`, old tick length); when the previous
conditions were not throttling it returns and no byte count changes. -/
theorem UpdateConditions_credits_old_rate (s : DevToolsNetworkInterceptor)
    (c : DevToolsNetworkConditions) (now : Int) :
    (s.conditions_.IsThrottling = true → ∀ s0, s.UpdateThrottles now = some s0 →
      ∃ s', s.UpdateConditions c now = some s' ∧
        ∀ t, (s'.mem t).throttled_byte_count = (s0.mem t).throttled_byte_count) ∧
    (s.conditions_.IsThrottling = false →
      ∃ s', s.UpdateConditions c now = some s' ∧
        ∀ t, (s'.mem t).throttled_byte_count = (s.mem t).throttled_byte_count) := by
  refine ⟨?_, ?_⟩
  · intro hthr s0 h0
    have hrec : s.reconcileBeforeSwap now = some s0 := by
      unfold reconcileBeforeSwap
      rw [if_pos hthr]
      exact h0
    exact UpdateConditions_byte_count c hrec
  · intro hno
    have hrec : s.reconcileBeforeSwap now = some s := by
      unfold reconcileBeforeSwap
      rw [if_neg (by simp [hno])]
    exact UpdateConditions_byte_count c hrec

/-! ## The timer callback -/

/-- C16, at a queue holding one transaction twice: from the queue `[0, 0]` reached
by `scenarioTwice`, `OnTimer` after three ticks finds the byte count of
transaction 0 at -1500 and makes two throttled callbacks on it. -/
theorem OnTimer_queued_twice :
    queuedTwice.throttled_transactions_ = [0, 0] ∧
    (queuedTwice.OnTimer 3000000).map
        (fun s => ((s.mem 0).throttled_byte_count, s.calls, s.throttled_transactions_)) =
      some (-1500, [Call.FireThrottledCallback 0, Call.FireThrottledCallback 0], []) ∧
    (queuedTwice.OnTimer 3000000).map
        (fun s => s.calls.count (Call.FireThrottledCallback 0)) = some 2 :=
  ⟨by decide!, by decide!, by decide!⟩

/-- C16, amended: `OnTimer`, after reconciling, invokes the throttled callback on
each queued transaction whose throttled byte count has dropped below zero, once
for each entry it has in the queue (so exactly once when the queue holds each
transaction once), and on no other transaction, and reduces the throttled queue
to the remaining transactions in their previous relative order. -/
theorem OnTimer_releases (s s1 : DevToolsNetworkInterceptor) (now : Int)
    (hrec : s.UpdateThrottles now = some s1) :
    ∃ s', s.OnTimer now = some s' ∧
      s'.throttled_transactions_ = s1.throttled_transactions_.filter
        (fun t => !decide ((s1.mem t).throttled_byte_count < 0)) ∧
      s'.calls = s.calls ++ (s1.throttled_transactions_.filter
        (fun t => decide ((s1.mem t).throttled_byte_count < 0))).map
          Call.FireThrottledCallback ∧
      s'.mem = s1.mem ∧
      (∀ t, s'.calls.count (Call.FireThrottledCallback t) =
        s.calls.count (Call.FireThrottledCallback t) +
          (if (s1.mem t).throttled_byte_count < 0 then s.throttled_transactions_.count t
            else 0)) ∧
      (s.throttled_transactions_.Nodup → ∀ t,
        s'.calls.count (Call.FireThrottledCallback t) =
          s.calls.count (Call.FireThrottledCallback t) +
            (if t ∈ s.throttled_transactions_ ∧ (s1.mem t).throttled_byte_count < 0 then 1
              else 0)) := by
  have hf := UpdateThrottles_frame hrec
  have hperm : s1.throttled_transactions_.Perm s.throttled_transactions_ := by
    rw [(UpdateThrottles_eq hrec).1]
    exact List.rotate_perm _ _
  have hu : s.OnTimer now = some
      (ArmTimer { s1 with
        throttled_transactions_ := s1.throttled_transactions_.filter
          (fun t => !decide ((s1.mem t).throttled_byte_count < 0))
        calls := s1.calls ++ (s1.throttled_transactions_.filter
          (fun t => decide ((s1.mem t).throttled_byte_count < 0))).map
            Call.FireThrottledCallback } now) := by
    unfold OnTimer
    rw [hrec]
    rfl
  have hcount : ∀ t,
      (s.calls ++ (s1.throttled_transactions_.filter
        (fun t => decide ((s1.mem t).throttled_byte_count < 0))).map
          Call.FireThrottledCallback).count (Call.FireThrottledCallback t) =
        s.calls.count (Call.FireThrottledCallback t) +
          (if (s1.mem t).throttled_byte_count < 0 then s.throttled_transactions_.count t
            else 0) := by
    intro t
    have hinj : Function.Injective Call.FireThrottledCallback := by
      intro a b hab
      injection hab
    rw [List.count_append, List.count_map_of_injective _ _ hinj]
    congr 1
    by_cases hlt : (s1.mem t).throttled_byte_count < 0
    · rw [if_pos hlt, List.count_filter (by simpa using hlt), hperm.count_eq]
    · rw [if_neg hlt]
      apply List.count_eq_zero_of_not_mem
      intro hmem
      have := (List.mem_filter.mp hmem).2
      exact hlt (by simpa using this)
  have ha := ArmTimer_frame { s1 with
        throttled_transactions_ := s1.throttled_transactions_.filter
          (fun t => !decide ((s1.mem t).throttled_byte_count < 0))
        calls := s1.calls ++ (s1.throttled_transactions_.filter
          (fun t => decide ((s1.mem t).throttled_byte_count < 0))).map
            Call.FireThrottledCallback } now
  refine ⟨_, hu, ?_⟩
  rw [ha.2.2.1, ha.2.2.2.2.2.2.1, ha.2.2.2.2.2.2.2]
  refine ⟨rfl, ?_, rfl, ?_, ?_⟩
  · show s1.calls ++ _ = _
    rw [hf.2.2.2.2.2.1]
  · intro t
    show (s1.calls ++ _).count _ = _
    rw [hf.2.2.2.2.2.1]
    exact hcount t
  · intro hnd t
    show (s1.calls ++ _).count _ = _
    rw [hf.2.2.2.2.2.1, hcount t]
    congr 1
    by_cases ht : t ∈ s.throttled_transactions_
    · rw [List.count_eq_one_of_mem hnd ht]
      simp [ht]
    · rw [List.count_eq_zero_of_not_mem ht]
      simp [ht]

/-- Witness for C16: the queue `[0, 1]` when the timer fires after three ticks. -/
theorem OnTimer_releases_witness :
    ∃ s1, queuedPair.UpdateThrottles 3000000 = some s1 ∧
      ∃ s', queuedPair.OnTimer 3000000 = some s' ∧
        s'.throttled_transactions_ = s1.throttled_transactions_.filter
          (fun t => !decide ((s1.mem t).throttled_byte_count < 0)) ∧
        s'.calls = queuedPair.calls ++ (s1.throttled_transactions_.filter
          (fun t => decide ((s1.mem t).throttled_byte_count < 0))).map
            Call.FireThrottledCallback ∧
        s'.mem = s1.mem ∧
        (∀ t, s'.calls.count (Call.FireThrottledCallback t) =
          queuedPair.calls.count (Call.FireThrottledCallback t) +
            (if (s1.mem t).throttled_byte_count < 0
              then queuedPair.throttled_transactions_.count t else 0)) ∧
        (queuedPair.throttled_transactions_.Nodup → ∀ t,
          s'.calls.count (Call.FireThrottledCallback t) =
            queuedPair.calls.count (Call.FireThrottledCallback t) +
              (if t ∈ queuedPair.throttled_transactions_ ∧
                  (s1.mem t).throttled_byte_count < 0 then 1 else 0)) := by
  obtain ⟨s1, h⟩ := UpdateThrottles_isSome queuedPair 3000000 (by decide!) (Or.inr (by decide!))
  exact ⟨s1, h, OnTimer_releases queuedPair s1 3000000 h⟩

/-! ## Arithmetic in 64 bits -/

theorem wrapInt64_of_inInt64 {x : Int} (h : inInt64 x) : wrapInt64 x = x := by
  obtain ⟨h1, h2⟩ := h
  unfold wrapInt64
  omega

theorem wrapInt64_modEq (x : Int) : wrapInt64 x ≡ x [ZMOD 18446744073709551616] := by
  unfold wrapInt64 Int.ModEq
  omega

theorem wrapUint64_modEq (x : Int) : wrapUint64 x ≡ x [ZMOD 18446744073709551616] := by
  unfold wrapUint64
  exact Int.mod_modEq _ _

theorem wrapInt64_congr {a b : Int} (h : a ≡ b [ZMOD 18446744073709551616]) :
    wrapInt64 a = wrapInt64 b := by
  unfold Int.ModEq at h
  unfold wrapInt64
  omega

/-- The `packets_left` of `ArmTimer` when the sum with 1499 is a value of
`int64_t`. -/
theorem packetsLeft_eq (mem : Nat → DevToolsNetworkTransaction) (t : Nat)
    (h : inInt64 ((mem t).throttled_byte_count + 1499)) :
    packetsLeft mem t = ((mem t).throttled_byte_count + 1499).tdiv 1500 := by
  obtain ⟨h1, h2⟩ := h
  unfold packetsLeft wrapInt64
  simp only [kPacketSize]
  congr 1
  omega

/-- The `ticks_left` of `ArmTimer`, computed through `size_t`, is the exact value
of the expression brought into `int64_t`. -/
theorem ticksLeftAt_wrap (mem : Nat → DevToolsNetworkTransaction) (N : Int) (i t : Nat) :
    ticksLeftAt mem N i t = wrapInt64 (((i : Int) + 1) + N * (packetsLeft mem t - 1)) := by
  unfold ticksLeftAt
  apply wrapInt64_congr
  refine (wrapUint64_modEq _).trans ?_
  refine Int.ModEq.add (wrapUint64_modEq _) ?_
  refine (wrapUint64_modEq _).trans ?_
  refine Int.ModEq.mul_left N ?_
  exact (wrapUint64_modEq _).trans (wrapInt64_modEq _)

theorem ticksLeftAt_eq (mem : Nat → DevToolsNetworkTransaction) (N : Int) (i t : Nat)
    (h : inInt64 (((i : Int) + 1) + N * (packetsLeft mem t - 1))) :
    ticksLeftAt mem N i t = ((i : Int) + 1) + N * (packetsLeft mem t - 1) := by
  rw [ticksLeftAt_wrap, wrapInt64_of_inInt64 h]

/-! ## The wake-up computed by `ArmTimer` -/

theorem minTicksLoop_cons (mem : Nat → DevToolsNetworkTransaction) (N : Int) (t : Nat)
    (rest : List Nat) (i : Nat) (a : Int) :
    minTicksLoop mem N (t :: rest) i a =
      minTicksLoop mem N rest (i + 1)
        (if i = 0 ∨ ticksLeftAt mem N i t < a then ticksLeftAt mem N i t else a) := rfl

/-- After its first iteration the loop of `ArmTimer` computes the minimum of its
running value and of the `ticks_left` of the positions still to be visited. -/
theorem minTicksLoop_min (mem : Nat → DevToolsNetworkTransaction) (N : Int) (l : List Nat) :
    ∀ (i : Nat) (a : Int), i ≠ 0 →
      minTicksLoop mem N l i a ≤ a ∧
      (∀ (j : Nat) (hj : j < l.length),
        minTicksLoop mem N l i a ≤ ticksLeftAt mem N (i + j) (l.get ⟨j, hj⟩)) ∧
      (minTicksLoop mem N l i a = a ∨
        ∃ (j : Nat) (hj : j < l.length),
          minTicksLoop mem N l i a = ticksLeftAt mem N (i + j) (l.get ⟨j, hj⟩)) := by
  induction l with
  | nil =>
    intro i a _
    exact ⟨le_refl _, fun j hj => absurd hj (by simp), Or.inl rfl⟩
  | cons t rest ih =>
    intro i a hi
    rw [minTicksLoop_cons]
    simp only [hi, false_or]
    obtain ⟨h1, h2, h3⟩ := ih (i + 1)
      (if ticksLeftAt mem N i t < a then ticksLeftAt mem N i t else a) (by omega)
    have hle : (if ticksLeftAt mem N i t < a then ticksLeftAt mem N i t else a) ≤ a ∧
        (if ticksLeftAt mem N i t < a then ticksLeftAt mem N i t else a) ≤
          ticksLeftAt mem N i t := by
      split <;> constructor <;> omega
    refine ⟨le_trans h1 hle.1, ?_, ?_⟩
    · intro j hj
      cases j with
      | zero =>
        simp only [Nat.add_zero, List.get_cons_zero]
        exact le_trans h1 hle.2
      | succ j =>
        have hj' : j < rest.length := by simpa using hj
        have := h2 j hj'
        have hidx : i + 1 + j = i + (j + 1) := by omega
        rw [hidx] at this
        simpa using this
    · rcases h3 with h3 | ⟨j, hj, h3⟩
      · rw [h3]
        split
        · right
          exact ⟨0, by simp, by simp⟩
        · left; rfl
      · right
        refine ⟨j + 1, by simpa using hj, ?_⟩
        rw [h3]
        have hidx : i + 1 + j = i + (j + 1) := by omega
        rw [hidx]
        simp

/-- The loop of `ArmTimer` over a non-empty queue computes the least `ticks_left`,
whatever value `min_ticks_left` starts from. -/
theorem minTicksLoop_least (mem : Nat → DevToolsNetworkTransaction) (l : List Nat)
    (hne : l ≠ []) :
    ∃ m : Int,
      (∀ a, minTicksLoop mem (l.length : Int) l 0 a = m) ∧
      (∃ i, i < l.length ∧ m = ticksLeft mem l i) ∧
      (∀ i, i < l.length → m ≤ ticksLeft mem l i) := by
  cases l with
  | nil => exact absurd rfl hne
  | cons t rest =>
    have hstep : ∀ a, minTicksLoop mem ((t :: rest).length : Int) (t :: rest) 0 a =
        minTicksLoop mem ((t :: rest).length : Int) rest 1
          (ticksLeftAt mem ((t :: rest).length : Int) 0 t) := by
      intro a
      rw [minTicksLoop_cons]
      simp only [true_or, if_true]
    obtain ⟨h1, h2, h3⟩ := minTicksLoop_min mem ((t :: rest).length : Int) rest 1
      (ticksLeftAt mem ((t :: rest).length : Int) 0 t) (by omega)
    have hget : ∀ (i : Nat) (hi : i < (t :: rest).length),
        ticksLeft mem (t :: rest) i =
          ticksLeftAt mem ((t :: rest).length : Int) i ((t :: rest).get ⟨i, hi⟩) := by
      intro i hi
      unfold ticksLeft
      rw [List.getD_eq_getElem _ _ hi]
      rfl
    refine ⟨_, hstep, ?_, ?_⟩
    · rcases h3 with h3 | ⟨j, hj, h3⟩
      · refine ⟨0, by simp, ?_⟩
        rw [h3, hget 0 (by simp)]
        rfl
      · refine ⟨j + 1, by simpa using hj, ?_⟩
        rw [h3, hget (j + 1) (by simpa using hj)]
        have : 1 + j = j + 1 := by omega
        rw [this]
        rfl
    · intro i hi
      rw [hget i hi]
      cases i with
      | zero => exact h1
      | succ i =>
        have hi' : i < rest.length := by simpa using hi
        have := h2 i hi'
        have hc : 1 + i = i + 1 := by omega
        rw [hc] at this
        exact this

/-- C17, on a slow link: with a throughput of 1 byte/s the tick length is
1,500,000,000 microseconds; for the queue `[0]` with a byte count of 10^13 the only
`ticks_left`, and so the minimum, is 6,666,666,667, and
`offset + tick_length * (last_tick + m)` is 10,000,000,000,500,000,000, above the
largest value of `int64_t`: `ArmTimer` at time 0 starts the timer with the negative
delay -8,446,744,073,209,551,616, a wake-up before `now`, not at that time. -/
theorem ArmTimer_wraps_on_slow_link :
    scenarioSlow = some queuedSlow ∧
    queuedSlow.throttled_transactions_ = [0] ∧
    (queuedSlow.mem 0).throttled_byte_count = 10000000000000 ∧
    queuedSlow.tick_length_ = 1500000000 ∧
    queuedSlow.offset_ = 0 ∧ queuedSlow.last_tick_ = 0 ∧
    ticksLeft queuedSlow.mem queuedSlow.throttled_transactions_ 0 = 6666666667 ∧
    queuedSlow.minTicksLeft = 6666666667 ∧
    queuedSlow.offset_ + queuedSlow.tick_length_ * (queuedSlow.last_tick_ + 6666666667) - 0 =
      10000000000500000000 ∧
    (queuedSlow.ArmTimer 0).timer_ = some (-8446744073209551616) ∧
    queuedSlow.timer_ = some (-8446744073209551616) :=
  ⟨rfl, by decide!, by decide!, by decide!, by decide!, by decide!, by decide!, by decide!,
    by decide!, by decide!, by decide!⟩

/-- C17, amended: for every non-empty throttled queue of length N for which the
computation stays within `int64_t` (each `(i + 1) + N * (packets_left(i) - 1)`, the
sum `last_tick + m`, the product with the tick length, the sum with the offset and
the delay from `now`), `ArmTimer` starts the timer with the delay from `now` to the
absolute time `offset + tick_length * (last_tick + m)`, where `m`, the
`min_ticks_left` after the loop, is the least
`ticks_left(i) = (i + 1) + N * (packets_left(i) - 1)` over the queue positions:
`m` is attained at a position, is below every `ticks_left(i)`, and is the same
whatever value `min_ticks_left` starts from, `0x10000` included. -/
theorem ArmTimer_schedules_minimum (s : DevToolsNetworkInterceptor) (now : Int)
    (hne : s.throttled_transactions_ ≠ [])
    (hticks : ∀ i, i < s.throttled_transactions_.length →
      inInt64 (((i : Int) + 1) + (s.throttled_transactions_.length : Int) *
        (packetsLeft s.mem (s.throttled_transactions_.getD i 0) - 1)))
    (hsum : inInt64 (s.last_tick_ + s.minTicksLeft))
    (hmul : inInt64 (s.tick_length_ * (s.last_tick_ + s.minTicksLeft)))
    (htime : inInt64 (s.offset_ + s.tick_length_ * (s.last_tick_ + s.minTicksLeft)))
    (hdelay : inInt64 (s.offset_ + s.tick_length_ * (s.last_tick_ + s.minTicksLeft) - now)) :
    (s.ArmTimer now).timer_ =
      some (s.offset_ + s.tick_length_ * (s.last_tick_ + s.minTicksLeft) - now) ∧
    (∀ i, i < s.throttled_transactions_.length →
      ticksLeft s.mem s.throttled_transactions_ i =
        ((i : Int) + 1) + (s.throttled_transactions_.length : Int) *
          (packetsLeft s.mem (s.throttled_transactions_.getD i 0) - 1)) ∧
    (∃ i, i < s.throttled_transactions_.length ∧
      s.minTicksLeft = ticksLeft s.mem s.throttled_transactions_ i) ∧
    (∀ i, i < s.throttled_transactions_.length →
      s.minTicksLeft ≤ ticksLeft s.mem s.throttled_transactions_ i) ∧
    (∀ a, minTicksLoop s.mem (s.throttled_transactions_.length : Int)
      s.throttled_transactions_ 0 a = s.minTicksLeft) := by
  obtain ⟨m, hm, hex, hle⟩ := minTicksLoop_least s.mem s.throttled_transactions_ hne
  have hmin : s.minTicksLeft = m := hm _
  rw [hmin] at hsum hmul htime hdelay ⊢
  refine ⟨?_, ?_, hex, hle, hm⟩
  · have hlen : ¬ s.throttled_transactions_.length = 0 := by
      intro h
      exact hne (List.length_eq_zero.mp h)
    unfold ArmTimer
    rw [if_neg hlen]
    simp only [hm]
    rw [wrapInt64_of_inInt64 hsum, wrapInt64_of_inInt64 hmul, wrapInt64_of_inInt64 htime,
      wrapInt64_of_inInt64 hdelay]
  · intro i hi
    unfold ticksLeft
    exact ticksLeftAt_eq _ _ _ _ (hticks i hi)

/-- Witness for C17: the queue `[0, 1]` with 200,000 and 100,000 packets left, where
the `ticks_left` are 399,999 and 200,000, both above `0x10000`, and the minimum is
at position 1. -/
theorem ArmTimer_schedules_minimum_witness :
    (queuedUneven.minTicksLeft = 200000 ∧
      ticksLeft queuedUneven.mem queuedUneven.throttled_transactions_ 0 = 399999) ∧
    ((queuedUneven.ArmTimer 0).timer_ =
      some (queuedUneven.offset_ +
        queuedUneven.tick_length_ * (queuedUneven.last_tick_ + queuedUneven.minTicksLeft) - 0) ∧
    (∀ i, i < queuedUneven.throttled_transactions_.length →
      ticksLeft queuedUneven.mem queuedUneven.throttled_transactions_ i =
        ((i : Int) + 1) + (queuedUneven.throttled_transactions_.length : Int) *
          (packetsLeft queuedUneven.mem (queuedUneven.throttled_transactions_.getD i 0) - 1)) ∧
    (∃ i, i < queuedUneven.throttled_transactions_.length ∧
      queuedUneven.minTicksLeft = ticksLeft queuedUneven.mem queuedUneven.throttled_transactions_ i) ∧
    (∀ i, i < queuedUneven.throttled_transactions_.length →
      queuedUneven.minTicksLeft ≤
        ticksLeft queuedUneven.mem queuedUneven.throttled_transactions_ i) ∧
    (∀ a, minTicksLoop queuedUneven.mem (queuedUneven.throttled_transactions_.length : Int)
      queuedUneven.throttled_transactions_ 0 a = queuedUneven.minTicksLeft)) :=
  ⟨⟨by decide!, by decide!⟩,
    ArmTimer_schedules_minimum queuedUneven 0 (by decide!) (by decide!) (by decide!)
      (by decide!) (by decide!) (by decide!)⟩

/-! ## The distribution by queue position -/

/-- On a queue of pairwise distinct transactions, a reconciliation with a
non-negative number `k` of elapsed ticks returns, rotates the queue left by
`k mod N` and lowers the byte count at each position `i` by `k div N` packets,
plus one when `i < k mod N`. -/
theorem UpdateThrottles_get (s : DevToolsNetworkInterceptor) (now : Int)
    (htick : s.tick_length_ ≠ 0) (hnd : s.throttled_transactions_.Nodup)
    (hk : 0 ≤ s.elapsedTicks now) :
    ∃ s', s.UpdateThrottles now = some s' ∧
      s'.throttled_transactions_ = s.throttled_transactions_.rotate
        (s.elapsedTicks now % (s.throttled_transactions_.length : Int)).toNat ∧
      s'.last_tick_ = s.last_tick_ + s.elapsedTicks now ∧
      s'.offset_ = s.offset_ ∧ s'.tick_length_ = s.tick_length_ ∧
      (∀ x, x ∉ s.throttled_transactions_ → s'.mem x = s.mem x) ∧
      ∀ (i : Nat) (hi : i < s.throttled_transactions_.length),
        (s'.mem (s.throttled_transactions_.get ⟨i, hi⟩)).throttled_byte_count =
          (s.mem (s.throttled_transactions_.get ⟨i, hi⟩)).throttled_byte_count -
            (s.elapsedTicks now / (s.throttled_transactions_.length : Int) * 1500 +
              (if (i : Int) < s.elapsedTicks now % (s.throttled_transactions_.length : Int)
                then 1500 else 0)) := by
  obtain ⟨s', h⟩ := UpdateThrottles_isSome s now htick (Or.inr hk)
  have hN : (0 : Int) ≤ (s.throttled_transactions_.length : Int) := Int.ofNat_nonneg _
  have hdiv : (s.elapsedTicks now).tdiv (s.throttled_transactions_.length : Int) =
      s.elapsedTicks now / (s.throttled_transactions_.length : Int) :=
    Int.tdiv_eq_ediv hk hN
  have hmod : (s.elapsedTicks now).tmod (s.throttled_transactions_.length : Int) =
      s.elapsedTicks now % (s.throttled_transactions_.length : Int) :=
    Int.tmod_eq_emod hk hN
  have he := (UpdateThrottles_eq h).1
  rw [hmod] at he
  refine ⟨s', h, ?_, ?_, ?_, ?_, ?_, ?_⟩
  · rw [he]
  · rw [he]
    simp only [elapsedTicks]
    omega
  · rw [he]
  · rw [he]
  · intro x hx
    rw [he]
    exact decreaseLoop_not_mem _ _ _ _ _ _ _ hx
  · intro i hi
    rw [he]
    have := decreaseLoop_get (s.elapsedTicks now) (s.throttled_transactions_.length : Int)
      (s.elapsedTicks now % (s.throttled_transactions_.length : Int))
      s.throttled_transactions_ 0 s.mem hnd i hi
    rw [hdiv] at this
    simpa [kPacketSize] using this

/-- C15, at a queue holding one transaction twice: with queue `[0, 0]` and one
elapsed tick, position 1 is due `(1 div 2) * 1500 + 0 = 0` bytes, but the byte
count of the transaction at position 1 goes from 3000 to 1500. -/
theorem UpdateThrottles_by_position_queued_twice :
    queuedTwice.throttled_transactions_ = [0, 0] ∧
    queuedTwice.elapsedTicks 1000000 = 1 ∧
    (queuedTwice.mem (queuedTwice.throttled_transactions_.getD 1 0)).throttled_byte_count =
      3000 ∧
    ((1 : Int) / 2 * 1500 + (if (1 : Int) < 1 % 2 then 1500 else 0)) = 0 ∧
    (queuedTwice.UpdateThrottles 1000000).map
        (fun s => (s.mem (queuedTwice.throttled_transactions_.getD 1 0)).throttled_byte_count) =
      some 1500 :=
  ⟨by decide!, by decide!, by decide!, by decide, by decide!⟩

/-- C15, amended: for every throttled queue of length N, empty or not, whose
transactions are pairwise distinct and every elapsed tick count `k >= 0`,
`UpdateThrottles` returns, decreases the byte count of the transaction at
position `i` by `(k div N) * 1500` plus an extra 1500 exactly when `i < k mod N`,
and then rotates the queue left by `k mod N` positions; with a positive tick
length and `now` not before the clock origin, `k` is
`floor((now - offset) / tick_length) - last_tick`. -/
theorem UpdateThrottles_by_position (s : DevToolsNetworkInterceptor) (now : Int)
    (htick : s.tick_length_ ≠ 0) (hnd : s.throttled_transactions_.Nodup)
    (hk : 0 ≤ s.elapsedTicks now) :
    ∃ s', s.UpdateThrottles now = some s' ∧
      (∀ (i : Nat) (hi : i < s.throttled_transactions_.length),
        (s'.mem (s.throttled_transactions_.get ⟨i, hi⟩)).throttled_byte_count =
          (s.mem (s.throttled_transactions_.get ⟨i, hi⟩)).throttled_byte_count -
            (s.elapsedTicks now / (s.throttled_transactions_.length : Int) * 1500 +
              (if (i : Int) < s.elapsedTicks now % (s.throttled_transactions_.length : Int)
                then 1500 else 0))) ∧
      s'.throttled_transactions_ = s.throttled_transactions_.rotate
        (s.elapsedTicks now % (s.throttled_transactions_.length : Int)).toNat ∧
      (0 < s.tick_length_ → s.offset_ ≤ now →
        s.elapsedTicks now = (now - s.offset_) / s.tick_length_ - s.last_tick_) := by
  obtain ⟨s', h, hq, _, _, _, _, hget⟩ := UpdateThrottles_get s now htick hnd hk
  refine ⟨s', h, hget, hq, ?_⟩
  intro hpos hnow
  unfold elapsedTicks
  rw [Int.tdiv_eq_ediv (by omega) (le_of_lt hpos)]

/-- Witness for C15: the queue `[0, 1]` with three elapsed ticks. -/
theorem UpdateThrottles_by_position_witness :
    ∃ s', queuedPair.UpdateThrottles 3000000 = some s' ∧
      (∀ (i : Nat) (hi : i < queuedPair.throttled_transactions_.length),
        (s'.mem (queuedPair.throttled_transactions_.get ⟨i, hi⟩)).throttled_byte_count =
          (queuedPair.mem (queuedPair.throttled_transactions_.get ⟨i, hi⟩)).throttled_byte_count -
            (queuedPair.elapsedTicks 3000000 /
                (queuedPair.throttled_transactions_.length : Int) * 1500 +
              (if (i : Int) < queuedPair.elapsedTicks 3000000 %
                  (queuedPair.throttled_transactions_.length : Int)
                then 1500 else 0))) ∧
      s'.throttled_transactions_ = queuedPair.throttled_transactions_.rotate
        (queuedPair.elapsedTicks 3000000 %
          (queuedPair.throttled_transactions_.length : Int)).toNat ∧
      (0 < queuedPair.tick_length_ → queuedPair.offset_ ≤ 3000000 →
        queuedPair.elapsedTicks 3000000 =
          (3000000 - queuedPair.offset_) / queuedPair.tick_length_ - queuedPair.last_tick_) :=
  UpdateThrottles_by_position queuedPair 3000000 (by decide!) (by decide!) (by decide!)

/-! ## The ticks left of a queue position -/

/-- For a positive throttled byte count `d` to which 1499 can be added in
`int64_t`, `packets_left` is `ceil(d / 1500)`. -/
theorem packetsLeft_ceil (mem : Nat → DevToolsNetworkTransaction) (t : Nat)
    (hd : 0 < (mem t).throttled_byte_count)
    (hmax : (mem t).throttled_byte_count ≤ 9223372036854774308) :
    1500 * (packetsLeft mem t - 1) < (mem t).throttled_byte_count ∧
    (mem t).throttled_byte_count ≤ 1500 * packetsLeft mem t ∧
    packetsLeft mem t = ⌈((mem t).throttled_byte_count : ℚ) / 1500⌉ := by
  have hp : packetsLeft mem t = ((mem t).throttled_byte_count + 1499) / 1500 := by
    rw [packetsLeft_eq mem t ⟨by omega, by omega⟩,
      Int.tdiv_eq_ediv (by omega) (by norm_num)]
  have h1 : 1500 * (packetsLeft mem t - 1) < (mem t).throttled_byte_count := by
    rw [hp]; omega
  have h2 : (mem t).throttled_byte_count ≤ 1500 * packetsLeft mem t := by
    rw [hp]; omega
  refine ⟨h1, h2, ?_⟩
  symm
  rw [Int.ceil_eq_iff]
  constructor
  · rw [lt_div_iff₀ (by norm_num : (0 : ℚ) < 1500)]
    have : ((1500 * (packetsLeft mem t - 1) : Int) : ℚ) < ((mem t).throttled_byte_count : ℚ) := by
      exact_mod_cast h1
    push_cast at this
    linarith
  · rw [div_le_iff₀ (by norm_num : (0 : ℚ) < 1500)]
    have : (((mem t).throttled_byte_count : Int) : ℚ) ≤ ((1500 * packetsLeft mem t : Int) : ℚ) := by
      exact_mod_cast h2
    push_cast at this
    linarith

/-- The round-robin arithmetic: with `k = N * Q + R` elapsed ticks, `0 <= R < N`,
position `i < N` has been served `p` packets or more exactly when
`(i + 1) + N * (p - 1) <= k`. -/
theorem served_iff_ticks (N Q R p i : Int) (hN : 0 < N) (hR0 : 0 ≤ R) (hRN : R < N)
    (hi0 : 0 ≤ i) (hiN : i < N) :
    p ≤ Q + (if i < R then 1 else 0) ↔ (i + 1) + N * (p - 1) ≤ N * Q + R := by
  have hmul : N * Q - N * (p - 1) = N * (Q - (p - 1)) := by ring
  rcases lt_trichotomy Q (p - 1) with hlt | heq | hgt
  · have h1 : N * (Q - (p - 1)) ≤ N * (-1) :=
      Int.mul_le_mul_of_nonneg_left (by omega) (le_of_lt hN)
    generalize N * Q = X at *
    generalize N * (p - 1) = Y at *
    generalize N * (Q - (p - 1)) = Z at *
    split <;> constructor <;> intro h <;> omega
  · subst heq
    generalize N * (p - 1) = Y at *
    split <;> constructor <;> intro h <;> omega
  · have h1 : N * 1 ≤ N * (Q - (p - 1)) :=
      Int.mul_le_mul_of_nonneg_left (by omega) (le_of_lt hN)
    generalize N * Q = X at *
    generalize N * (p - 1) = Y at *
    generalize N * (Q - (p - 1)) = Z at *
    split <;> constructor <;> intro h <;> omega

/-- C18, at three states.  A queue holding one transaction twice: with queue
`[0, 0]` and a byte count of 3000, `ticks_left` of position 0 is 3, but two elapsed
ticks already bring the byte count of that transaction to 0.  The largest byte
count: with queue `[0]` and `d = 9,223,372,036,854,775,807`, the sum `d + 1499`
leaves `int64_t` and `packets_left` is -6,148,914,691,236,516, while `ceil(d / 1500)`
is 6,148,914,691,236,518.  A long queue: with 1501 queued transactions and
`d = 9,223,372,036,854,774,308`, `packets_left` is 6,148,914,691,236,517 and
`(0 + 1) + N * (packets_left - 1)` is 9,229,520,951,546,010,517, outside `int64_t`;
the `ticks_left` of position 0 is -9,217,223,122,163,541,099. -/
theorem ticksLeft_not_least :
    (queuedTwice.throttled_transactions_ = [0, 0] ∧
      (queuedTwice.mem 0).throttled_byte_count = 3000 ∧
      ticksLeft queuedTwice.mem queuedTwice.throttled_transactions_ 0 = 3 ∧
      queuedTwice.elapsedTicks 2000000 = 2 ∧
      (queuedTwice.UpdateThrottles 2000000).map (fun s => (s.mem 0).throttled_byte_count) =
        some 0) ∧
    (queuedMax.throttled_transactions_ = [0] ∧
      (queuedMax.mem 0).throttled_byte_count = 9223372036854775807 ∧
      packetsLeft queuedMax.mem 0 = -6148914691236516 ∧
      ⌈((queuedMax.mem 0).throttled_byte_count : ℚ) / 1500⌉ = 6148914691236518) ∧
    (queuedWide.throttled_transactions_.length = 1501 ∧
      queuedWide.throttled_transactions_.Nodup ∧
      (queuedWide.mem (queuedWide.throttled_transactions_.getD 0 0)).throttled_byte_count =
        9223372036854774308 ∧
      packetsLeft queuedWide.mem (queuedWide.throttled_transactions_.getD 0 0) =
        6148914691236517 ∧
      ((0 : Nat) : Int) + 1 + (queuedWide.throttled_transactions_.length : Int) *
        (packetsLeft queuedWide.mem (queuedWide.throttled_transactions_.getD 0 0) - 1) =
          9229520951546010517 ∧
      ticksLeft queuedWide.mem queuedWide.throttled_transactions_ 0 =
        -9217223122163541099) := by
  have hnd : queuedWide.throttled_transactions_.Nodup := by
    simp only [queuedWide]
    exact List.nodup_range 1501
  refine ⟨⟨by decide!, by decide!, by decide!, by decide!, by decide!⟩,
    ⟨by decide!, by decide!, by decide!, ?_⟩,
    ⟨by decide!, hnd, by decide!, by decide!, by decide!, by decide!⟩⟩
  have hd : (queuedMax.mem 0).throttled_byte_count = 9223372036854775807 := by decide!
  rw [hd, Int.ceil_eq_iff]
  constructor <;> norm_num

/-- C18, amended: for every throttled queue of length N >= 1 whose transactions
are pairwise distinct and every position `i` whose throttled byte count `d` is
positive, with `d + 1499` and `(i + 1) + N * (packets_left - 1)` within `int64_t`,
`packets_left` of `ArmTimer` is `ceil(d / 1500)` and
`ticks_left(i) = (i + 1) + N * (packets_left - 1)` is the least number of ticks
that brings the byte count of that transaction to zero or below: a
reconciliation with `k >= 0` elapsed ticks returns and leaves the count at zero
or below exactly when `ticks_left(i) <= k`, and every `k` is the elapsed tick
count of some clock reading. -/
theorem ticksLeft_least (s : DevToolsNetworkInterceptor) (i : Nat)
    (hi : i < s.throttled_transactions_.length)
    (htick : s.tick_length_ ≠ 0) (hnd : s.throttled_transactions_.Nodup)
    (hd : 0 < (s.mem (s.throttled_transactions_.get ⟨i, hi⟩)).throttled_byte_count)
    (hmax : (s.mem (s.throttled_transactions_.get ⟨i, hi⟩)).throttled_byte_count ≤
      9223372036854774308)
    (hrange : inInt64 (((i : Int) + 1) + (s.throttled_transactions_.length : Int) *
      (packetsLeft s.mem (s.throttled_transactions_.get ⟨i, hi⟩) - 1))) :
    packetsLeft s.mem (s.throttled_transactions_.get ⟨i, hi⟩) =
      ⌈((s.mem (s.throttled_transactions_.get ⟨i, hi⟩)).throttled_byte_count : ℚ) / 1500⌉ ∧
    ticksLeft s.mem s.throttled_transactions_ i =
      ((i : Int) + 1) + (s.throttled_transactions_.length : Int) *
        (packetsLeft s.mem (s.throttled_transactions_.get ⟨i, hi⟩) - 1) ∧
    (∀ now, 0 ≤ s.elapsedTicks now →
      ∃ s', s.UpdateThrottles now = some s' ∧
        ((s'.mem (s.throttled_transactions_.get ⟨i, hi⟩)).throttled_byte_count ≤ 0 ↔
          ticksLeft s.mem s.throttled_transactions_ i ≤ s.elapsedTicks now)) ∧
    (∀ k : Int, s.elapsedTicks (s.offset_ + s.tick_length_ * (s.last_tick_ + k)) = k) := by
  obtain ⟨hc1, hc2, hceil⟩ :=
    packetsLeft_ceil s.mem (s.throttled_transactions_.get ⟨i, hi⟩) hd hmax
  have hticks : ticksLeft s.mem s.throttled_transactions_ i =
      ((i : Int) + 1) + (s.throttled_transactions_.length : Int) *
        (packetsLeft s.mem (s.throttled_transactions_.get ⟨i, hi⟩) - 1) := by
    unfold ticksLeft
    rw [List.getD_eq_getElem _ _ hi]
    exact ticksLeftAt_eq _ _ _ _ hrange
  refine ⟨hceil, hticks, ?_, ?_⟩
  · intro now hk
    obtain ⟨s', h, _, _, _, _, _, hget⟩ := UpdateThrottles_get s now htick hnd hk
    refine ⟨s', h, ?_⟩
    rw [hget i hi, hticks]
    have hN : (0 : Int) < (s.throttled_transactions_.length : Int) := by
      have : 0 < s.throttled_transactions_.length := by omega
      exact_mod_cast this
    have hR0 := Int.emod_nonneg (s.elapsedTicks now) (ne_of_gt hN)
    have hRN := Int.emod_lt_of_pos (s.elapsedTicks now) hN
    have hdm := Int.ediv_add_emod (s.elapsedTicks now) (s.throttled_transactions_.length : Int)
    have hiN : (i : Int) < (s.throttled_transactions_.length : Int) := by exact_mod_cast hi
    have key := served_iff_ticks (s.throttled_transactions_.length : Int)
      (s.elapsedTicks now / (s.throttled_transactions_.length : Int))
      (s.elapsedTicks now % (s.throttled_transactions_.length : Int))
      (packetsLeft s.mem (s.throttled_transactions_.get ⟨i, hi⟩)) (i : Int)
      hN hR0 hRN (Int.ofNat_nonneg i) hiN
    rw [hdm] at key
    rw [← key]
    split <;> constructor <;> intro h' <;> omega
  · intro k
    unfold elapsedTicks
    have : s.offset_ + s.tick_length_ * (s.last_tick_ + k) - s.offset_ =
        s.tick_length_ * (s.last_tick_ + k) := by ring
    rw [this, Int.mul_tdiv_cancel_left _ htick]
    ring

/-- Witness for C18: position 1 of the queue `[0, 1]`, with a byte count of 1500. -/
theorem ticksLeft_least_witness :
    packetsLeft queuedPair.mem (queuedPair.throttled_transactions_.get ⟨1, by decide!⟩) =
      ⌈((queuedPair.mem (queuedPair.throttled_transactions_.get
        ⟨1, by decide!⟩)).throttled_byte_count : ℚ) / 1500⌉ ∧
    ticksLeft queuedPair.mem queuedPair.throttled_transactions_ 1 =
      (((1 : Nat) : Int) + 1) + (queuedPair.throttled_transactions_.length : Int) *
        (packetsLeft queuedPair.mem (queuedPair.throttled_transactions_.get ⟨1, by decide!⟩) - 1) ∧
    (∀ now, 0 ≤ queuedPair.elapsedTicks now →
      ∃ s', queuedPair.UpdateThrottles now = some s' ∧
        ((s'.mem (queuedPair.throttled_transactions_.get
            ⟨1, by decide!⟩)).throttled_byte_count ≤ 0 ↔
          ticksLeft queuedPair.mem queuedPair.throttled_transactions_ 1 ≤
            queuedPair.elapsedTicks now)) ∧
    (∀ k : Int, queuedPair.elapsedTicks
      (queuedPair.offset_ + queuedPair.tick_length_ * (queuedPair.last_tick_ + k)) = k) :=
  ticksLeft_least queuedPair 1 (by decide!) (by decide!) (by decide!) (by decide!)
    (by decide!) (by decide!)

/-! ## Fairness across reconciliations -/

/-- The position that holds, after `K` rotations, the transaction of position
`i`. -/
theorem rotated_position (N K i : Nat) (hi : i < N) :
    ((i + N - K % N) % N + K) % N = i := by
  have hN : 0 < N := by omega
  have hr : K % N < N := Nat.mod_lt _ hN
  have hdm : N * (K / N) + K % N = K := Nat.div_add_mod K N
  rw [Nat.mod_add_mod]
  have : i + N - K % N + K = i + N * (1 + K / N) := by
    rw [Nat.mul_add, Nat.mul_one]
    generalize N * (K / N) = X at *
    omega
  rw [this, Nat.add_mul_mod_self_left, Nat.mod_eq_of_lt hi]

/-- Among the `k` ticks that follow `K` ticks, those that serve position `i` of
the original queue are those that serve position `j` of the rotated queue. -/
theorem count_after_rotation (N K k i j : Nat) (hN : 0 < N) (hj : j < N)
    (hji : (j + K) % N = i) :
    Nat.count (fun τ => τ % N = i) (K + k) =
      Nat.count (fun τ => τ % N = i) K + (k / N + if j < k % N then 1 else 0) := by
  rw [Nat.count_add]
  congr 1
  have hiff : ∀ τ, (K + τ) % N = i ↔ τ ≡ j [MOD N] := by
    intro τ
    rw [← hji, Nat.add_comm j K]
    constructor
    · intro h
      exact Nat.ModEq.add_left_cancel' K h
    · intro h
      exact Nat.ModEq.add_left K h
  have heq : Nat.count (fun τ => (K + τ) % N = i) k = Nat.count (· ≡ j [MOD N]) k :=
    le_antisymm (Nat.count_mono_left fun τ h => (hiff τ).mp h)
      (Nat.count_mono_left fun τ h => (hiff τ).mpr h)
  rw [heq, Nat.count_modEq_card k hN j, Nat.mod_eq_of_lt hj]

/-- One more reconciliation keeps the round-robin account. -/
theorem ServedRounds_step {s0 s : DevToolsNetworkInterceptor} {K : Nat} (now : Int)
    (hnd : s0.throttled_transactions_.Nodup) (hne : s0.throttled_transactions_ ≠ [])
    (htick : s0.tick_length_ ≠ 0) (hinv : ServedRounds s0 s K)
    (hk : 0 ≤ s.elapsedTicks now) :
    ∃ s', s.UpdateThrottles now = some s' ∧
      ServedRounds s0 s' (K + (s.elapsedTicks now).toNat) := by
  obtain ⟨hoff, htl, hlt, hq, hcnt⟩ := hinv
  have hNpos : 0 < s0.throttled_transactions_.length := List.length_pos.mpr hne
  have hlen : s.throttled_transactions_.length = s0.throttled_transactions_.length := by
    rw [hq, List.length_rotate]
  have hnd' : s.throttled_transactions_.Nodup := by
    rw [hq]; exact List.nodup_rotate.mpr hnd
  obtain ⟨k, hkk⟩ : ∃ k : Nat, s.elapsedTicks now = (k : Int) :=
    ⟨_, (Int.toNat_of_nonneg hk).symm⟩
  obtain ⟨s', h, hq', hlt', hoff', htl', _, hget⟩ :=
    UpdateThrottles_get s now (by rw [htl]; exact htick) hnd' hk
  refine ⟨s', h, ?_⟩
  rw [hkk, Int.toNat_ofNat]
  have hlenc : (s.throttled_transactions_.length : Int) =
      (s0.throttled_transactions_.length : Int) := by rw [hlen]
  have hmodc : ((k : Int) % (s0.throttled_transactions_.length : Int)) =
      ((k % s0.throttled_transactions_.length : Nat) : Int) := (Int.ofNat_emod _ _).symm
  have hdivc : ((k : Int) / (s0.throttled_transactions_.length : Int)) =
      ((k / s0.throttled_transactions_.length : Nat) : Int) := (Int.ofNat_ediv _ _).symm
  rw [hkk, hlenc, hmodc, Int.toNat_ofNat] at hq'
  refine ⟨hoff'.trans hoff, htl'.trans htl, ?_, ?_, ?_⟩
  · rw [hlt', hlt, hkk]
    push_cast
    ring
  · rw [hq', hq, List.rotate_rotate,
      ← List.rotate_mod _ (K + k % s0.throttled_transactions_.length),
      ← List.rotate_mod _ (K + k), Nat.add_mod_mod]
  · intro i hi
    have hj : (i + s0.throttled_transactions_.length - K % s0.throttled_transactions_.length) %
        s0.throttled_transactions_.length < s0.throttled_transactions_.length :=
      Nat.mod_lt _ hNpos
    have hji := rotated_position s0.throttled_transactions_.length K i hi
    have hel : ∀ (l : List Nat) (_ : l = s0.throttled_transactions_.rotate K)
        (hj' : (i + s0.throttled_transactions_.length -
          K % s0.throttled_transactions_.length) % s0.throttled_transactions_.length < l.length),
        l.get ⟨_, hj'⟩ = s0.throttled_transactions_.get ⟨i, hi⟩ := by
      intro l hl hj'
      subst hl
      rw [List.get_rotate]
      congr 1
      exact Fin.ext hji
    have hgj := hget _ (by rw [hlen]; exact hj)
    rw [hel s.throttled_transactions_ hq (by rw [hlen]; exact hj), hcnt i hi, hkk, hlenc,
      hmodc, hdivc] at hgj
    rw [hgj, count_after_rotation _ K k i _ hNpos hj hji]
    by_cases hc : (i + s0.throttled_transactions_.length -
        K % s0.throttled_transactions_.length) % s0.throttled_transactions_.length <
        k % s0.throttled_transactions_.length
    · have hcI : (((i + s0.throttled_transactions_.length -
          K % s0.throttled_transactions_.length) % s0.throttled_transactions_.length : Nat) : Int) <
          ((k % s0.throttled_transactions_.length : Nat) : Int) := by exact_mod_cast hc
      rw [if_pos hcI, if_pos hc]
      push_cast
      ring
    · have hcI : ¬ (((i + s0.throttled_transactions_.length -
          K % s0.throttled_transactions_.length) % s0.throttled_transactions_.length : Nat) : Int) <
          ((k % s0.throttled_transactions_.length : Nat) : Int) := by
        intro hh
        exact hc (by exact_mod_cast hh)
      rw [if_neg hcI, if_neg hc]
      push_cast
      ring

/-- A sequence of reconciliations with non-negative elapsed tick counts returns and
keeps the round-robin account, the ticks served adding up. -/
theorem reconcileAll_rounds {s0 : DevToolsNetworkInterceptor}
    (hnd : s0.throttled_transactions_.Nodup) (hne : s0.throttled_transactions_ ≠ [])
    (htick : s0.tick_length_ ≠ 0) :
    ∀ (nows : List Int) (s : DevToolsNetworkInterceptor) (K : Nat),
      ServedRounds s0 s K → elapsedNonneg s nows = true →
      ∃ (s' : DevToolsNetworkInterceptor) (K' : Nat),
        reconcileAll s nows = some s' ∧ ServedRounds s0 s' K' ∧
        (K' : Int) = (K : Int) + elapsedAll s nows := by
  intro nows
  induction nows with
  | nil =>
    intro s K hinv _
    exact ⟨s, K, rfl, hinv, by simp [elapsedAll]⟩
  | cons now rest ih =>
    intro s K hinv hnn
    simp only [elapsedNonneg, Bool.and_eq_true, decide_eq_true_eq] at hnn
    obtain ⟨hk, hrest⟩ := hnn
    obtain ⟨s1, h1, hinv1⟩ := ServedRounds_step now hnd hne htick hinv hk
    rw [h1] at hrest
    obtain ⟨s', K', hrun, hinv', hK'⟩ := ih s1 _ hinv1 hrest
    refine ⟨s', K', ?_, hinv', ?_⟩
    · simp only [reconcileAll, h1, Option.some_bind]
      exact hrun
    · simp only [elapsedAll, h1]
      rw [hK']
      push_cast
      rw [Int.toNat_of_nonneg hk]
      ring

/-- The ticks `τ < K` that serve position `i < N`, counted. -/
theorem count_served (N K i : Nat) (hi : i < N) :
    Nat.count (fun τ => τ % N = i) K = K / N + if i < K % N then 1 else 0 := by
  have h := count_after_rotation N 0 K i i (by omega) hi (by simp [Nat.mod_eq_of_lt hi])
  simpa using h

/-- C19, at a queue holding one transaction twice: with queue `[0, 0, 1]` and one
reconciliation of 6 elapsed ticks, 6000 bytes are deducted from transaction 0 and
3000 from transaction 1: two packets apart. -/
theorem reconcileAll_queued_twice :
    scenarioThrice = some queuedThrice ∧
    queuedThrice.throttled_transactions_ = [0, 0, 1] ∧
    elapsedNonneg queuedThrice [6000000] = true ∧
    elapsedAll queuedThrice [6000000] = 6 ∧
    (reconcileAll queuedThrice [6000000]).map
        (fun s => ((queuedThrice.mem 0).throttled_byte_count - (s.mem 0).throttled_byte_count,
          (queuedThrice.mem 1).throttled_byte_count - (s.mem 1).throttled_byte_count,
          s.throttled_transactions_)) =
      some (6000, 3000, [0, 0, 1]) :=
  ⟨rfl, by decide!, by decide!, by decide!, by decide!⟩

/-- C19, amended: for a throttled queue of pairwise distinct transactions whose
membership stays fixed, every sequence of reconciliations with non-negative
elapsed tick counts returns; with `K` the total of the elapsed ticks, position `i`
has then been deducted `K div N` packets plus one when `i < K mod N`, so the
bytes deducted from any two queued transactions differ by at most one packet
(1500 bytes), and once `K >= N` every queued transaction has been deducted at
least one packet. -/
theorem reconcileAll_fair (s : DevToolsNetworkInterceptor) (nows : List Int)
    (htick : s.tick_length_ ≠ 0) (hne : s.throttled_transactions_ ≠ [])
    (hnd : s.throttled_transactions_.Nodup) (hnn : elapsedNonneg s nows = true) :
    ∃ s', reconcileAll s nows = some s' ∧
      (∀ t, t ∈ s'.throttled_transactions_ ↔ t ∈ s.throttled_transactions_) ∧
      (∃ K : Nat, (K : Int) = elapsedAll s nows ∧
        ∀ (i : Nat) (hi : i < s.throttled_transactions_.length),
          (s.mem (s.throttled_transactions_.get ⟨i, hi⟩)).throttled_byte_count -
              (s'.mem (s.throttled_transactions_.get ⟨i, hi⟩)).throttled_byte_count =
            1500 * ((K / s.throttled_transactions_.length +
              (if i < K % s.throttled_transactions_.length then 1 else 0) : Nat) : Int)) ∧
      (∀ t ∈ s.throttled_transactions_, ∀ u ∈ s.throttled_transactions_,
        |((s.mem t).throttled_byte_count - (s'.mem t).throttled_byte_count) -
          ((s.mem u).throttled_byte_count - (s'.mem u).throttled_byte_count)| ≤ 1500) ∧
      ((s.throttled_transactions_.length : Int) ≤ elapsedAll s nows →
        ∀ t ∈ s.throttled_transactions_,
          1500 ≤ (s.mem t).throttled_byte_count - (s'.mem t).throttled_byte_count) := by
  have h0 : ServedRounds s s 0 := by
    refine ⟨rfl, rfl, by simp, by simp, ?_⟩
    intro i hi
    simp
  obtain ⟨s', K, hrun, hinv, hK⟩ := reconcileAll_rounds hnd hne htick nows s 0 h0 hnn
  have hK' : (K : Int) = elapsedAll s nows := by
    rw [hK]; simp
  obtain ⟨_, _, _, hq, hcnt⟩ := hinv
  have hform : ∀ (i : Nat) (hi : i < s.throttled_transactions_.length),
      (s.mem (s.throttled_transactions_.get ⟨i, hi⟩)).throttled_byte_count -
          (s'.mem (s.throttled_transactions_.get ⟨i, hi⟩)).throttled_byte_count =
        1500 * ((K / s.throttled_transactions_.length +
          (if i < K % s.throttled_transactions_.length then 1 else 0) : Nat) : Int) := by
    intro i hi
    rw [hcnt i hi, count_served _ K i hi]
    ring
  have hNpos : 0 < s.throttled_transactions_.length := List.length_pos.mpr hne
  refine ⟨s', hrun, ?_, ⟨K, hK', hform⟩, ?_, ?_⟩
  · intro t
    rw [hq]
    exact List.mem_rotate
  · intro t ht u hu
    obtain ⟨⟨i, hi⟩, rfl⟩ := List.mem_iff_get.mp ht
    obtain ⟨⟨j, hj⟩, rfl⟩ := List.mem_iff_get.mp hu
    rw [hform i hi, hform j hj, abs_le]
    generalize K / s.throttled_transactions_.length = Q
    constructor <;> split <;> split <;> push_cast <;> omega
  · intro hge t ht
    obtain ⟨⟨i, hi⟩, rfl⟩ := List.mem_iff_get.mp ht
    rw [hform i hi]
    have hKN : s.throttled_transactions_.length ≤ K := by
      rw [← hK'] at hge
      exact_mod_cast hge
    have hQ : 1 ≤ K / s.throttled_transactions_.length :=
      (Nat.one_le_div_iff hNpos).mpr hKN
    generalize K / s.throttled_transactions_.length = Q at hQ
    split <;> push_cast <;> omega

/-- Witness for C19: the queue `[0, 1]` reconciled after one and after three
ticks. -/
theorem reconcileAll_fair_witness :
    ∃ s', reconcileAll queuedPair [1000000, 3000000] = some s' ∧
      (∀ t, t ∈ s'.throttled_transactions_ ↔ t ∈ queuedPair.throttled_transactions_) ∧
      (∃ K : Nat, (K : Int) = elapsedAll queuedPair [1000000, 3000000] ∧
        ∀ (i : Nat) (hi : i < queuedPair.throttled_transactions_.length),
          (queuedPair.mem (queuedPair.throttled_transactions_.get ⟨i, hi⟩)).throttled_byte_count -
              (s'.mem (queuedPair.throttled_transactions_.get ⟨i, hi⟩)).throttled_byte_count =
            1500 * ((K / queuedPair.throttled_transactions_.length +
              (if i < K % queuedPair.throttled_transactions_.length then 1 else 0) : Nat) :
                Int)) ∧
      (∀ t ∈ queuedPair.throttled_transactions_, ∀ u ∈ queuedPair.throttled_transactions_,
        |((queuedPair.mem t).throttled_byte_count - (s'.mem t).throttled_byte_count) -
          ((queuedPair.mem u).throttled_byte_count - (s'.mem u).throttled_byte_count)| ≤
            1500) ∧
      ((queuedPair.throttled_transactions_.length : Int) ≤
          elapsedAll queuedPair [1000000, 3000000] →
        ∀ t ∈ queuedPair.throttled_transactions_,
          1500 ≤ (queuedPair.mem t).throttled_byte_count - (s'.mem t).throttled_byte_count) :=
  reconcileAll_fair queuedPair [1000000, 3000000] (by decide!) (by decide!) (by decide!)
    (by decide!)

/-! ## The timer with an empty queue -/

/-- C21, at a timer armed earlier: from the queue `[0]` reached by `scenarioOne`,
whose timer was started with a delay of 2,000,000 microseconds at time 0,
`RemoveTransaction(0)` at time 1,000,000 empties the queue and leaves the timer
started as it was. -/
theorem RemoveTransaction_last_keeps_timer :
    scenarioOne = some queuedOnce ∧
    queuedOnce.throttled_transactions_ = [0] ∧
    queuedOnce.timer_ = some 2000000 ∧
    (queuedOnce.RemoveTransaction 0 1000000).map
        (fun s => (s.throttled_transactions_, s.timer_)) =
      some ([], some 2000000) :=
  ⟨rfl, by decide!, by decide!, by decide!⟩

/-- C21, amended: `ArmTimer` with an empty throttled queue schedules no wake-up
and leaves the whole state, the timer included, exactly as it was: a stopped
timer stays stopped and a wake-up armed earlier stays pending. -/
theorem ArmTimer_empty (s : DevToolsNetworkInterceptor) (now : Int)
    (hq : s.throttled_transactions_ = []) :
    s.ArmTimer now = s ∧ (s.ArmTimer now).timer_ = s.timer_ := by
  have : s.ArmTimer now = s := by
    unfold ArmTimer
    rw [if_pos (by simp [hq])]
  exact ⟨this, by rw [this]⟩

/-- Witness for C21: the registered transactions of `exRegistered`, none queued. -/
theorem ArmTimer_empty_witness :
    exRegistered.ArmTimer 0 = exRegistered ∧
    (exRegistered.ArmTimer 0).timer_ = exRegistered.timer_ :=
  ArmTimer_empty exRegistered 0 (by decide)

/-! ## Frame properties -/

/-- C22: with an empty throttled queue, `UpdateThrottles` at time `now` returns,
changes no transaction object, leaves the queue empty and the active set as it
was, and sets `last_tick_` to the tick count of `now` (the floor of
`(now - offset) / tick_length` for a positive tick length and `now` not before
the origin): the ticks elapsed so far are consumed, a reconciliation at a later
time counts the ticks from `now` on only, and none is left at `now` itself. -/
theorem UpdateThrottles_empty (s : DevToolsNetworkInterceptor) (now : Int)
    (hq : s.throttled_transactions_ = []) (htick : s.tick_length_ ≠ 0) :
    ∃ s', s.UpdateThrottles now = some s' ∧
      s'.mem = s.mem ∧ s'.throttled_transactions_ = [] ∧
      s'.transactions_ = s.transactions_ ∧
      s'.last_tick_ = (now - s.offset_).tdiv s.tick_length_ ∧
      (0 < s.tick_length_ → s.offset_ ≤ now →
        s'.last_tick_ = (now - s.offset_) / s.tick_length_) ∧
      s'.elapsedTicks now = 0 ∧
      (∀ later, s'.elapsedTicks later =
        (later - s.offset_).tdiv s.tick_length_ - (now - s.offset_).tdiv s.tick_length_) := by
  obtain ⟨s', h⟩ := UpdateThrottles_isSome s now htick (Or.inl hq)
  have he := (UpdateThrottles_eq h).1
  have hf := UpdateThrottles_frame h
  have hlast : s'.last_tick_ = (now - s.offset_).tdiv s.tick_length_ := by rw [he]
  refine ⟨s', h, ?_, ?_, hf.2.1, hlast, ?_, ?_, ?_⟩
  · rw [he]
    simp [hq, decreaseLoop]
  · rw [he]
    simp [hq]
  · intro hpos hnow
    rw [hlast, Int.tdiv_eq_ediv (by omega) (le_of_lt hpos)]
  · unfold elapsedTicks
    rw [hlast, hf.2.2.1, hf.2.2.2.1]
    omega
  · intro later
    unfold elapsedTicks
    rw [hlast, hf.2.2.1, hf.2.2.2.1]

/-- Witness for C22: `exRegistered` with a tick length of one second. -/
theorem UpdateThrottles_empty_witness :
    ∃ s', ({ exRegistered with tick_length_ := 1000000 } :
        DevToolsNetworkInterceptor).UpdateThrottles 2500000 = some s' ∧
      s'.mem = exRegistered.mem ∧ s'.throttled_transactions_ = [] ∧
      s'.transactions_ = exRegistered.transactions_ ∧
      s'.last_tick_ = (2500000 - exRegistered.offset_).tdiv 1000000 ∧
      ((0 : Int) < 1000000 → exRegistered.offset_ ≤ 2500000 →
        s'.last_tick_ = (2500000 - exRegistered.offset_) / 1000000) ∧
      s'.elapsedTicks 2500000 = 0 ∧
      (∀ later, s'.elapsedTicks later =
        (later - exRegistered.offset_).tdiv 1000000 -
          (2500000 - exRegistered.offset_).tdiv 1000000) :=
  UpdateThrottles_empty { exRegistered with tick_length_ := 1000000 } 2500000
    (by decide) (by decide)

/-- The fail loop makes no throttled callback and does not touch the clock. -/
theorem failLoop_clock (l : List Nat) :
    ∀ s : DevToolsNetworkInterceptor,
      (failLoop l s).offset_ = s.offset_ ∧ (failLoop l s).tick_length_ = s.tick_length_ ∧
      (failLoop l s).last_tick_ = s.last_tick_ ∧
      ∀ t, (failLoop l s).calls.count (Call.FireThrottledCallback t) =
        s.calls.count (Call.FireThrottledCallback t) := by
  induction l with
  | nil => intro s; exact ⟨rfl, rfl, rfl, fun _ => rfl⟩
  | cons x rest ih =>
    intro s
    simp only [failLoop]
    split
    · exact ih s
    · split
      · exact ih s
      · split
        · have h := ih { s with mem := store s.mem x (s.mem x).Fail,
                                calls := s.calls ++ [Call.Fail x] }
          obtain ⟨h1, h2, h3, h4⟩ := h
          refine ⟨h1, h2, h3, fun t => ?_⟩
          rw [h4 t]
          have hc : Call.Fail x ≠ Call.FireThrottledCallback t := by
            intro hh; cases hh
          simp [List.count_append, List.count_cons, hc]
        · exact ih s

/-- C23: `UpdateConditions` with offline conditions, whatever download throughput
they carry, returns with the timer stopped and the throttled queue empty, makes
no throttled callback, and leaves the clock origin and the tick length exactly as
they were. -/
theorem UpdateConditions_offline_supersedes (s s0 : DevToolsNetworkInterceptor)
    (c : DevToolsNetworkConditions) (now : Int)
    (hoff : c.offline = true) (hrec : s.reconcileBeforeSwap now = some s0) :
    ∃ s', s.UpdateConditions c now = some s' ∧
      s'.conditions_ = c ∧ s'.timer_ = none ∧ s'.throttled_transactions_ = [] ∧
      (∀ t, s'.calls.count (Call.FireThrottledCallback t) =
        s.calls.count (Call.FireThrottledCallback t)) ∧
      s'.offset_ = s.offset_ ∧ s'.tick_length_ = s.tick_length_ := by
  have hclock : s0.offset_ = s.offset_ ∧ s0.tick_length_ = s.tick_length_ := by
    unfold reconcileBeforeSwap at hrec
    split at hrec
    · have hf := UpdateThrottles_frame hrec
      exact ⟨hf.2.2.1, hf.2.2.2.1⟩
    · cases hrec
      exact ⟨rfl, rfl⟩
  have hcalls := (reconcileBeforeSwap_frame hrec).2.1
  have hu : s.UpdateConditions c now = some (failLoop s0.transactions_
      { s0 with conditions_ := c, timer_ := none, throttled_transactions_ := [] }) := by
    rw [UpdateConditions_of_reconcile c hrec, if_pos hoff]
  have hfr := failLoop_frame s0.transactions_
    { s0 with conditions_ := c, timer_ := none, throttled_transactions_ := [] }
  have hcl := failLoop_clock s0.transactions_
    { s0 with conditions_ := c, timer_ := none, throttled_transactions_ := [] }
  refine ⟨_, hu, hfr.1, hfr.2.2.2.1, hfr.2.2.1, ?_, ?_, ?_⟩
  · intro t
    rw [hcl.2.2.2 t]
    show s0.calls.count _ = _
    rw [hcalls]
  · rw [hcl.1]
    exact hclock.1
  · rw [hcl.2.1]
    exact hclock.2

/-- Witness for C23: the queue `[0, 1]` when conditions that are offline and
carry 3000 bytes/s are set after one tick. -/
theorem UpdateConditions_offline_supersedes_witness :
    ∃ s0, queuedPair.reconcileBeforeSwap 1000000 = some s0 ∧
      ∃ s', queuedPair.UpdateConditions { offline := true, download_throughput := 3000 }
          1000000 = some s' ∧
        s'.conditions_ = { offline := true, download_throughput := 3000 } ∧
        s'.timer_ = none ∧ s'.throttled_transactions_ = [] ∧
        (∀ t, s'.calls.count (Call.FireThrottledCallback t) =
          queuedPair.calls.count (Call.FireThrottledCallback t)) ∧
        s'.offset_ = queuedPair.offset_ ∧ s'.tick_length_ = queuedPair.tick_length_ := by
  obtain ⟨s0, h⟩ := UpdateThrottles_isSome queuedPair 1000000 (by decide!) (Or.inr (by decide!))
  have hrec : queuedPair.reconcileBeforeSwap 1000000 = some s0 := by
    unfold reconcileBeforeSwap
    rw [if_pos (by decide!)]
    exact h
  exact ⟨s0, hrec, UpdateConditions_offline_supersedes queuedPair s0
    { offline := true, download_throughput := 3000 } 1000000 rfl hrec⟩

/-- C24: when the current conditions do not specify throttling,
`RemoveTransaction(t)` returns the state with `t` erased from the active set and
nothing else changed: the throttled queue, the transaction objects, the clock
origin, `last_tick_`, the tick length and the timer are as before, whatever the
clock reading (no reconciliation is made). -/
theorem RemoveTransaction_not_throttling (s : DevToolsNetworkInterceptor) (t : Nat) (now : Int)
    (hno : s.conditions_.IsThrottling = false) :
    s.RemoveTransaction t now =
      some { s with transactions_ := setErase t s.transactions_ } ∧
    ∃ s', s.RemoveTransaction t now = some s' ∧
      s'.transactions_ = setErase t s.transactions_ ∧
      s'.throttled_transactions_ = s.throttled_transactions_ ∧ s'.mem = s.mem ∧
      s'.offset_ = s.offset_ ∧ s'.last_tick_ = s.last_tick_ ∧
      s'.tick_length_ = s.tick_length_ ∧ s'.timer_ = s.timer_ ∧
      s'.conditions_ = s.conditions_ ∧ s'.calls = s.calls := by
  have h : s.RemoveTransaction t now =
      some { s with transactions_ := setErase t s.transactions_ } := by
    simp [RemoveTransaction, hno]
  exact ⟨h, _, h, rfl, rfl, rfl, rfl, rfl, rfl, rfl, rfl, rfl⟩

/-- Witness for C24: transaction 1 removed from `exRegistered`, whose conditions
are the default ones. -/
theorem RemoveTransaction_not_throttling_witness :
    exRegistered.RemoveTransaction 1 7 =
      some { exRegistered with transactions_ := setErase 1 exRegistered.transactions_ } ∧
    ∃ s', exRegistered.RemoveTransaction 1 7 = some s' ∧
      s'.transactions_ = setErase 1 exRegistered.transactions_ ∧
      s'.throttled_transactions_ = exRegistered.throttled_transactions_ ∧
      s'.mem = exRegistered.mem ∧
      s'.offset_ = exRegistered.offset_ ∧ s'.last_tick_ = exRegistered.last_tick_ ∧
      s'.tick_length_ = exRegistered.tick_length_ ∧ s'.timer_ = exRegistered.timer_ ∧
      s'.conditions_ = exRegistered.conditions_ ∧ s'.calls = exRegistered.calls :=
  RemoveTransaction_not_throttling exRegistered 1 7 (by decide)

/-! ## Bounds of the rotation -/

/-- C25: with a positive tick length, `last_tick_` the tick count of an earlier
time `prev` (the previous reconciliation, or the origin itself after
`UpdateConditions`) and `offset <= prev <= now`, the elapsed tick count of
`UpdateThrottles` at `now` is not negative; the call returns, `last_tick_` does
not decrease and is the tick count of `now`, and for a non-empty queue of length
N the rotation offset `shift = ticks mod N` satisfies `0 <= shift < N`. -/
theorem UpdateThrottles_in_bounds (s : DevToolsNetworkInterceptor) (prev now : Int)
    (hpos : 0 < s.tick_length_) (hprev : s.offset_ ≤ prev) (hnow : prev ≤ now)
    (hlast : s.last_tick_ = (prev - s.offset_).tdiv s.tick_length_) :
    0 ≤ s.elapsedTicks now ∧
    ∃ s', s.UpdateThrottles now = some s' ∧
      s.last_tick_ ≤ s'.last_tick_ ∧
      s'.last_tick_ = (now - s.offset_).tdiv s.tick_length_ ∧
      (s.throttled_transactions_ ≠ [] →
        0 ≤ (s.elapsedTicks now).tmod (s.throttled_transactions_.length : Int) ∧
        (s.elapsedTicks now).tmod (s.throttled_transactions_.length : Int) <
          (s.throttled_transactions_.length : Int) ∧
        ((s.elapsedTicks now).tmod (s.throttled_transactions_.length : Int)).toNat <
          s.throttled_transactions_.length) := by
  have hk : 0 ≤ s.elapsedTicks now := by
    unfold elapsedTicks
    rw [hlast, Int.tdiv_eq_ediv (by omega) (le_of_lt hpos),
      Int.tdiv_eq_ediv (by omega) (le_of_lt hpos)]
    have := Int.ediv_le_ediv hpos (show prev - s.offset_ ≤ now - s.offset_ by omega)
    omega
  obtain ⟨s', h⟩ := UpdateThrottles_isSome s now (ne_of_gt hpos) (Or.inr hk)
  have hl : s'.last_tick_ = (now - s.offset_).tdiv s.tick_length_ := by
    rw [(UpdateThrottles_eq h).1]
  refine ⟨hk, s', h, ?_, hl, ?_⟩
  · rw [hl]
    unfold elapsedTicks at hk
    omega
  · intro hne
    have hN : (0 : Int) < (s.throttled_transactions_.length : Int) := by
      have : 0 < s.throttled_transactions_.length := List.length_pos.mpr hne
      exact_mod_cast this
    have h0 := Int.tmod_nonneg (s.throttled_transactions_.length : Int) hk
    have h1 := Int.tmod_lt_of_pos (s.elapsedTicks now) hN
    refine ⟨h0, h1, ?_⟩
    omega

/-- Witness for C25: the queue `[0, 1]`, reconciled last at its origin, at three
and a half ticks. -/
theorem UpdateThrottles_in_bounds_witness :
    0 ≤ queuedPair.elapsedTicks 3500000 ∧
    ∃ s', queuedPair.UpdateThrottles 3500000 = some s' ∧
      queuedPair.last_tick_ ≤ s'.last_tick_ ∧
      s'.last_tick_ = (3500000 - queuedPair.offset_).tdiv queuedPair.tick_length_ ∧
      (queuedPair.throttled_transactions_ ≠ [] →
        0 ≤ (queuedPair.elapsedTicks 3500000).tmod
          (queuedPair.throttled_transactions_.length : Int) ∧
        (queuedPair.elapsedTicks 3500000).tmod
            (queuedPair.throttled_transactions_.length : Int) <
          (queuedPair.throttled_transactions_.length : Int) ∧
        ((queuedPair.elapsedTicks 3500000).tmod
            (queuedPair.throttled_transactions_.length : Int)).toNat <
          queuedPair.throttled_transactions_.length) :=
  UpdateThrottles_in_bounds queuedPair 0 3500000 (by decide!) (by decide!) (by decide)
    (by decide!)

/-! ## The wake-up re-armed by `OnTimer` -/

/-- C29: in `scenarioOne`, `OnTimer` at the time the timer was armed for leaves
the non-empty queue `[0]` with the byte count of transaction 0 at 0; the only
`ticks_left` is then 0, not 1 or more, the timer is re-armed with delay 0 for the
tick just consumed, and `OnTimer` at that same time leaves the queue, the byte
count, `last_tick_` and the zero delay as they are, without any callback. -/
theorem OnTimer_rearms_at_consumed_tick :
    (scenarioOne.bind fun s => s.OnTimer 2000000) = some firedOnce ∧
    firedOnce.throttled_transactions_ = [0] ∧
    (firedOnce.mem 0).throttled_byte_count = 0 ∧
    firedOnce.last_tick_ = 2 ∧
    ticksLeft firedOnce.mem firedOnce.throttled_transactions_ 0 = 0 ∧
    firedOnce.timer_ = some 0 ∧
    (firedOnce.OnTimer 2000000).map
        (fun s => (s.throttled_transactions_, (s.mem 0).throttled_byte_count, s.last_tick_,
          s.timer_, s.calls)) =
      some ([0], 0, 2, some 0, []) :=
  ⟨rfl, by decide!, by decide!, by decide!, by decide!, by decide!, by decide!⟩

/-! ## The distribution slot by slot -/

/-- The byte count that the decrease loop leaves to a transaction: one amount
less for every slot that holds it. -/
theorem decreaseLoop_count (ticks length shift : Int) (l : List Nat) :
    ∀ (i : Nat) (mem : Nat → DevToolsNetworkTransaction) (t : Nat),
      (decreaseLoop ticks length shift l i mem t).throttled_byte_count =
        (mem t).throttled_byte_count -
          slotSum (fun p => ticks.tdiv length * kPacketSize +
            (if (p : Int) < shift then kPacketSize else 0)) l i t := by
  induction l with
  | nil => intro i mem t; simp [decreaseLoop, slotSum]
  | cons x rest ih =>
    intro i mem t
    simp only [decreaseLoop, slotSum]
    rw [ih]
    by_cases hxt : x = t
    · subst hxt
      simp only [store_same, if_true, DevToolsNetworkTransaction.DecreaseThrottledByteCount]
      ring
    · have htx : t ≠ x := fun h => hxt h.symm
      rw [store_other _ _ _ _ htx, if_neg hxt]
      ring

theorem slotSum_congr (a b : Nat → Int) (l : List Nat) :
    ∀ (i t : Nat), (∀ p, i ≤ p → p < i + l.length → a p = b p) →
      slotSum a l i t = slotSum b l i t := by
  induction l with
  | nil => intro i t _; rfl
  | cons x rest ih =>
    intro i t h
    simp only [slotSum]
    rw [h i (le_refl _) (by simp), ih (i + 1) t]
    intro p hp1 hp2
    exact h p (by omega) (by simp only [List.length_cons]; omega)

theorem slotSum_add (a b : Nat → Int) (l : List Nat) :
    ∀ (i t : Nat),
      slotSum (fun p => a p + b p) l i t = slotSum a l i t + slotSum b l i t := by
  induction l with
  | nil => intro i t; simp [slotSum]
  | cons x rest ih =>
    intro i t
    simp only [slotSum, ih]
    split <;> ring

theorem slotSum_zero (l : List Nat) :
    ∀ (i t : Nat), slotSum (fun _ => 0) l i t = 0 := by
  induction l with
  | nil => intro i t; rfl
  | cons x rest ih =>
    intro i t
    simp [slotSum, ih]

/-- An amount `c` given to the single position `r` goes to the transaction of that
slot. -/
theorem slotSum_single (c : Int) (r : Nat) (l : List Nat) :
    ∀ (i t : Nat), i ≤ r → r < i + l.length →
      slotSum (fun p => if p = r then c else 0) l i t =
        if l[r - i]? = some t then c else 0 := by
  induction l with
  | nil => intro i t h1 h2; simp at h2; omega
  | cons x rest ih =>
    intro i t h1 h2
    simp only [slotSum]
    by_cases hir : i = r
    · subst hir
      have h0 : slotSum (fun p => if p = i then c else 0) rest (i + 1) t = 0 := by
        rw [slotSum_congr _ (fun _ => 0) rest (i + 1) t, slotSum_zero]
        intro p hp _
        rw [if_neg (by omega)]
      rw [h0]
      simp
    · have hlt : i + 1 ≤ r := by omega
      rw [ih (i + 1) t hlt (by simp only [List.length_cons] at h2; omega)]
      have hsub : r - i = (r - (i + 1)) + 1 := by omega
      rw [hsub, List.getElem?_cons_succ]
      simp [hir]

/-- The amount of position `p < N` after `k` ticks, as a count of the ticks that
serve the position. -/
theorem amount_eq_count (N k p : Nat) (hp : p < N) :
    (k : Int).tdiv (N : Int) * kPacketSize +
        (if (p : Int) < (k : Int).tmod (N : Int) then kPacketSize else 0) =
      1500 * (Nat.count (fun τ => τ % N = p) k : Int) := by
  rw [count_served N k p hp, ← Int.ofNat_tdiv, ← Int.ofNat_tmod]
  simp only [kPacketSize]
  by_cases hc : p < k % N
  · have hcI : (p : Int) < ((k % N : Nat) : Int) := by exact_mod_cast hc
    rw [if_pos hcI, if_pos hc]
    push_cast
    ring
  · have hcI : ¬ (p : Int) < ((k % N : Nat) : Int) := by
      intro hh; exact hc (by exact_mod_cast hh)
    rw [if_neg hcI, if_neg hc]
    push_cast
    ring

/-- One more tick gives one more packet to the slot at position `k mod N`. -/
theorem slotSum_succ (q : List Nat) (hne : q ≠ []) (k t : Nat) :
    slotSum (fun p => ((k + 1 : Nat) : Int).tdiv (q.length : Int) * kPacketSize +
        (if (p : Int) < ((k + 1 : Nat) : Int).tmod (q.length : Int) then kPacketSize else 0))
        q 0 t =
      slotSum (fun p => (k : Int).tdiv (q.length : Int) * kPacketSize +
        (if (p : Int) < (k : Int).tmod (q.length : Int) then kPacketSize else 0)) q 0 t +
        (if q[k % q.length]? = some t then 1500 else 0) := by
  have hN : 0 < q.length := List.length_pos.mpr hne
  have hr : k % q.length < q.length := Nat.mod_lt _ hN
  have hs := slotSum_single 1500 (k % q.length) q 0 t (Nat.zero_le _) (by omega)
  rw [Nat.sub_zero] at hs
  rw [← hs, ← slotSum_add]
  apply slotSum_congr
  intro p _ hp
  have hp' : p < q.length := by omega
  rw [amount_eq_count _ _ _ hp', amount_eq_count _ _ _ hp', Nat.count_succ]
  by_cases hc : k % q.length = p
  · rw [if_pos hc, if_pos hc.symm]
    push_cast
    ring
  · rw [if_neg hc, if_neg (fun h => hc h.symm)]
    push_cast
    ring

/-! ## The naive loop, one tick at a time -/

theorem transaction_eq (a b : DevToolsNetworkTransaction)
    (h1 : a.request_initiator = b.request_initiator) (h2 : a.request = b.request)
    (h3 : a.failed = b.failed) (h4 : a.throttled_byte_count = b.throttled_byte_count) :
    a = b := by
  cases a; cases b; simp_all

theorem naiveTick_nil_iterate (mem : Nat → DevToolsNetworkTransaction) :
    ∀ k : Nat, naiveTick^[k] ([], mem) = ([], mem) := by
  intro k
  induction k with
  | zero => rfl
  | succ k ih => rw [Function.iterate_succ_apply', ih]; rfl

/-- The closed form of `k` naive ticks on a non-empty queue: the queue rotated by
`k`, the heap of the batched loop. -/
theorem naiveTick_iterate (q : List Nat) (hne : q ≠ [])
    (mem : Nat → DevToolsNetworkTransaction) :
    ∀ k : Nat, naiveTick^[k] (q, mem) =
      (q.rotate k,
        decreaseLoop (k : Int) (q.length : Int) ((k : Int).tmod (q.length : Int)) q 0 mem) := by
  intro k
  induction k with
  | zero =>
    simp only [Function.iterate_zero, id_eq, List.rotate_zero, Nat.cast_zero, Int.zero_tmod]
    rw [decreaseLoop_zero]
  | succ k ih =>
    rw [Function.iterate_succ_apply', ih]
    have hN : 0 < q.length := List.length_pos.mpr hne
    have hr : k % q.length < q.length := Nat.mod_lt _ hN
    have hhead : (q.rotate k).head? = q[k % q.length]? := by
      rw [← List.rotate_mod, List.head?_rotate hr]
    have hget : q[k % q.length]? = some (q[k % q.length]) := List.getElem?_eq_getElem hr
    cases hq : q.rotate k with
    | nil =>
      rw [hq, hget] at hhead
      simp at hhead
    | cons h tl =>
      rw [hq] at hhead
      simp only [List.head?_cons] at hhead
      have hrot : q.rotate (k + 1) = tl ++ [h] := by
        rw [← List.rotate_rotate, hq]
        simp [List.rotate_cons_succ]
      simp only [naiveTick]
      rw [hrot]
      congr 1
      funext t
      have hf0 := decreaseLoop_frame (k : Int) (q.length : Int)
        ((k : Int).tmod (q.length : Int)) q 0 mem
      have hf1 := decreaseLoop_frame ((k + 1 : Nat) : Int) (q.length : Int)
        (((k + 1 : Nat) : Int).tmod (q.length : Int)) q 0 mem t
      have hc0 := decreaseLoop_count (k : Int) (q.length : Int)
        ((k : Int).tmod (q.length : Int)) q 0 mem
      have hc1 := decreaseLoop_count ((k + 1 : Nat) : Int) (q.length : Int)
        (((k + 1 : Nat) : Int).tmod (q.length : Int)) q 0 mem t
      rw [slotSum_succ q hne k t, ← hhead] at hc1
      by_cases hth : t = h
      · subst hth
        rw [store_same]
        apply transaction_eq
        · rw [hf1.1]; exact (hf0 t).1
        · rw [hf1.2.1]; exact (hf0 t).2.1
        · rw [hf1.2.2]; exact (hf0 t).2.2
        · rw [hc1, if_pos rfl]
          simp only [DevToolsNetworkTransaction.DecreaseThrottledByteCount, kPacketSize]
          rw [hc0 t]
          simp only [kPacketSize]
          ring
      · rw [store_other _ _ _ _ hth]
        apply transaction_eq
        · rw [hf1.1]; exact (hf0 t).1
        · rw [hf1.2.1]; exact (hf0 t).2.1
        · rw [hf1.2.2]; exact (hf0 t).2.2
        · have hne2 : ¬ (some h = some t) := by
            intro hh; exact hth (Option.some.inj hh).symm
          rw [hc1, if_neg hne2, hc0 t]
          ring

/-- The queue and the heap that `UpdateThrottles` returns are those of `k` naive
ticks, `k` being the elapsed tick count. -/
theorem UpdateThrottles_naive {s s' : DevToolsNetworkInterceptor} {now : Int}
    (h : s.UpdateThrottles now = some s') (k : Nat) (hk : s.elapsedTicks now = (k : Int)) :
    (s'.throttled_transactions_, s'.mem) =
      naiveTick^[k] (s.throttled_transactions_, s.mem) := by
  have he := (UpdateThrottles_eq h).1
  rw [he]
  simp only [hk]
  by_cases hne : s.throttled_transactions_ = []
  · rw [hne, naiveTick_nil_iterate]
    simp [decreaseLoop]
  · rw [naiveTick_iterate _ hne]
    congr 1
    rw [← Int.ofNat_tmod, Int.toNat_ofNat, List.rotate_mod]

/-- C28: with a tick length that is not zero and an elapsed tick count `k ≥ 0`,
`UpdateThrottles` returns, and the queue order and the heap of transactions (so
every byte count) it produces are those of applying `k` times the single-tick step
that deducts one packet of 1500 bytes from the front transaction and moves it to
the back; the queue may be empty or hold a transaction more than once. -/
theorem UpdateThrottles_refines_naive (s : DevToolsNetworkInterceptor) (now : Int)
    (htick : s.tick_length_ ≠ 0) (hk : 0 ≤ s.elapsedTicks now) :
    ∃ s', s.UpdateThrottles now = some s' ∧
      (s'.throttled_transactions_, s'.mem) =
        naiveTick^[(s.elapsedTicks now).toNat] (s.throttled_transactions_, s.mem) := by
  obtain ⟨s', hs'⟩ := UpdateThrottles_isSome s now htick (Or.inr hk)
  exact ⟨s', hs', UpdateThrottles_naive hs' _ (Int.toNat_of_nonneg hk).symm⟩

theorem UpdateThrottles_refines_naive_witness :
    (queuedPair.tick_length_ ≠ 0 ∧ 0 ≤ queuedPair.elapsedTicks 3500000) ∧
    ∃ s', queuedPair.UpdateThrottles 3500000 = some s' ∧
      (s'.throttled_transactions_, s'.mem) =
        naiveTick^[(queuedPair.elapsedTicks 3500000).toNat]
          (queuedPair.throttled_transactions_, queuedPair.mem) :=
  ⟨⟨by decide!, by decide!⟩,
    UpdateThrottles_refines_naive queuedPair 3500000 (by decide!) (by decide!)⟩

/-! ## Composition and conservation -/

theorem interceptor_eq (a b : DevToolsNetworkInterceptor)
    (h1 : a.conditions_ = b.conditions_) (h2 : a.transactions_ = b.transactions_)
    (h3 : a.throttled_transactions_ = b.throttled_transactions_)
    (h4 : a.offset_ = b.offset_) (h5 : a.tick_length_ = b.tick_length_)
    (h6 : a.last_tick_ = b.last_tick_) (h7 : a.timer_ = b.timer_)
    (h8 : a.mem = b.mem) (h9 : a.calls = b.calls) : a = b := by
  cases a; cases b; simp_all

theorem UpdateThrottles_last_tick {s s' : DevToolsNetworkInterceptor} {now : Int}
    (h : s.UpdateThrottles now = some s') :
    s'.last_tick_ = (now - s.offset_).tdiv s.tick_length_ := by
  have he := (UpdateThrottles_eq h).1
  rw [he]

/-- The heap after `k` naive ticks on a non-empty queue: the byte counts of the
queued transactions sum to `1500 * k` less. -/
theorem naiveTick_iterate_sum (q : List Nat) (hne : q ≠ [])
    (mem : Nat → DevToolsNetworkTransaction) :
    ∀ k : Nat,
      ∑ t ∈ q.toFinset, ((naiveTick^[k] (q, mem)).2 t).throttled_byte_count =
        ∑ t ∈ q.toFinset, (mem t).throttled_byte_count - 1500 * (k : Int) := by
  intro k
  induction k with
  | zero => simp
  | succ k ih =>
    rw [Function.iterate_succ_apply']
    rw [naiveTick_iterate q hne mem k] at ih ⊢
    simp only at ih
    cases hq : q.rotate k with
    | nil => exact absurd (List.rotate_eq_nil_iff.mp hq) hne
    | cons h tl =>
      have hmem : h ∈ q := by
        have h0 : h ∈ q.rotate k := by rw [hq]; simp
        exact List.mem_rotate.mp h0
      simp only [naiveTick]
      have hstore : ∀ (m : Nat → DevToolsNetworkTransaction) (t : Nat),
          (store m h ((m h).DecreaseThrottledByteCount kPacketSize) t).throttled_byte_count =
            (m t).throttled_byte_count - (if t = h then 1500 else 0) := by
        intro m t
        by_cases hth : t = h
        · subst hth
          rw [store_same, if_pos rfl]
          rfl
        · rw [store_other _ _ _ _ hth, if_neg hth]
          ring
      simp only [hstore]
      rw [Finset.sum_sub_distrib, Finset.sum_ite_eq', if_pos (List.mem_toFinset.mpr hmem), ih]
      push_cast
      ring

/-- C26: for a positive tick length, times `offset ≤ t1 ≤ t2` and a consumed tick
counter that is not ahead of `t1`, `UpdateThrottles` at `t1` and then at `t2`, and
`UpdateThrottles` once at `t2`, both return, and they return the same state: the
same throttled byte counts, the same queue order, the same `last_tick`. -/
theorem UpdateThrottles_composes (s : DevToolsNetworkInterceptor) (t1 t2 : Int)
    (hpos : 0 < s.tick_length_) (h1 : s.offset_ ≤ t1) (h12 : t1 ≤ t2)
    (hlast : s.last_tick_ ≤ (t1 - s.offset_).tdiv s.tick_length_) :
    ∃ s1 s2, s.UpdateThrottles t1 = some s1 ∧ s1.UpdateThrottles t2 = some s2 ∧
      s.UpdateThrottles t2 = some s2 := by
  have htick : s.tick_length_ ≠ 0 := ne_of_gt hpos
  have hmono : (t1 - s.offset_).tdiv s.tick_length_ ≤ (t2 - s.offset_).tdiv s.tick_length_ := by
    rw [Int.tdiv_eq_ediv (by omega) (le_of_lt hpos), Int.tdiv_eq_ediv (by omega) (le_of_lt hpos)]
    exact Int.ediv_le_ediv hpos (by omega)
  have hk1 : 0 ≤ s.elapsedTicks t1 := by
    unfold DevToolsNetworkInterceptor.elapsedTicks; omega
  have hk : 0 ≤ s.elapsedTicks t2 := by
    unfold DevToolsNetworkInterceptor.elapsedTicks; omega
  obtain ⟨s1, hs1⟩ := UpdateThrottles_isSome s t1 htick (Or.inr hk1)
  have hf1 := UpdateThrottles_frame hs1
  have hl1 := UpdateThrottles_last_tick hs1
  have he2 : s1.elapsedTicks t2 =
      (t2 - s.offset_).tdiv s.tick_length_ - (t1 - s.offset_).tdiv s.tick_length_ := by
    unfold DevToolsNetworkInterceptor.elapsedTicks
    rw [hf1.2.2.1, hf1.2.2.2.1, hl1]
  have hk2 : 0 ≤ s1.elapsedTicks t2 := by rw [he2]; omega
  have htick1 : s1.tick_length_ ≠ 0 := by rw [hf1.2.2.2.1]; exact htick
  obtain ⟨s2, hs2⟩ := UpdateThrottles_isSome s1 t2 htick1 (Or.inr hk2)
  obtain ⟨s3, hs3⟩ := UpdateThrottles_isSome s t2 htick (Or.inr hk)
  have hf2 := UpdateThrottles_frame hs2
  have hf3 := UpdateThrottles_frame hs3
  have hl2 := UpdateThrottles_last_tick hs2
  have hl3 := UpdateThrottles_last_tick hs3
  have hn1 := UpdateThrottles_naive hs1 _ (Int.toNat_of_nonneg hk1).symm
  have hn2 := UpdateThrottles_naive hs2 _ (Int.toNat_of_nonneg hk2).symm
  have hn3 := UpdateThrottles_naive hs3 _ (Int.toNat_of_nonneg hk).symm
  have hsum : (s.elapsedTicks t2).toNat =
      (s1.elapsedTicks t2).toNat + (s.elapsedTicks t1).toNat := by
    have ha : s.elapsedTicks t2 = s1.elapsedTicks t2 + s.elapsedTicks t1 := by
      rw [he2]; unfold DevToolsNetworkInterceptor.elapsedTicks; ring
    omega
  rw [hn1, ← Function.iterate_add_apply, ← hsum, ← hn3] at hn2
  have hq : s2.throttled_transactions_ = s3.throttled_transactions_ :=
    congrArg Prod.fst hn2
  have hm : s2.mem = s3.mem := congrArg Prod.snd hn2
  have heq : s3 = s2 := by
    apply interceptor_eq
    · rw [hf3.1, hf2.1, hf1.1]
    · rw [hf3.2.1, hf2.2.1, hf1.2.1]
    · exact hq.symm
    · rw [hf3.2.2.1, hf2.2.2.1, hf1.2.2.1]
    · rw [hf3.2.2.2.1, hf2.2.2.2.1, hf1.2.2.2.1]
    · rw [hl3, hl2, hf1.2.2.1, hf1.2.2.2.1]
    · rw [hf3.2.2.2.2.1, hf2.2.2.2.2.1, hf1.2.2.2.2.1]
    · exact hm.symm
    · rw [hf3.2.2.2.2.2.1, hf2.2.2.2.2.2.1, hf1.2.2.2.2.2.1]
  exact ⟨s1, s2, hs1, hs2, by rw [hs3, heq]⟩

theorem UpdateThrottles_composes_witness :
    (0 < queuedPair.tick_length_ ∧ queuedPair.offset_ ≤ 1200000 ∧ (1200000 : Int) ≤ 3500000 ∧
      queuedPair.last_tick_ ≤ (1200000 - queuedPair.offset_).tdiv queuedPair.tick_length_) ∧
    ∃ s1 s2, queuedPair.UpdateThrottles 1200000 = some s1 ∧
      s1.UpdateThrottles 3500000 = some s2 ∧ queuedPair.UpdateThrottles 3500000 = some s2 :=
  ⟨⟨by decide!, by decide!, by decide, by decide!⟩,
    UpdateThrottles_composes queuedPair 1200000 3500000
      (by decide!) (by decide!) (by decide) (by decide!)⟩

/-- C27: for a non-empty throttled queue, a tick length that is not zero and an
elapsed tick count `k ≥ 0`, `UpdateThrottles` returns, the throttled byte counts of
the queued transactions (each transaction counted once) sum to exactly `k * 1500`
less than before the call, and the queue after the call is a permutation of the
queue before it. -/
theorem UpdateThrottles_conserves (s : DevToolsNetworkInterceptor) (now : Int)
    (htick : s.tick_length_ ≠ 0) (hne : s.throttled_transactions_ ≠ [])
    (hk : 0 ≤ s.elapsedTicks now) :
    ∃ s', s.UpdateThrottles now = some s' ∧
      ∑ t ∈ s.throttled_transactions_.toFinset, (s'.mem t).throttled_byte_count =
        ∑ t ∈ s.throttled_transactions_.toFinset, (s.mem t).throttled_byte_count -
          s.elapsedTicks now * kPacketSize ∧
      s'.throttled_transactions_.Perm s.throttled_transactions_ := by
  obtain ⟨s', hs'⟩ := UpdateThrottles_isSome s now htick (Or.inr hk)
  have hn := UpdateThrottles_naive hs' _ (Int.toNat_of_nonneg hk).symm
  have hm : s'.mem = (naiveTick^[(s.elapsedTicks now).toNat]
      (s.throttled_transactions_, s.mem)).2 := congrArg Prod.snd hn
  have hq : s'.throttled_transactions_ = (naiveTick^[(s.elapsedTicks now).toNat]
      (s.throttled_transactions_, s.mem)).1 := congrArg Prod.fst hn
  refine ⟨s', hs', ?_, ?_⟩
  · rw [hm, naiveTick_iterate_sum _ hne, Int.toNat_of_nonneg hk]
    simp only [kPacketSize]
    ring
  · rw [hq, naiveTick_iterate _ hne]
    exact List.rotate_perm _ _

theorem UpdateThrottles_conserves_witness :
    (queuedPair.tick_length_ ≠ 0 ∧ queuedPair.throttled_transactions_ ≠ [] ∧
      0 ≤ queuedPair.elapsedTicks 3500000) ∧
    ∃ s', queuedPair.UpdateThrottles 3500000 = some s' ∧
      ∑ t ∈ queuedPair.throttled_transactions_.toFinset, (s'.mem t).throttled_byte_count =
        ∑ t ∈ queuedPair.throttled_transactions_.toFinset,
            (queuedPair.mem t).throttled_byte_count -
          queuedPair.elapsedTicks 3500000 * kPacketSize ∧
      s'.throttled_transactions_.Perm queuedPair.throttled_transactions_ :=
  ⟨⟨by decide!, by decide!, by decide!⟩,
    UpdateThrottles_conserves queuedPair 3500000 (by decide!) (by decide!) (by decide!)⟩

/-! ## The queue and the active set -/

theorem ShouldThrottle_IsThrottling {s : DevToolsNetworkInterceptor} {t : Nat}
    (h : s.ShouldThrottle t = true) : s.conditions_.IsThrottling = true := by
  unfold ShouldThrottle at h
  by_cases hc : s.conditions_.IsThrottling = true
  · exact hc
  · simp [hc] at h

/-- One admissible call keeps the queue inside the active set, and the queue empty
while the conditions do not throttle. -/
theorem perform_invariant {s s' : DevToolsNetworkInterceptor} {a : Action}
    (hadm : admissible s a = true) (h : perform s a = some s')
    (h1 : ∀ x ∈ s.throttled_transactions_, x ∈ s.transactions_)
    (h2 : s.conditions_.IsThrottling = false → s.throttled_transactions_ = []) :
    (∀ x ∈ s'.throttled_transactions_, x ∈ s'.transactions_) ∧
    (s'.conditions_.IsThrottling = false → s'.throttled_transactions_ = []) := by
  cases a with
  | add t =>
    simp only [perform, Option.some.injEq] at h
    subst h
    exact ⟨fun x hx => (mem_setInsert t x _).mpr (Or.inr (h1 x hx)), h2⟩
  | remove t now =>
    simp only [perform] at h
    unfold RemoveTransaction at h
    simp only at h
    split at h
    · rename_i hc
      have hno : s.conditions_.IsThrottling = false := by simpa using hc
      simp only [Option.some.injEq] at h
      subst h
      have hq : s.throttled_transactions_ = [] := h2 hno
      refine ⟨?_, fun _ => hq⟩
      intro x hx
      change x ∈ s.throttled_transactions_ at hx
      rw [hq] at hx
      exact absurd hx (List.not_mem_nil x)
    · rename_i hc
      have hyes : s.conditions_.IsThrottling = true := by simpa using hc
      obtain ⟨s2, hs2, h⟩ := Option.map_eq_some'.mp h
      subst h
      have hf := UpdateThrottles_frame hs2
      have hm := UpdateThrottles_mem_queue hs2
      rw [(ArmTimer_frame _ _).2.2.1, (ArmTimer_frame _ _).2.1, (ArmTimer_frame _ _).1]
      refine ⟨?_, ?_⟩
      · intro x hx
        simp only [List.mem_filter] at hx
        rw [hf.2.1]
        refine (mem_setErase t x _).mpr ⟨by simpa using hx.2, ?_⟩
        exact h1 x ((hm x).mp hx.1)
      · intro hno
        rw [hf.1] at hno
        change s.conditions_.IsThrottling = false at hno
        rw [hyes] at hno
        exact absurd hno (by decide)
  | update c now =>
    simp only [perform] at h
    unfold UpdateConditions at h
    obtain ⟨s0, hs0, h⟩ := Option.bind_eq_some.mp h
    have h1' : ∀ x ∈ s0.throttled_transactions_, x ∈ s0.transactions_ := by
      split at hs0
      · intro x hx
        rw [(UpdateThrottles_frame hs0).2.1]
        exact h1 x ((UpdateThrottles_mem_queue hs0 x).mp hx)
      · simp only [Option.some.injEq] at hs0
        subst hs0
        exact h1
    simp only at h
    split at h
    · simp only [Option.some.injEq] at h
      subst h
      rw [(failLoop_frame _ _).2.2.1]
      exact ⟨fun x hx => absurd hx (List.not_mem_nil x), fun _ => rfl⟩
    · split at h
      · rename_i hthr
        obtain ⟨u, _, h⟩ := Option.map_eq_some'.mp h
        subst h
        rw [(ArmTimer_frame _ _).2.2.1, (ArmTimer_frame _ _).2.1, (ArmTimer_frame _ _).1]
        refine ⟨h1', ?_⟩
        intro hno
        change c.IsThrottling = false at hno
        rw [hthr] at hno
        exact absurd hno (by decide)
      · simp only [Option.some.injEq] at h
        subst h
        exact ⟨fun x hx => absurd hx (List.not_mem_nil x), fun _ => rfl⟩
  | throttle t now =>
    simp only [admissible, Bool.and_eq_true, decide_eq_true_eq] at hadm
    simp only [perform] at h
    unfold ThrottleTransaction at h
    obtain ⟨s1, hs1, h⟩ := Option.map_eq_some'.mp h
    subst h
    have hf := UpdateThrottles_frame hs1
    have hm := UpdateThrottles_mem_queue hs1
    rw [(ArmTimer_frame _ _).2.2.1, (ArmTimer_frame _ _).2.1, (ArmTimer_frame _ _).1]
    refine ⟨?_, ?_⟩
    · intro x hx
      simp only [List.mem_append, List.mem_singleton] at hx
      change x ∈ s1.transactions_
      rw [hf.2.1]
      rcases hx with hx | hx
      · exact h1 x ((hm x).mp hx)
      · rw [hx]; exact hadm.1
    · intro hno
      change s1.conditions_.IsThrottling = false at hno
      rw [hf.1, ShouldThrottle_IsThrottling hadm.2] at hno
      exact absurd hno (by decide)
  | timer now =>
    simp only [perform] at h
    unfold OnTimer at h
    obtain ⟨s1, hs1, h⟩ := Option.map_eq_some'.mp h
    subst h
    have hf := UpdateThrottles_frame hs1
    have hm := UpdateThrottles_mem_queue hs1
    rw [(ArmTimer_frame _ _).2.2.1, (ArmTimer_frame _ _).2.1, (ArmTimer_frame _ _).1]
    refine ⟨?_, ?_⟩
    · intro x hx
      simp only [List.mem_filter] at hx
      change x ∈ s1.transactions_
      rw [hf.2.1]
      exact h1 x ((hm x).mp hx.1)
    · intro hno
      change s1.conditions_.IsThrottling = false at hno
      rw [hf.1] at hno
      have hq := h2 hno
      have hq1 : s1.throttled_transactions_ = [] := by
        apply List.eq_nil_iff_forall_not_mem.mpr
        intro x hx
        have := (hm x).mp hx
        rw [hq] at this
        exact absurd this (List.not_mem_nil x)
      simp only [hq1, List.filter_nil]

/-- A sequence of admissible calls keeps the queue inside the active set, and the
queue empty while the conditions do not throttle. -/
theorem runActions_invariant (as : List Action) :
    ∀ (s s' : DevToolsNetworkInterceptor), runActions s as = some s' →
      (∀ x ∈ s.throttled_transactions_, x ∈ s.transactions_) →
      (s.conditions_.IsThrottling = false → s.throttled_transactions_ = []) →
      (∀ x ∈ s'.throttled_transactions_, x ∈ s'.transactions_) ∧
      (s'.conditions_.IsThrottling = false → s'.throttled_transactions_ = []) := by
  induction as with
  | nil =>
    intro s s' h h1 h2
    simp only [runActions, Option.some.injEq] at h
    subst h
    exact ⟨h1, h2⟩
  | cons a rest ih =>
    intro s s' h h1 h2
    simp only [runActions] at h
    split at h
    · rename_i hadm
      obtain ⟨s1, hs1, h⟩ := Option.bind_eq_some.mp h
      have hinv := perform_invariant hadm hs1 h1 h2
      exact ih s1 s' h hinv.1 hinv.2
    · exact absurd h (by simp)

/-- C30: in every state reached from a fresh interceptor by a sequence of calls of
`AddTransaction`, `RemoveTransaction`, `UpdateConditions`, `ThrottleTransaction`
and `OnTimer`, where `ThrottleTransaction(t)` is only called for a registered `t`
with `ShouldThrottle(t)` true, every transaction in the throttled queue is a member
of the active set. -/
theorem runActions_no_dangling (mem : Nat → DevToolsNetworkTransaction) (last_tick : Int)
    (as : List Action) (s' : DevToolsNetworkInterceptor)
    (hrun : runActions (init mem last_tick) as = some s') :
    ∀ x ∈ s'.throttled_transactions_, x ∈ s'.transactions_ :=
  (runActions_invariant as (init mem last_tick) s' hrun
    (fun x hx => absurd hx (List.not_mem_nil x)) (fun _ => rfl)).1

theorem runActions_no_dangling_witness :
    runActions (init (debtMem 1500) 0) exActions = some exRun ∧
    exRun.throttled_transactions_ = [1] ∧ exRun.transactions_ = [1] ∧
    ∀ x ∈ exRun.throttled_transactions_, x ∈ exRun.transactions_ :=
  ⟨rfl, by decide!, by decide!,
    runActions_no_dangling (debtMem 1500) 0 exActions exRun rfl⟩

/-! ## The offline branch with a `Fail()` that calls back -/

/-- With a `Fail()` that makes no call on the interceptor the loop is `failLoop`. -/
theorem failLoopWith_quiet (l : List Nat) :
    ∀ s : DevToolsNetworkInterceptor, failLoopWith (fun _ s1 => s1) l s = failLoop l s := by
  induction l with
  | nil => intro s; rfl
  | cons t rest ih =>
    intro s
    simp only [failLoopWith, failLoop, ih, recordFail]

/-- With a `Fail()` that makes no call on the interceptor the method is
`UpdateConditions`. -/
theorem UpdateConditionsWith_quiet (s : DevToolsNetworkInterceptor)
    (c : DevToolsNetworkConditions) (now : Int) :
    UpdateConditionsWith (fun _ s1 => s1) s c now = s.UpdateConditions c now := by
  unfold UpdateConditionsWith UpdateConditions
  simp only [failLoopWith_quiet]

/-- The state after `Fail()` on `x`, seen from another transaction `t`. -/
theorem onFail_other
    (onFail : Nat → DevToolsNetworkInterceptor → DevToolsNetworkInterceptor)
    (hon : LeavesOthers onFail) (s : DevToolsNetworkInterceptor) (x t : Nat) (htx : t ≠ x) :
    (onFail x (recordFail s x)).conditions_ = s.conditions_ ∧
    (t ∈ (onFail x (recordFail s x)).transactions_ ↔
      t ∈ s.transactions_) ∧
    ((onFail x (recordFail s x)).mem t).request_initiator =
      (s.mem t).request_initiator ∧
    ((onFail x (recordFail s x)).mem t).request =
      (s.mem t).request ∧
    ((onFail x (recordFail s x)).mem t).failed =
      (s.mem t).failed ∧
    (onFail x (recordFail s x)).calls.count (Call.Fail t) =
      s.calls.count (Call.Fail t) := by
  obtain ⟨h1, h2, h3, h4⟩ := hon x (recordFail s x)
  have hc : Call.Fail x ≠ Call.Fail t := by
    intro hh; injection hh with hh; exact htx hh.symm
  refine ⟨h1, h2 t htx, ?_, ?_, ?_, ?_⟩
  · rw [(h3 t htx).1]
    simp only [recordFail, store_other _ _ _ _ htx]
  · rw [(h3 t htx).2.1]
    simp only [recordFail, store_other _ _ _ _ htx]
  · rw [(h3 t htx).2.2]
    simp only [recordFail, store_other _ _ _ _ htx]
  · rw [h4 t]
    simp [recordFail, List.count_append, List.count_cons, hc]

/-- The loop leaves the conditions as they are. -/
theorem failLoopWith_conditions
    (onFail : Nat → DevToolsNetworkInterceptor → DevToolsNetworkInterceptor)
    (hon : LeavesOthers onFail) (l : List Nat) :
    ∀ s : DevToolsNetworkInterceptor, (failLoopWith onFail l s).conditions_ = s.conditions_ := by
  induction l with
  | nil => intro s; rfl
  | cons x rest ih =>
    intro s
    simp only [failLoopWith]
    split
    · exact ih s
    · split
      · exact ih s
      · split
        · rw [ih]
          exact (hon x _).1
        · exact ih s

/-- A transaction the loop does not visit receives no `Fail()` call and keeps its
initiator, request and `failed()` flag. -/
theorem failLoopWith_not_visited
    (onFail : Nat → DevToolsNetworkInterceptor → DevToolsNetworkInterceptor)
    (hon : LeavesOthers onFail) (l : List Nat) :
    ∀ (s : DevToolsNetworkInterceptor) (t : Nat), t ∉ l →
      (failLoopWith onFail l s).calls.count (Call.Fail t) = s.calls.count (Call.Fail t) ∧
      ((failLoopWith onFail l s).mem t).request_initiator = (s.mem t).request_initiator ∧
      ((failLoopWith onFail l s).mem t).request = (s.mem t).request ∧
      ((failLoopWith onFail l s).mem t).failed = (s.mem t).failed := by
  induction l with
  | nil => intro s t _; exact ⟨rfl, rfl, rfl, rfl⟩
  | cons x rest ih =>
    intro s t ht
    have hne : t ≠ x := fun h => ht (by simp [h])
    have hrest : t ∉ rest := fun h => ht (by simp [h])
    simp only [failLoopWith]
    split
    · exact ih s t hrest
    · split
      · exact ih s t hrest
      · split
        · have h := ih (onFail x (recordFail s x)) t hrest
          obtain ⟨_, _, o3, o4, o5, o6⟩ := onFail_other onFail hon s x t hne
          exact ⟨h.1.trans o6, h.2.1.trans o3, h.2.2.1.trans o4, h.2.2.2.trans o5⟩
        · exact ih s t hrest

/-- The number of `Fail()` calls the loop makes on each transaction, over a
duplicate-free copy of the active set. -/
theorem failLoopWith_count
    (onFail : Nat → DevToolsNetworkInterceptor → DevToolsNetworkInterceptor)
    (hon : LeavesOthers onFail) (l : List Nat) :
    ∀ (s : DevToolsNetworkInterceptor) (t : Nat), l.Nodup →
      (failLoopWith onFail l s).calls.count (Call.Fail t) =
        s.calls.count (Call.Fail t) +
          (if t ∈ l ∧ t ∈ s.transactions_ ∧ (s.mem t).request = true ∧
              (s.mem t).failed = false ∧ s.ShouldFail t = true then 1 else 0) := by
  induction l with
  | nil => intro s t _; simp [failLoopWith]
  | cons x rest ih =>
    intro s t hnd
    have hx : x ∉ rest := (List.nodup_cons.mp hnd).1
    have hrest : rest.Nodup := (List.nodup_cons.mp hnd).2
    by_cases htx : t = x
    · subst htx
      simp only [failLoopWith]
      split
      · rename_i h1
        rw [(failLoopWith_not_visited onFail hon rest s t hx).1]
        have : t ∉ s.transactions_ := by simpa using h1
        simp [this]
      · split
        · rename_i h1 h2
          rw [(failLoopWith_not_visited onFail hon rest s t hx).1]
          have : ¬ ((s.mem t).request = true ∧ (s.mem t).failed = false) := by
            intro hh
            rcases hh with ⟨ha, hb⟩
            simp [ha, hb] at h2
          have : ¬ (t ∈ t :: rest ∧ t ∈ s.transactions_ ∧ (s.mem t).request = true ∧
              (s.mem t).failed = false ∧ s.ShouldFail t = true) := by
            intro hh; exact this ⟨hh.2.2.1, hh.2.2.2.1⟩
          rw [if_neg this]; rfl
        · split
          · rename_i h1 h2 h3
            rw [(failLoopWith_not_visited onFail hon rest _ t hx).1]
            have hmem : t ∈ s.transactions_ := by simpa using h1
            have hr : (s.mem t).request = true ∧ (s.mem t).failed = false := by
              cases hrq : (s.mem t).request <;> cases hf : (s.mem t).failed <;>
                simp [hrq, hf] at h2 ⊢
            rw [(hon t _).2.2.2 t]
            simp [recordFail, hmem, hr.1, hr.2, h3, List.count_append]
          · rename_i h1 h2 h3
            rw [(failLoopWith_not_visited onFail hon rest s t hx).1]
            simp [h3]
    · have hih : ∀ s1 : DevToolsNetworkInterceptor,
          (t ∈ s1.transactions_ ↔ t ∈ s.transactions_) →
          s1.conditions_ = s.conditions_ →
          (s1.mem t).request_initiator = (s.mem t).request_initiator →
          (s1.mem t).request = (s.mem t).request →
          (s1.mem t).failed = (s.mem t).failed →
          s1.calls.count (Call.Fail t) = s.calls.count (Call.Fail t) →
          (failLoopWith onFail rest s1).calls.count (Call.Fail t) =
            s.calls.count (Call.Fail t) +
              (if t ∈ x :: rest ∧ t ∈ s.transactions_ ∧ (s.mem t).request = true ∧
                (s.mem t).failed = false ∧ s.ShouldFail t = true then 1 else 0) := by
        intro s1 h1 h2 h3 h4 h5 h6
        rw [ih s1 t hrest, h6]
        simp [ShouldFail, h1, h2, h3, h4, h5, htx]
      simp only [failLoopWith]
      split
      · exact hih s Iff.rfl rfl rfl rfl rfl rfl
      · split
        · exact hih s Iff.rfl rfl rfl rfl rfl rfl
        · split
          · obtain ⟨o1, o2, o3, o4, o5, o6⟩ := onFail_other onFail hon s x t htx
            exact hih _ o2 o1 o3 o4 o5 o6
          · exact hih s Iff.rfl rfl rfl rfl rfl rfl

/-- A transaction for which `ShouldFail` is false keeps its initiator and its
`failed()` flag. -/
theorem failLoopWith_of_not_ShouldFail
    (onFail : Nat → DevToolsNetworkInterceptor → DevToolsNetworkInterceptor)
    (hon : LeavesOthers onFail) (l : List Nat) :
    ∀ (s : DevToolsNetworkInterceptor) (t : Nat), s.ShouldFail t = false →
      ((failLoopWith onFail l s).mem t).request_initiator = (s.mem t).request_initiator ∧
      ((failLoopWith onFail l s).mem t).failed = (s.mem t).failed := by
  induction l with
  | nil => intro s t _; exact ⟨rfl, rfl⟩
  | cons x rest ih =>
    intro s t ht
    simp only [failLoopWith]
    split
    · exact ih s t ht
    · split
      · exact ih s t ht
      · split
        · rename_i h3
          have hne : t ≠ x := by
            intro hh; subst hh; rw [ht] at h3; exact absurd h3 (by simp)
          obtain ⟨o1, _, o3, _, o5, _⟩ := onFail_other onFail hon s x t hne
          have h := ih (onFail x (recordFail s x)) t
            (by simpa [ShouldFail, o1, o3] using ht)
          exact ⟨h.1.trans o3, h.2.trans o5⟩
        · exact ih s t ht

/-- The call of `RemoveTransaction(t)` from inside `Fail()` on `t` leaves the other
transactions alone. -/
theorem failRemovesSelf_LeavesOthers : LeavesOthers failRemovesSelf := by
  intro t s
  unfold failRemovesSelf
  cases h : s.RemoveTransaction t 0 with
  | none => simp
  | some s' =>
    simp only [Option.getD_some]
    have htr := RemoveTransaction_transactions h
    unfold RemoveTransaction at h
    simp only at h
    split at h
    · simp only [Option.some.injEq] at h
      subst h
      refine ⟨rfl, ?_, fun x _ => ⟨rfl, rfl, rfl⟩, fun x => rfl⟩
      intro x hx
      exact ⟨fun hh => ((mem_setErase t x _).mp hh).2, fun hh => (mem_setErase t x _).mpr ⟨hx, hh⟩⟩
    · obtain ⟨s2, hs2, h⟩ := Option.map_eq_some'.mp h
      have hf := UpdateThrottles_frame hs2
      refine ⟨htr.2, ?_, ?_, ?_⟩
      · intro x hx
        rw [htr.1]
        exact ⟨fun hh => ((mem_setErase t x _).mp hh).2,
          fun hh => (mem_setErase t x _).mpr ⟨hx, hh⟩⟩
      · intro x _
        subst h
        rw [(ArmTimer_frame _ _).2.2.2.2.2.2.1]
        exact hf.2.2.2.2.2.2 x
      · intro x
        subst h
        rw [(ArmTimer_frame _ _).2.2.2.2.2.2.2]
        exact congrArg (fun l => List.count (Call.Fail x) l) hf.2.2.2.2.2.1

/-- `UpdateConditionsWith` returns whenever its reconciliation before the swap
does. -/
theorem UpdateConditionsWith_offline_eq
    (onFail : Nat → DevToolsNetworkInterceptor → DevToolsNetworkInterceptor)
    (s s0 : DevToolsNetworkInterceptor) (c : DevToolsNetworkConditions) (now : Int)
    (hoff : c.offline = true) (hrec : s.reconcileBeforeSwap now = some s0) :
    UpdateConditionsWith onFail s c now =
      some (failLoopWith onFail s0.transactions_
        { s0 with conditions_ := c, timer_ := none, throttled_transactions_ := [] }) := by
  unfold reconcileBeforeSwap at hrec
  unfold UpdateConditionsWith
  rw [hrec]
  simp only [Option.some_bind, hoff, if_true]

/-- C3, with a `Fail()` that unregisters another transaction: transactions 0 and 1
are registered, both with an empty initiator, an outstanding request and `failed()`
false; `Fail()` on a transaction calls `RemoveTransaction` on the next one.
`UpdateConditions` with offline conditions calls `Fail()` on 0 only: when the loop
reaches 1 it is no longer in the active set, and it receives no `Fail()` call. -/
theorem UpdateConditions_offline_skips_unregistered :
    exTwoRegistered.transactions_ = [0, 1] ∧
    (exTwoRegistered.mem 1).request_initiator = "" ∧
    (exTwoRegistered.mem 1).request = true ∧
    (exTwoRegistered.mem 1).failed = false ∧
    (UpdateConditionsWith failRemovesNext exTwoRegistered
        { offline := true, download_throughput := 0 } 0).map
        (fun s => (s.calls, s.calls.count (Call.Fail 1), s.transactions_)) =
      some ([Call.Fail 0], 0, [0]) :=
  ⟨by decide!, by decide!, by decide!, by decide!, by decide!⟩

/-- C3, amended: when a call of `Fail()`, if it calls back into the interceptor,
leaves the other transactions alone (`LeavesOthers`: their registration, initiator,
request and `failed()` flag, the conditions, and no `Fail()` call from inside it),
`UpdateConditions` with offline conditions returns and calls `Fail()` exactly once
on each registered transaction with an empty initiator, an outstanding request and
`failed()` false, and on no other transaction; a transaction with a non-empty
initiator has `ShouldFail` false afterwards, receives no `Fail()` call and keeps
its `failed()` flag.  The active set holds each pointer once, and the
reconciliation before the swap, when there is one, is defined. -/
theorem UpdateConditions_offline_fails_once
    (onFail : Nat → DevToolsNetworkInterceptor → DevToolsNetworkInterceptor)
    (s : DevToolsNetworkInterceptor) (c : DevToolsNetworkConditions) (now : Int)
    (hoff : c.offline = true) (hset : s.transactions_.Nodup)
    (hpre : s.conditions_.IsThrottling = true → ∃ s0, s.UpdateThrottles now = some s0)
    (hon : LeavesOthers onFail) :
    ∃ s', UpdateConditionsWith onFail s c now = some s' ∧
      (∀ t, s'.calls.count (Call.Fail t) =
        s.calls.count (Call.Fail t) +
          (if t ∈ s.transactions_ ∧ (s.mem t).request_initiator = "" ∧
              (s.mem t).request = true ∧ (s.mem t).failed = false then 1 else 0)) ∧
      (∀ t, (s.mem t).request_initiator ≠ "" →
        s'.ShouldFail t = false ∧ (s'.mem t).failed = (s.mem t).failed ∧
        s'.calls.count (Call.Fail t) = s.calls.count (Call.Fail t)) := by
  have key : ∀ s2 : DevToolsNetworkInterceptor, s2.conditions_ = c →
      s2.transactions_ = s.transactions_ → s2.calls = s.calls →
      (∀ x, (s2.mem x).request_initiator = (s.mem x).request_initiator ∧
        (s2.mem x).request = (s.mem x).request ∧ (s2.mem x).failed = (s.mem x).failed) →
      (∀ t, (failLoopWith onFail s2.transactions_ s2).calls.count (Call.Fail t) =
        s.calls.count (Call.Fail t) +
          (if t ∈ s.transactions_ ∧ (s.mem t).request_initiator = "" ∧
              (s.mem t).request = true ∧ (s.mem t).failed = false then 1 else 0)) ∧
      (∀ t, (s.mem t).request_initiator ≠ "" →
        (failLoopWith onFail s2.transactions_ s2).ShouldFail t = false ∧
        ((failLoopWith onFail s2.transactions_ s2).mem t).failed = (s.mem t).failed ∧
        (failLoopWith onFail s2.transactions_ s2).calls.count (Call.Fail t) =
          s.calls.count (Call.Fail t)) := by
    intro s2 hc htr hcalls hmem
    have hsf : ∀ t, s2.ShouldFail t = true ↔ (s.mem t).request_initiator = "" := by
      intro t
      rw [ShouldFail_true_iff]
      simp [hc, hoff, (hmem t).1]
    have hcount : ∀ t, (failLoopWith onFail s2.transactions_ s2).calls.count (Call.Fail t) =
        s.calls.count (Call.Fail t) +
          (if t ∈ s.transactions_ ∧ (s.mem t).request_initiator = "" ∧
              (s.mem t).request = true ∧ (s.mem t).failed = false then 1 else 0) := by
      intro t
      rw [failLoopWith_count onFail hon _ _ t (by rw [htr]; exact hset)]
      simp only [hcalls, htr, (hmem t).2.1, (hmem t).2.2, hsf t]
      congr 1
      by_cases h1 : t ∈ s.transactions_ <;> by_cases h2 : (s.mem t).request_initiator = "" <;>
        by_cases h3 : (s.mem t).request = true <;> by_cases h4 : (s.mem t).failed = false <;>
        simp [h1, h2, h3, h4]
    refine ⟨hcount, ?_⟩
    intro t hne
    have hsf2 : s2.ShouldFail t = false := by
      have : ¬ (s2.ShouldFail t = true) := by rw [hsf t]; exact hne
      simpa using this
    have hkeep := failLoopWith_of_not_ShouldFail onFail hon s2.transactions_ s2 t hsf2
    refine ⟨?_, ?_, ?_⟩
    · have : ¬ ((failLoopWith onFail s2.transactions_ s2).ShouldFail t = true) := by
        rw [ShouldFail_true_iff, hkeep.1, (hmem t).1]
        intro hh; exact hne hh.2
      simpa using this
    · rw [hkeep.2]
      exact (hmem t).2.2
    · rw [hcount t]
      simp [hne]
  have hrec : ∃ s0, s.reconcileBeforeSwap now = some s0 ∧
      s0.transactions_ = s.transactions_ ∧ s0.calls = s.calls ∧
      (∀ x, (s0.mem x).request_initiator = (s.mem x).request_initiator ∧
        (s0.mem x).request = (s.mem x).request ∧ (s0.mem x).failed = (s.mem x).failed) := by
    unfold reconcileBeforeSwap
    by_cases hthr : s.conditions_.IsThrottling = true
    · obtain ⟨s0, hs0⟩ := hpre hthr
      have hf := UpdateThrottles_frame hs0
      exact ⟨s0, by rw [if_pos hthr]; exact hs0, hf.2.1, hf.2.2.2.2.2.1, hf.2.2.2.2.2.2⟩
    · exact ⟨s, by rw [if_neg hthr], rfl, rfl, fun _ => ⟨rfl, rfl, rfl⟩⟩
  obtain ⟨s0, hs0, htr, hcalls, hmem⟩ := hrec
  exact ⟨_, UpdateConditionsWith_offline_eq onFail s s0 c now hoff hs0,
    key { s0 with conditions_ := c, timer_ := none, throttled_transactions_ := [] }
      rfl htr hcalls hmem⟩

/-- Witness for C3: in `exRegistered`, whose conditions do not throttle, with a
`Fail()` that unregisters the failed transaction itself: going offline fails
transaction 0 and no other, and leaves 1 and 2 registered. -/
theorem UpdateConditions_offline_fails_once_witness :
    (UpdateConditionsWith failRemovesSelf exRegistered
        { offline := true, download_throughput := 0 } 0).map
        (fun s => (s.calls, s.transactions_)) = some ([Call.Fail 0], [1, 2]) ∧
    ∃ s', UpdateConditionsWith failRemovesSelf exRegistered
        { offline := true, download_throughput := 0 } 0 = some s' ∧
      (∀ t, s'.calls.count (Call.Fail t) =
        exRegistered.calls.count (Call.Fail t) +
          (if t ∈ exRegistered.transactions_ ∧ (exRegistered.mem t).request_initiator = "" ∧
              (exRegistered.mem t).request = true ∧ (exRegistered.mem t).failed = false
            then 1 else 0)) ∧
      (∀ t, (exRegistered.mem t).request_initiator ≠ "" →
        s'.ShouldFail t = false ∧ (s'.mem t).failed = (exRegistered.mem t).failed ∧
        s'.calls.count (Call.Fail t) = exRegistered.calls.count (Call.Fail t)) :=
  ⟨by decide!,
    UpdateConditions_offline_fails_once failRemovesSelf exRegistered
      { offline := true, download_throughput := 0 } 0 rfl (by decide)
      (fun h => absurd h (by decide)) failRemovesSelf_LeavesOthers⟩

end DevTools
